import Mathlib

set_option synthInstance.maxSize 1024

/-!
Verification of the VyPR core against its specification.

This file contains a shallow embedding of the two source modules
`SCFG/construction.py` (symbolic control-flow graph builder, grammar
derivation, name-extraction utilities) and `init_verification.py`
(monitoring event consumer, verdict transmission, startup configuration),
together with theorems settling the frozen claims about them.

Python dynamic failures (TypeError, AttributeError, KeyError, IndexError,
NameError, UnboundLocalError, ValueError) are modelled with an explicit
error monad; a `while` loop that can fail to terminate is modelled with a
`nonTermination` error.  Recursions whose termination Lean cannot see
structurally carry an explicit fuel parameter; insufficient fuel yields the
distinguished `fuel` error, which never occurs for adequate fuel.
-/

/-- Python dynamic errors that the embedded code can raise. -/
inductive PyErr where
  | typeError
  | attributeError
  | keyError
  | indexError
  | nameError
  | unboundLocal
  | valueError
  | nonTermination
  | systemExit
  | fuel
deriving DecidableEq, Repr

/-! ## The abstract syntax tree

Expression nodes, mirroring the `ast` node kinds that the name-extraction
utilities and the builder inspect: `Name(id)`, `Attribute(value, attr)`,
`Subscript(value, slice=Index(v))` (the slice's `Index` wrapper is kept
implicit: `subscript v s` stands for `Subscript(value=v, slice=Index(s))`),
`Call(func, args)`, `Str(s)`, `Num(n)`, `Tuple(elts)`, `Load`, `Index`.
Node kinds the utilities never match on (`BinOp`, ...) are collapsed into
the childless `other` constructor. -/
inductive AExpr where
  | name (id : String)
  | attribute (value : AExpr) (attr : String)
  | subscript (value : AExpr) (sliceValue : AExpr)
  | call (func : AExpr) (args : List AExpr)
  | strE (s : String)
  | num (n : Int)
  | tupleE (elts : List AExpr)
  | load
  | index
  | other (tag : String)
deriving Inhabited

/-- Statement nodes of a function body, mirroring the `ast` statement kinds
`process_block` dispatches on.  `ifStmt` keeps the `orelse` list, in which
an `elif` chain appears as a nested `ifStmt`; `tryStmt` keeps the list of
`ExceptHandler` bodies; `raiseStmt` keeps the raised expression
(`Raise.type`), `ret` the returned expression (`Return.value`). -/
inductive Stmt where
  | assign (targets : List AExpr) (value : AExpr)
  | exprStmt (value : AExpr)
  | passStmt
  | ret (value : Option AExpr)
  | raiseStmt (ty : Option AExpr)
  | ifStmt (test : AExpr) (body : List Stmt) (orelse : List Stmt)
  | tryStmt (body : List Stmt) (handlers : List (List Stmt))
  | forStmt (target : AExpr) (iter : AExpr) (body : List Stmt)
  | whileStmt (test : AExpr) (body : List Stmt)
deriving Inhabited

/-! ## Name-extraction utilities (`SCFG/construction.py`, lines 23-99) -/

/-- Direct children of an expression node in `ast` field order, as
`ast.walk` would enqueue them (the `Index` wrapper of a subscript slice is
transparent in our model, so the slice value appears directly). -/
def astChildren : AExpr → List AExpr
  | .name _ => []
  | .attribute v _ => [v]
  | .subscript v s => [v, s]
  | .call f args => f :: args
  | .strE _ => []
  | .num _ => []
  | .tupleE elts => elts
  | .load => []
  | .index => []
  | .other _ => []

mutual

/-- Size of an expression tree (counts nodes), used to bound the depth of
the breadth-first walk. -/
def AExpr.size : AExpr → Nat
  | .name _ => 1
  | .attribute v _ => 1 + v.size
  | .subscript v s => 1 + v.size + s.size
  | .call f args => 1 + f.size + AExpr.sizeList args
  | .tupleE elts => 1 + AExpr.sizeList elts
  | .strE _ => 1
  | .num _ => 1
  | .load => 1
  | .index => 1
  | .other _ => 1

/-- Total size of a list of expression trees. -/
def AExpr.sizeList : List AExpr → Nat
  | [] => 1
  | e :: rest => 1 + e.size + AExpr.sizeList rest

end

/-- Breadth-first traversal by levels: the queue-based `ast.walk` visits
nodes exactly in the concatenation of successive levels.  The fuel bounds
the number of levels; the total size of the roots always suffices because
each level strictly descends the tree. -/
def bfsLevels : Nat → List AExpr → List AExpr
  | 0, _ => []
  | _, [] => []
  | n + 1, level => level ++ bfsLevels n (level.flatMap astChildren)

/-- All nodes visited by `ast.walk` started on the given roots. -/
def astWalk (roots : List AExpr) : List AExpr :=
  bfsLevels (AExpr.sizeList roots) roots

/-- Whether a node is an `ast.Call`. -/
def AExpr.isCall : AExpr → Bool
  | .call _ _ => true
  | _ => false

/-- The `Call` descendants of the roots in `ast.walk` order
(`all_calls` in `get_function_name_strings`). -/
def astWalkCalls (roots : List AExpr) : List AExpr :=
  (astWalk roots).filter AExpr.isCall

/-- The `while not (type(current_item) is str)` chase inside
`get_function_name_strings`: follow `Call.func`, `Attribute.value`
(recording `attr`), `Subscript.value`; stop at `Name` (recording `id`) or
`Str` (recording nothing).  On any other node kind the Python loop spins
forever, which we surface as `nonTermination`. -/
def chaseCallName : AExpr → Except PyErr (List String)
  | .call f _ => chaseCallName f
  | .attribute v a => (chaseCallName v).map (fun rest => a :: rest)
  | .name id => .ok [id]
  | .strE _ => .ok []
  | .subscript v _ => chaseCallName v
  | _ => .error .nonTermination

/-- Separator used when joining reversed name chains. -/
def dotSep : String := "."

/-- Shared body of `get_function_name_strings`: collect every `Call`
descendant of the roots and join its reversed name chain with dots.
(The Python code accumulates the chains in a `dict` keyed by the call
node; Python 2 gives those values back in unspecified order, which we fix
to the breadth-first walk order.) -/
def functionNameStringsOf (roots : List AExpr) : Except PyErr (List String) :=
  ((astWalkCalls roots).mapM chaseCallName).map
    (List.map (fun chain => String.intercalate dotSep chain.reverse))

/-- Lines 23-50: `get_function_name_strings(obj)` for an expression node. -/
def get_function_name_strings (obj : AExpr) : Except PyErr (List String) :=
  functionNameStringsOf [obj]

/-- Token for a string subscript, `"[\"%s\"]"`. -/
def strSubscriptToken (s : String) : String :=
  "[\"" ++ s ++ "\"]"

/-- Token for a numeric subscript, `"[%i]"`. -/
def numSubscriptToken (n : Int) : String :=
  "[" ++ toString n ++ "]"

/-- Token for a name subscript, `"[%s]"`. -/
def nameSubscriptToken (id : String) : String :=
  "[" ++ id ++ "]"

/-- Prepend a token to the result of a recursive `get_reversed_string_list`
call; `[token] + None` is a Python `TypeError`. -/
def consOntoReversed (tok : String) :
    Except PyErr (Option (List String)) → Except PyErr (Option (List String))
  | .ok (some l) => .ok (some (tok :: l))
  | .ok none => .error .typeError
  | .error e => .error e

/-- Lines 53-78: `get_reversed_string_list(obj, omit_subscripts=False)`.
A branch that falls off the end of the Python function returns `None`,
modelled as `.ok none`.  Note that the `omit_subscripts` recursive call on
line 64 drops the keyword argument, so nested subscripts are formatted
even when the outer one is omitted — we reproduce that. -/
def get_reversed_string_list (obj : AExpr) (omit_subscripts : Bool) :
    Except PyErr (Option (List String)) :=
  match obj with
  | .name id => .ok (some [id])
  | .attribute v a => consOntoReversed a (get_reversed_string_list v omit_subscripts)
  | .subscript v s =>
    if omit_subscripts then
      get_reversed_string_list v false
    else
      match s with
      | .strE t => consOntoReversed (strSubscriptToken t) (get_reversed_string_list v omit_subscripts)
      | .num n => consOntoReversed (numSubscriptToken n) (get_reversed_string_list v omit_subscripts)
      | .name id => consOntoReversed (nameSubscriptToken id) (get_reversed_string_list v omit_subscripts)
      | _ => .ok none
  | .call f args => (get_function_name_strings (.call f args)).map some
  | .strE s => .ok (some [s])
  | _ => .ok none

/-- The loop of `get_attr_name_string` (lines 90-99): walk the re-reversed
token list with its index, bailing out with `None` when a token already
contains a dot and there is more than one token, concatenating with a dot
separator except for leading or bracketed tokens.  `part[0]` on an empty
token is a Python `IndexError`. -/
def attrJoinGo : List String → Nat → Nat → String → Except PyErr (Option String)
  | [], _, _, acc => .ok (some acc)
  | p :: rest, n, total, acc =>
    if p.toList.contains '.' && decide (1 < total) then .ok none
    else
      match p.toList with
      | [] => .error .indexError
      | c :: _ =>
        if c != '[' then
          attrJoinGo rest (n + 1) total (acc ++ (if n != 0 then dotSep else "") ++ p)
        else
          attrJoinGo rest (n + 1) total (acc ++ p)

/-- Lines 81-99: `get_attr_name_string(obj, omit_subscripts=False)`.
`Load`/`Index` contexts return `None` immediately; otherwise the reversed
string list is re-reversed and joined — slicing `None` (`None[::-1]`) is a
Python `TypeError`, which is how an unsupported node kind fails here. -/
def get_attr_name_string (obj : AExpr) (omit_subscripts : Bool) :
    Except PyErr (Option String) :=
  match obj with
  | .load => .ok none
  | .index => .ok none
  | e =>
    match get_reversed_string_list e omit_subscripts with
    | .error err => .error err
    | .ok none => .error .typeError
    | .ok (some l) => attrJoinGo l.reverse 0 l.reverse.length ""

/-! ### The supported fragment of the extraction contract -/

/-- A subscript slice value the extraction knows how to format. -/
def sliceSupported : AExpr → Bool
  | .strE _ => true
  | .num _ => true
  | .name _ => true
  | _ => false

/-- A call whose name chase terminates and produces a non-empty dotted
name (so the joined token is never the empty string). -/
def chaseNice (e : AExpr) : Bool :=
  match chaseCallName e with
  | .ok parts => String.intercalate dotSep parts.reverse != ""
  | .error _ => false

/-- The fragment of expression shapes on which the name-extraction
utilities are within their contract: names and attribute chains with
non-empty identifiers, subscripts with string/number/name slices, calls
all of whose call descendants have terminating, non-empty name chases,
and non-empty string literals. -/
def extractionSupported : AExpr → Bool
  | .name id => id != ""
  | .strE s => s != ""
  | .attribute v a => a != "" && extractionSupported v
  | .subscript v s => sliceSupported s && extractionSupported v
  | .call f args => (astWalkCalls [AExpr.call f args]).all chaseNice
  | _ => false

/-- Node kinds outside the contract of `get_reversed_string_list`: every
branch of the utility falls through, returning `None`. -/
def topUnsupported : AExpr → Bool
  | .num _ => true
  | .tupleE _ => true
  | .load => true
  | .index => true
  | .other _ => true
  | _ => false

/-! ## SCFG vertex and edge model (`SCFG/construction.py`, lines 102-219)

Vertices and edges live in arenas (`vertexArr`, `edgePool`) and are
referred to by index; object-attribute mutation becomes arena update.
`edgesPub` is the published `self.edges` list — notably, the for-loop
skip edge is attached to its vertex but never appended to `self.edges`. -/

/-- Sentinel names and condition strings used by the builder. -/
def nmConditional : String := "conditional"

/-- Sentinel name of a post-conditional merge vertex. -/
def nmPostConditional : String := "post-conditional"

/-- Sentinel name of a try-catch head vertex. -/
def nmTryCatch : String := "try-catch"

/-- Sentinel name of a post-try-catch merge vertex. -/
def nmPostTryCatch : String := "post-try-catch"

/-- Sentinel name of a loop head vertex. -/
def nmLoop : String := "loop"

/-- Sentinel name of a post-loop vertex. -/
def nmPostLoop : String := "post-loop"

/-- Instruction string of synthetic control-flow edges. -/
def sControlFlow : String := "control-flow"

/-- Condition string of the edges entering a merge vertex. -/
def sPostCondition : String := "post-condition"

/-- Instruction and condition string of loop back edges. -/
def sLoopJump : String := "loop-jump"

/-- Instruction string of the loop-skip edge. -/
def sLoopSkip : String := "loop-skip"

/-- Instruction and condition string of body-tail-to-post-loop edges. -/
def sPostLoop : String := "post-loop"

/-- Instruction string of the edge entering a loop head. -/
def sLoop : String := "loop"

/-- Condition string of while-loop back edges. -/
def sFor : String := "for"

/-- Condition tag of a loop body. -/
def sEnterLoop : String := "enter-loop"

/-- Tag recorded at the end of a loop entry in the branch log. -/
def sEndLoop : String := "end-loop"

/-- Condition tag of a while body. -/
def sWhile : String := "while"

/-- Condition tag of a try body. -/
def sTryCatchMain : String := "try-catch-main"

/-- Condition tag of an except-handler body. -/
def sTryCatchHandler : String := "try-catch-handler"

/-- Condition appended after a conditional. -/
def sSkipConditional : String := "skip-conditional"

/-- Condition appended after a try-catch. -/
def sSkipTryCatch : String := "skip-try-catch"

/-- Condition appended after a for loop. -/
def sSkipForLoop : String := "skip-for-loop"

/-- Name recorded for a `pass` statement. -/
def sPass : String := "pass"

/-- An element of a condition list: a positive test, a negated formula
(`formula_tree.lnot(...)` applied to an AST expression), or a tag string. -/
inductive CondElem where
  | expr (e : AExpr)
  | lnotE (e : AExpr)
  | str (s : String)

instance : Inhabited CondElem := ⟨.str ""⟩

/-- The `condition` attribute of an edge: `CFGEdge.__init__` copies list
conditions and stores any non-list condition (a bare string for synthetic
edges, `entry.iter` for loop entry, `lnot(entry.iter)` for loop skip)
unchanged. -/
inductive EdgeCond where
  | list (cs : List CondElem)
  | str (s : String)
  | expr (e : AExpr)
  | lnotE (e : AExpr)

instance : Inhabited EdgeCond := ⟨.list []⟩

/-- The `instruction` attribute of an edge: an AST statement or one of the
builder's instruction strings. -/
inductive Instr where
  | stmt (s : Stmt)
  | str (s : String)

instance : Inhabited Instr := ⟨.str ""⟩

/-- Whether an instruction is the `"loop-skip"` string. -/
def Instr.isLoopSkip : Instr → Bool
  | .str s => s == sLoopSkip
  | _ => false

/-- The `operates_on` attribute of an edge: a bare string-or-null for a
plain assignment, a list of names, or the one-element list containing the
instruction itself (the `else` branch on line 194). -/
inductive OperatesOn where
  | single (x : Option String)
  | names (xs : List (Option String))
  | selfInstr

instance : Inhabited OperatesOn := ⟨.selfInstr⟩

/-- A vertex record (`CFGVertex`).  The merge pointers use
`Option (Option Nat)`: `none` means the Python attribute was never set
(reading it raises `AttributeError`), `some none` means it was set to
`None`, `some (some v)` points at vertex `v`. -/
structure VertexRec where
  nameChanged : List (Option String)
  pathLength : Option Nat := none
  structureObj : Option Stmt := none
  edges : List Nat := []
  previousEdge : Option Nat := none
  postConditionalVertex : Option (Option Nat) := none
  postTryCatchVertex : Option (Option Nat) := none

instance : Inhabited VertexRec := ⟨{ nameChanged := [] }⟩

/-- An edge record (`CFGEdge`). -/
structure EdgeRec where
  condition : EdgeCond
  instruction : Instr
  operatesOn : OperatesOn
  inputVariables : List String
  source : Option Nat := none
  target : Option Nat := none

instance : Inhabited EdgeRec :=
  ⟨{ condition := default, instruction := default, operatesOn := default, inputVariables := [] }⟩

/-- Entries of `branch_initial_statements` (tagged tuples in the source). -/
inductive BranchEntry where
  | postConditional (s : Stmt)
  | conditional (first : Stmt) (n : Nat)
  | conditionalNoElse (s : Stmt) (n : Nat)
  | postTryCatch (s : Stmt)
  | tryCatch (first : Stmt) (role : String)
  | loop (first : Stmt) (enterTag : String) (forNode : Stmt) (endTag : String)

/-- The symbolic control-flow graph (`class CFG`). -/
structure CFG where
  vertexArr : List VertexRec
  edgePool : List EdgeRec
  edgesPub : List Nat
  startingVertex : Nat
  returnStatements : List Nat
  branchInitial : List BranchEntry
  referenceVariables : List String

/-- Lines 211-219: `CFG.__init__` — one empty starting vertex. -/
def initCFG (refVars : List String) : CFG :=
  { vertexArr := [{ nameChanged := [] }], edgePool := [], edgesPub := [],
    startingVertex := 0, returnStatements := [], branchInitial := [],
    referenceVariables := refVars }

/-- Read a vertex of the arena. -/
def CFG.getVertex (g : CFG) (i : Nat) : VertexRec :=
  g.vertexArr.getD i default

/-- Read an edge of the arena. -/
def CFG.getEdge (g : CFG) (i : Nat) : EdgeRec :=
  g.edgePool.getD i default

/-- Replace a vertex of the arena. -/
def CFG.setVertex (g : CFG) (i : Nat) (v : VertexRec) : CFG :=
  { g with vertexArr := g.vertexArr.set i v }

/-- Replace an edge of the arena. -/
def CFG.setEdge (g : CFG) (i : Nat) (e : EdgeRec) : CFG :=
  { g with edgePool := g.edgePool.set i e }

/-- Append a fresh vertex (`self.vertices.append`), returning its index. -/
def CFG.pushVertex (g : CFG) (v : VertexRec) : CFG × Nat :=
  ({ g with vertexArr := g.vertexArr ++ [v] }, g.vertexArr.length)

/-- Construct a `CFGEdge` whose `operates_on` has already been computed,
allocating it in the pool. -/
def CFG.newEdgeRaw (g : CFG) (cond : EdgeCond) (instr : Instr)
    (opOn : OperatesOn) (iv : List String) : CFG × Nat :=
  ({ g with
      edgePool := g.edgePool ++
        [{ condition := cond, instruction := instr, operatesOn := opOn,
           inputVariables := iv }] },
   g.edgePool.length)

/-- Publish an edge into `self.edges`. -/
def CFG.publish (g : CFG) (e : Nat) : CFG :=
  { g with edgesPub := g.edgesPub ++ [e] }

/-- Lines 149-151: `add_outgoing_edge` — set the edge's source and append
it to the vertex's outgoing list. -/
def CFG.addOutgoing (g : CFG) (v e : Nat) : CFG :=
  let g1 := g.setEdge e { g.getEdge e with source := some v }
  g1.setVertex v { g1.getVertex v with edges := (g1.getVertex v).edges ++ [e] }

/-- Lines 196-200: `set_target_state` — set the edge's target and the
target's `previous_edge` back-reference. -/
def CFG.setTargetState (g : CFG) (e v : Nat) : CFG :=
  let g1 := g.setEdge e { g.getEdge e with target := some v }
  g1.setVertex v { g1.getVertex v with previousEdge := some e }

/-- The `entry.type.func.id` access shared by the `Raise` branches of
vertex and edge construction (lines 142 and 190): the raised expression
must be a call of a bare name. -/
def raiseExcName : Option AExpr → Except PyErr String
  | some (.call (.name id) _) => .ok id
  | _ => .error .attributeError

/-- Lines 172-194: the `operates_on` computation of `CFGEdge.__init__`. -/
def mkOperatesOn (instr : Instr) : Except PyErr OperatesOn :=
  match instr with
  | .stmt (Stmt.assign targets value) =>
    if value.isCall then
      match targets.head? with
      | none => .error .indexError
      | some (.tupleE elts) => do
        let xs ← elts.mapM (fun t => get_attr_name_string t false)
        let ns ← get_function_name_strings value
        .ok (.names (xs ++ ns.map some))
      | some t0 => do
        let x ← get_attr_name_string t0 false
        let ns ← get_function_name_strings value
        .ok (.names (x :: ns.map some))
    else
      match targets.head? with
      | none => .error .indexError
      | some t0 => (get_attr_name_string t0 false).map .single
  | .stmt (Stmt.exprStmt v) =>
    if v.isCall then
      (get_function_name_strings v).map (fun ns => .names (ns.map some))
    else .ok .selfInstr
  | .stmt (Stmt.ret (some v)) =>
    if v.isCall then
      (get_function_name_strings v).map (fun ns => .names (ns.map some))
    else .ok .selfInstr
  | .stmt (Stmt.raiseStmt ty) =>
    (raiseExcName ty).map (fun id => .names [some id])
  | .stmt Stmt.passStmt => .ok (.names [some sPass])
  | _ => .ok .selfInstr

/-- Construct a `CFGEdge` (lines 162-194): deep-copy of a list condition
is the identity on our pure values; `operates_on` is derived from the
instruction and can raise through the name-extraction utilities. -/
def CFG.newEdge (g : CFG) (cond : EdgeCond) (instr : Instr) (iv : List String) :
    Except PyErr (CFG × Nat) :=
  (mkOperatesOn instr).map (fun o => g.newEdgeRaw cond instr o iv)

/-- Construct a synthetic `CFGEdge` with string condition and instruction;
its `operates_on` lands in the `else` branch. -/
def CFG.newEdgeStr (g : CFG) (cond instr : String) : CFG × Nat :=
  g.newEdgeRaw (.str cond) (.str instr) .selfInstr []

/-- Lines 117-144: the `_name_changed` computation of `CFGVertex.__init__`.
For an assignment the source walks the whole `Assign` node
(`get_function_name_strings(entry)`), so calls inside the targets are also
collected; a statement kind with no branch leaves `_name_changed` unset,
which we surface as `attributeError`. -/
def mkNameChanged (entry : Option Stmt) (refVars : List String) :
    Except PyErr (List (Option String)) :=
  match entry with
  | none => .ok []
  | some (Stmt.assign targets value) =>
    if value.isCall then
      match targets.head? with
      | none => .error .indexError
      | some (.tupleE elts) => do
        let xs ← elts.mapM (fun t => get_attr_name_string t false)
        let ns ← functionNameStringsOf (targets ++ [value])
        .ok (xs ++ ns.map some)
      | some t0 => do
        let x ← get_attr_name_string t0 false
        let ns ← functionNameStringsOf (targets ++ [value])
        .ok (x :: ns.map some)
    else
      match targets.head? with
      | none => .error .indexError
      | some t0 => (get_attr_name_string t0 false).map (fun x => [x])
  | some (Stmt.exprStmt v) =>
    match v with
    | .call f args =>
      (get_function_name_strings (.call f args)).map
        (fun ns => ns.map some ++ (if 0 < args.length then refVars.map some else []))
    | _ => .error .attributeError
  | some (Stmt.ret (some v)) =>
    if v.isCall then (get_function_name_strings v).map (List.map some)
    else .ok []
  | some (Stmt.ret none) => .ok []
  | some (Stmt.raiseStmt ty) =>
    (raiseExcName ty).map (fun id => [some id])
  | some Stmt.passStmt => .ok [some sPass]
  | some _ => .error .attributeError

/-- Allocate a labelled vertex: `CFGVertex(entry, path_length=...,
reference_variables=...)` followed by `self.vertices.append`. -/
def CFG.newVertexFrom (g : CFG) (entry : Option Stmt) (pl : Option Nat)
    (refVars : List String) : Except PyErr (CFG × Nat) :=
  (mkNameChanged entry refVars).map
    (fun nc => g.pushVertex { nameChanged := nc, pathLength := pl })

/-- Create one instruction edge per current vertex and attach it as
outgoing (first half of every straight-line case). -/
def mkEdgesFromAll (g : CFG) (cur : List Nat) (cond : EdgeCond)
    (instr : Instr) (iv : List String) : Except PyErr (CFG × List Nat) :=
  match cur with
  | [] => .ok (g, [])
  | v :: rest => do
    let (g1, e) ← g.newEdge cond instr iv
    let g2 := g1.addOutgoing v e
    let (g3, es) ← mkEdgesFromAll g2 rest cond instr iv
    .ok (g3, e :: es)

/-- Publish a batch of edges (`self.edges += new_edges`). -/
def publishAll (g : CFG) (es : List Nat) : CFG :=
  match es with
  | [] => g
  | e :: rest => publishAll (g.publish e) rest

/-- Direct a batch of edges at a vertex
(`for edge in new_edges: edge.set_target_state(new_vertex)`). -/
def setTargetAll (g : CFG) (es : List Nat) (v : Nat) : CFG :=
  match es with
  | [] => g
  | e :: rest => setTargetAll (g.setTargetState e v) rest v

/-- The shared shape of the straight-line statement cases of
`process_block` (lines 237-339): an edge from every current vertex
carrying the instruction with a copy of the current condition, one new
vertex labelled from the instruction, publication, and retargeting.
Returns the new one-element frontier. -/
def straightLineStep (g : CFG) (cur : List Nat) (condition : List CondElem)
    (iv : List String) (entry : Stmt) (pl : Nat) (refVars : List String) :
    Except PyErr (CFG × List Nat) := do
  let (g1, newEdges) ← mkEdgesFromAll g cur (.list condition) (.stmt entry) iv
  let (g2, nv) ← g1.newVertexFrom (some entry) (some pl) refVars
  let g3 := publishAll g2 newEdges
  let g4 := setTargetAll g3 newEdges nv
  .ok (g4, [nv])

/-- Redirect every current vertex into a synthetic head vertex via a
`control-flow` edge with the given condition string (conditional head,
lines 377-381; try-catch head, lines 458-462). -/
def redirectAll (g : CFG) (cur : List Nat) (condStr : String) (head : Nat) : CFG :=
  match cur with
  | [] => g
  | v :: rest =>
    let (g1, e) := g.newEdgeStr condStr sControlFlow
    let g2 := g1.publish e
    let g3 := g2.addOutgoing v e
    let g4 := g3.setTargetState e head
    redirectAll g4 rest condStr head

/-- Whether a branch tail's inbound edge carries a return or raise
(the filter on lines 411-415 and 503-507 keeps the complement). -/
def terminatedTail (g : CFG) (v : Nat) : Bool :=
  match (g.getVertex v).previousEdge with
  | none => false
  | some e =>
    match (g.getEdge e).instruction with
    | .stmt (.ret _) => true
    | .stmt (.raiseStmt _) => true
    | _ => false

/-- Store the merge pointer on a head vertex: `post_conditional_vertex`
for a conditional, `post_try_catch_vertex` for a try-catch. -/
def setMergePtr (g : CFG) (head : Nat) (isTry : Bool) (v : Option Nat) : CFG :=
  if isTry then
    g.setVertex head { g.getVertex head with postTryCatchVertex := some v }
  else
    g.setVertex head { g.getVertex head with postConditionalVertex := some v }

/-- Connect every surviving branch tail to the merge vertex via an empty
`control-flow` edge (lines 426-431 and 517-522: create, publish,
set target, attach as outgoing). -/
def mergeEdgesFromAll (g : CFG) (survivors : List Nat) (condStr : String)
    (mergeV : Nat) : CFG :=
  match survivors with
  | [] => g
  | v :: rest =>
    let (g1, e) := g.newEdgeStr condStr sControlFlow
    let g2 := g1.publish e
    let g3 := g2.setTargetState e mergeV
    let g4 := g3.addOutgoing v e
    mergeEdgesFromAll g4 rest condStr mergeV

/-- Lines 409-435 (conditional) and 501-526 (try-catch): filter out branch
tails whose inbound edge was a return or raise; if any survive, create the
synthetic merge vertex, record it on the head, and connect each survivor
to it; otherwise record a null merge pointer.  Returns the new frontier. -/
def finishBranches (g : CFG) (head : Nat) (tails : List Nat) (isTry : Bool) :
    CFG × List Nat :=
  let cur := tails.filter (fun v => !terminatedTail g v)
  match cur with
  | [] => (setMergePtr g head isTry none, [])
  | _ :: _ =>
    let (g1, mv) := g.pushVertex
      { nameChanged := [some (if isTry then nmPostTryCatch else nmPostConditional)] }
    let g2 := setMergePtr g1 head isTry (some mv)
    let g3 := mergeEdgesFromAll g2 cur
      (if isTry then nmPostTryCatch else sPostCondition) mv
    (g3, [mv])

/-- Lines 464-473: log the try-catch branch entry points — the main body's
first statement, then each handler's first statement. -/
def logTryEntries (g : CFG) (body : List Stmt) (handlers : List (List Stmt)) :
    Except PyErr CFG := do
  let firstMain ← match body.head? with
    | none => .error PyErr.indexError
    | some s => .ok s
  let g := { g with branchInitial := g.branchInitial ++ [.tryCatch firstMain sTryCatchMain] }
  logHandlerEntries g handlers
where
  /-- Log one `try-catch-handler` entry per handler body. -/
  logHandlerEntries (g : CFG) : List (List Stmt) → Except PyErr CFG
    | [] => .ok g
    | hb :: rest => do
      let first ← match hb.head? with
        | none => .error PyErr.indexError
        | some s => .ok s
      logHandlerEntries
        { g with branchInitial := g.branchInitial ++ [.tryCatch first sTryCatchHandler] }
        rest

/-- Lines 545-549: connect every current vertex to the loop head via an
edge whose condition is the loop's iterable. -/
def linkToLoopAll (g : CFG) (cur : List Nat) (iter : AExpr) (pre : Nat) : CFG :=
  match cur with
  | [] => g
  | v :: rest =>
    let (g1, e) := g.newEdgeRaw (.expr iter) (.str sLoop) .selfInstr []
    let g2 := g1.publish e
    let g3 := g2.addOutgoing v e
    let g4 := g3.setTargetState e pre
    linkToLoopAll g4 rest iter pre

/-- Lines 555-559: the additional input variables induced by a for loop's
target — a single name or a tuple of names; any other shape leaves
`additional_input_variables` unbound and line 561 then raises. -/
def additionalInputVariables : AExpr → Except PyErr (List String)
  | .name id => .ok [id]
  | .tupleE elts =>
    elts.mapM (fun e =>
      match e with
      | .name id => .ok id
      | _ => .error PyErr.attributeError)
  | _ => .error .unboundLocal

/-- Lines 570-582: from every body-final vertex add a `loop-jump` edge back
to each base vertex and a `post-loop` edge to the post-loop vertex. -/
def addLoopBackEdges (g : CFG) (finals bases : List Nat) (post : Nat) : CFG :=
  match finals with
  | [] => g
  | f :: rest => addLoopBackEdges (loopBackOne g f bases) rest bases post
where
  /-- Add both edges for one final vertex against each base vertex. -/
  loopBackOne (g : CFG) (f : Nat) : List Nat → CFG
    | [] => g
    | b :: bs =>
      let (g1, e1) := g.newEdgeStr sLoopJump sLoopJump
      let g2 := g1.publish e1
      let g3 := g2.addOutgoing f e1
      let g4 := g3.setTargetState e1 b
      let (g5, e2) := g4.newEdgeStr sPostLoop sPostLoop
      let g6 := g5.publish e2
      let g7 := g6.addOutgoing f e2
      let g8 := g7.setTargetState e2 post
      loopBackOne g8 f bs

/-- Lines 607-612: while-loop back edges from every body-final vertex to
each base vertex. -/
def addWhileBackEdges (g : CFG) (finals bases : List Nat) : CFG :=
  match finals with
  | [] => g
  | f :: rest => addWhileBackEdges (whileBackOne g f bases) rest bases
where
  /-- Add the back edge for one final vertex against each base vertex. -/
  whileBackOne (g : CFG) (f : Nat) : List Nat → CFG
    | [] => g
    | b :: bs =>
      let (g1, e) := g.newEdgeStr sFor sLoopJump
      let g2 := g1.publish e
      let g3 := g2.addOutgoing f e
      let g4 := g3.setTargetState e b
      whileBackOne g4 f bs

/-- Lines 352-371: flatten the elif chain hanging off an `orelse` list into
`(condition, body)` pairs, accumulating negations of earlier tests; the
boolean reports whether a final `else` block was found.  Only the head of
each `orelse` is inspected, exactly as in the source.  Fueled because the
chain descends through nested list elements. -/
def collectPairsF : Nat → List Stmt → List CondElem →
    Except PyErr (List (List CondElem × List Stmt) × Bool)
  | 0, _, _ => .error .fuel
  | _ + 1, [], _ => .ok ([], false)
  | fuel + 1, Stmt.ifStmt t b o :: _, negs =>
    (collectPairsF fuel o (negs ++ [.lnotE t])).map
      (fun pe => ((negs ++ [CondElem.expr t], b) :: pe.1, pe.2))
  | _ + 1, block, negs => .ok ([(negs, block)], true)

mutual

/-- Lines 221-616: `process_block(block, starting_vertices, condition,
input_variables)`.  The fuel only bounds recursion depth; every recursive
call in the source descends into sub-statements, so any fuel exceeding the
nesting depth of the block gives the faithful result. -/
def processBlockF : Nat → List Stmt → CFG → Option (List Nat) →
    List CondElem → List String → Except PyErr (CFG × List Nat)
  | 0, _, _, _, _, _ => .error .fuel
  | fuel + 1, block, g, startingVertices, condition, inputVariables =>
    blockGoF fuel block g (startingVertices.getD [g.startingVertex])
      condition inputVariables 0

/-- The statement loop of `process_block`, threading the current frontier,
the (mutated) condition list and the path length. -/
def blockGoF : Nat → List Stmt → CFG → List Nat → List CondElem →
    List String → Nat → Except PyErr (CFG × List Nat)
  | _, [], g, cur, _, _, _ => .ok (g, cur)
  | 0, _ :: _, _, _, _, _, _ => .error .fuel
  | fuel + 1, s :: rest, g, cur, condition, iv, pl => do
    let r ← processStmtF fuel s g cur condition iv pl rest.isEmpty
    blockGoF fuel rest r.1 r.2.1 r.2.2.1 iv r.2.2.2

/-- One iteration of the statement loop: dispatch on the statement kind.
Returns the updated graph, frontier, condition list and path length. -/
def processStmtF : Nat → Stmt → CFG → List Nat → List CondElem →
    List String → Nat → Bool → Except PyErr (CFG × List Nat × List CondElem × Nat)
  | 0, _, _, _, _, _, _, _ => .error .fuel
  | fuel + 1, entry, g, cur, condition, iv, pl, isLast =>
    match entry with
    | .assign targets value => do
      -- lines 237-263 (with reference variables)
      let r ← straightLineStep g cur condition iv (.assign targets value) (pl + 1)
        g.referenceVariables
      .ok (r.1, r.2, condition, pl + 1)
    | .exprStmt v =>
      if v.isCall then do
        -- an expression statement is straight-line only when it is a call
        let r ← straightLineStep g cur condition iv (.exprStmt v) (pl + 1)
          g.referenceVariables
        .ok (r.1, r.2, condition, pl + 1)
      else
        -- no branch of the source matches: the statement contributes nothing
        .ok (g, cur, condition, pl)
    | .passStmt => do
      -- lines 265-289 (no reference variables)
      let r ← straightLineStep g cur condition iv .passStmt (pl + 1) []
      .ok (r.1, r.2, condition, pl + 1)
    | .ret v => do
      -- lines 291-315, additionally logging the return vertex
      let r ← straightLineStep g cur condition iv (.ret v) (pl + 1) []
      let g1 := { r.1 with returnStatements := r.1.returnStatements ++ r.2 }
      .ok (g1, r.2, condition, pl + 1)
    | .raiseStmt ty => do
      -- lines 317-339
      let r ← straightLineStep g cur condition iv (.raiseStmt ty) (pl + 1) []
      .ok (r.1, r.2, condition, pl + 1)
    | .ifStmt test body orelse => do
      -- lines 341-444
      let g := if !isLast
        then { g with branchInitial := g.branchInitial ++ [.postConditional (.ifStmt test body orelse)] }
        else g
      let pe ← collectPairsF fuel orelse [CondElem.lnotE test]
      let pairs := ([CondElem.expr test], body) :: pe.1
      let finalElse := pe.2
      let (g, head) := g.pushVertex
        { nameChanged := [some nmConditional], structureObj := some (.ifStmt test body orelse) }
      let g := redirectAll g cur nmConditional head
      let cur := [head]
      let r ← processPairsF fuel pairs 0 g cur iv
      let g := r.1
      let finals := r.2
      let (g, tails) :=
        if !finalElse then
          ({ g with branchInitial := g.branchInitial ++
              [.conditionalNoElse (.ifStmt test body orelse) pairs.length] },
           finals ++ cur)
        else (g, finals)
      let fb := finishBranches g head tails false
      .ok (fb.1, fb.2, condition ++ [.str sSkipConditional], 0)
    | .tryStmt body handlers => do
      -- lines 446-529
      let g := if !isLast
        then { g with branchInitial := g.branchInitial ++ [.postTryCatch (.tryStmt body handlers)] }
        else g
      let (g, head) := g.pushVertex { nameChanged := [some nmTryCatch] }
      let g := redirectAll g cur nmTryCatch head
      let cur := [head]
      let g ← logTryEntries g body handlers
      let rMain ← processBlockF fuel body g (some cur) [CondElem.str sTryCatchMain] iv
      let rHandlers ← processHandlersF fuel handlers rMain.1 cur iv
      let tails := rMain.2 ++ rHandlers.2
      let fb := finishBranches rHandlers.1 head tails true
      .ok (fb.1, fb.2, condition ++ [.str sSkipTryCatch], 0)
    | .forStmt target iter body => do
      -- lines 531-595
      let (g, pre) := g.pushVertex { nameChanged := [some nmLoop] }
      let (g, post) := g.pushVertex { nameChanged := [some nmPostLoop] }
      let g := linkToLoopAll g cur iter pre
      let cur := [pre]
      let addIV ← additionalInputVariables target
      let rBody ← processBlockF fuel body g (some cur) [CondElem.str sEnterLoop] (iv ++ addIV)
      let g := rBody.1
      let finals := rBody.2
      let firstBody ← match body.head? with
        | none => .error PyErr.indexError
        | some s => .ok s
      let g := { g with branchInitial := g.branchInitial ++
        [.loop firstBody sEnterLoop (.forStmt target iter body) sEndLoop] }
      let g := addLoopBackEdges g finals cur post
      let (g, se) := g.newEdgeRaw (.lnotE iter) (.str sLoopSkip) .selfInstr []
      let g := g.addOutgoing pre se
      let g := g.setTargetState se post
      .ok (g, [post], condition ++ [.str sSkipForLoop], 0)
    | .whileStmt _test body => do
      -- lines 597-614: no synthetic vertices, no condition append, no reset
      let rBody ← processBlockF fuel body g (some cur) [CondElem.str sWhile] iv
      let g := addWhileBackEdges rBody.1 rBody.2 cur
      .ok (g, rBody.2, condition, pl + 1)

/-- Lines 386-390: process each `(condition, body)` pair of a conditional
from the head vertex, collecting the final vertices of all branches and
logging each branch's first statement. -/
def processPairsF : Nat → List (List CondElem × List Stmt) → Nat → CFG →
    List Nat → List String → Except PyErr (CFG × List Nat)
  | 0, _, _, _, _, _ => .error .fuel
  | _ + 1, [], _, g, _, _ => .ok (g, [])
  | fuel + 1, pair :: rest, n, g, cur, iv => do
    let r ← processBlockF fuel pair.2 g (some cur) pair.1 iv
    let first ← match pair.2.head? with
      | none => .error PyErr.indexError
      | some s => .ok s
    let g1 := { r.1 with branchInitial := r.1.branchInitial ++ [.conditional first n] }
    let rs ← processPairsF fuel rest (n + 1) g1 cur iv
    .ok (rs.1, r.2 ++ rs.2)

/-- Lines 489-494: process each except-handler body from the try-catch
head, collecting the final vertices. -/
def processHandlersF : Nat → List (List Stmt) → CFG → List Nat →
    List String → Except PyErr (CFG × List Nat)
  | 0, _, _, _, _ => .error .fuel
  | _ + 1, [], g, _, _ => .ok (g, [])
  | fuel + 1, hb :: rest, g, cur, iv => do
    let r ← processBlockF fuel hb g (some cur) [CondElem.str sTryCatchHandler] iv
    let rs ← processHandlersF fuel rest r.1 cur iv
    .ok (rs.1, r.2 ++ rs.2)

end

/-! ## Grammar derivation (`SCFG/construction.py`, lines 618-729) -/

/-- A grammar symbol: a terminal (edge), a non-terminal (vertex), or the
empty string (`None` in the source's `[[None]]` sink rule). -/
inductive GSym where
  | edge (e : Nat)
  | vertex (v : Nat)
  | eps
deriving DecidableEq

/-- Membership of a name in the six synthetic sentinels (line 633). -/
def isSpecialName (n : List (Option String)) : Bool :=
  n == [some nmConditional] || n == [some nmLoop] || n == [some nmTryCatch] ||
  n == [some nmPostConditional] || n == [some nmPostLoop] || n == [some nmPostTryCatch]

/-- Membership of a name in the three `post-*` sentinels. -/
def isPostName (n : List (Option String)) : Bool :=
  n == [some nmPostConditional] || n == [some nmPostLoop] || n == [some nmPostTryCatch]

/-- Dereference an edge's target; an unset target makes the Python
attribute chain `edge._target_state._name_changed` raise. -/
def edgeTargetIdx (g : CFG) (e : Nat) : Except PyErr Nat :=
  match (g.getEdge e).target with
  | none => .error .attributeError
  | some t => .ok t

/-- Resolve every outgoing edge of a vertex to
`(edge id, target id, target name)`. -/
def edgeTargets (g : CFG) (es : List Nat) :
    Except PyErr (List (Nat × Nat × List (Option String))) :=
  es.mapM (fun e => (edgeTargetIdx g e).map
    (fun t => (e, t, (g.getVertex t).nameChanged)))

/-- First element of a filtered list, `list(filter(...))[0]`: `IndexError`
when no element matches. -/
def firstWhere {α : Type} (p : α → Bool) (l : List α) : Except PyErr α :=
  match l.find? p with
  | none => .error .indexError
  | some x => .ok x

/-- The rules `derive_grammar` produces for one vertex (the body of the
`for vertex in self.vertices` loop, lines 625-727). -/
def grammarRulesFor (g : CFG) (i : Nat) : Except PyErr (List (List GSym)) :=
  let v := g.getVertex i
  match v.edges with
  | [] =>
    -- control flow can end here: the rule generates the empty string
    .ok [[GSym.eps]]
  | e0 :: restEdges =>
    if !isSpecialName v.nameChanged then do
      let t0 ← edgeTargetIdx g e0
      let t0name := (g.getVertex t0).nameChanged
      if !(t0name == [some nmConditional] || t0name == [some nmTryCatch]) then
        if t0name == [some nmPostConditional] || t0name == [some nmPostTryCatch] then
          .ok [[GSym.edge e0]]
        else do
          let ets ← edgeTargets g v.edges
          if ets.any (fun et => et.2.2 == [some nmPostLoop]) then do
            let reloop ← firstWhere (fun et => et.2.2 == [some nmLoop]) ets
            let loopSkip ← firstWhere (fun et => !(et.2.2 == [some nmLoop])) ets
            .ok [[GSym.edge reloop.1, GSym.vertex reloop.2.1], [GSym.edge loopSkip.1]]
          else if t0name == [some nmLoop] then do
            let inner ← edgeTargets g (g.getVertex t0).edges
            let postEdge ← firstWhere (fun et => et.2.2 == [some nmPostLoop]) inner
            .ok [[GSym.edge e0, GSym.vertex t0, GSym.vertex postEdge.2.1]]
          else if isPostName t0name then
            .ok [[GSym.edge e0]]
          else
            .ok [[GSym.edge e0, GSym.vertex t0]]
      else if t0name == [some nmConditional] then
        match (g.getVertex t0).postConditionalVertex with
        | none => .error .attributeError
        | some (some p) => .ok [[GSym.edge e0, GSym.vertex t0, GSym.vertex p]]
        | some none => .ok [[GSym.edge e0, GSym.vertex t0]]
      else
        match (g.getVertex t0).postTryCatchVertex with
        | none => .error .attributeError
        | some (some p) => .ok [[GSym.edge e0, GSym.vertex t0, GSym.vertex p]]
        | some none => .ok [[GSym.edge e0, GSym.vertex t0]]
    else if v.nameChanged == [some nmLoop] then do
      let ets ← edgeTargets g v.edges
      let loopSkip ← firstWhere (fun et => et.2.2 == [some nmPostLoop]) ets
      let entry ← firstWhere (fun et => !(et.2.2 == [some nmPostLoop])) ets
      .ok [[GSym.edge loopSkip.1], [GSym.edge entry.1, GSym.vertex entry.2.1]]
    else if v.nameChanged == [some nmConditional] || v.nameChanged == [some nmTryCatch] then do
      let ets ← edgeTargets g v.edges
      .ok (ets.map (fun et =>
        if et.2.2 == [some nmPostConditional] then [GSym.edge et.1]
        else [GSym.edge et.1, GSym.vertex et.2.1]))
    else if v.nameChanged == [some nmPostConditional] then do
      let t0 ← edgeTargetIdx g e0
      let t0name := (g.getVertex t0).nameChanged
      if t0name == [some nmLoop] then
        match restEdges.head? with
        | none => .error .indexError
        | some e1 => .ok [[GSym.edge e0, GSym.vertex t0], [GSym.edge e1]]
      else if t0name == [some nmPostConditional] then
        .ok [[GSym.edge e0]]
      else
        .ok [[GSym.edge e0, GSym.vertex t0]]
    else do
      let t0 ← edgeTargetIdx g e0
      let t0name := (g.getVertex t0).nameChanged
      if isPostName t0name then
        .ok [[GSym.edge e0]]
      else
        .ok [[GSym.edge e0, GSym.vertex t0]]

/-- Fold `grammarRulesFor` over a list of vertex indices, building the
final map as an association list in iteration order. -/
def grammarFold (g : CFG) : List Nat → Except PyErr (List (Nat × List (List GSym)))
  | [] => .ok []
  | i :: rest => do
    let r ← grammarRulesFor g i
    let rs ← grammarFold g rest
    .ok ((i, r) :: rs)

/-- Lines 618-729: `derive_grammar` — one entry per vertex of the graph
(the Python dict is keyed by vertex object identity, which our arena
renders as the vertex index). -/
def CFG.derive_grammar (g : CFG) : Except PyErr (List (Nat × List (List GSym))) :=
  grammarFold g (List.range g.vertexArr.length)

/-! ## The monitoring event consumer (`init_verification.py`)

The external `formula_tree` monitor and `VerdictReport` classes belong to
this repository but are not part of the given sources; their state and
operations are modelled from the spec (§6) and marked as such.  The
verdict server is an opaque sink: a POST becomes a `Submission` value
appended to an output log and its parsed response is fixed. -/

/-- Scope string of a function-start event. -/
def sStart : String := "start"

/-- Scope string of a function-end event. -/
def sEnd : String := "end"

/-- Configuration value enabling test mode. -/
def sYes : String := "yes"

/-- Test result string for a failure. -/
def sFail : String := "Fail"

/-- Test result string for an error. -/
def sErrorResult : String := "Error"

/-- Test result string for success. -/
def sSuccess : String := "Success"

/-- A dynamically-typed Python value as held by the consumer's
`transaction` local and the `transaction_time` computation. -/
inductive PyVal where
  | time (t : Nat)
  | int (n : Int)
  | str (s : String)
deriving DecidableEq

/-- Model of `datetime.isoformat` on a genuine time value. -/
def isoformatNat (t : Nat) : String :=
  toString t

/-- Calling `.isoformat()` on a dynamic value: only a time has the
attribute; on an `int` or `str` Python raises `AttributeError`. -/
def isoformatPy : PyVal → Except PyErr String
  | .time t => .ok (isoformatNat t)
  | _ => .error .attributeError

/-- Calling `.isoformat()` on an optional time (`None.isoformat()` is an
`AttributeError`). -/
def isoformatOpt : Option Nat → Except PyErr String
  | some t => .ok (isoformatNat t)
  | none => .error .attributeError

/-- Association-list update of the first matching key (Python dict entry
mutation); no-op when the key is absent. -/
def alUpdate {α β : Type} [BEq α] (l : List (α × β)) (k : α) (f : β → β) : List (α × β) :=
  match l with
  | [] => []
  | (a, b) :: rest => if a == k then (a, f b) :: rest else (a, b) :: alUpdate rest k f

/-- Association-list assignment `d[k] = v`: replace the first matching key
in place, or append a new binding (insertion order, as we fix Python 2's
unspecified dict order). -/
def alSet {α β : Type} [BEq α] (l : List (α × β)) (k : α) (v : β) : List (α × β) :=
  match l with
  | [] => [(k, v)]
  | (a, b) :: rest => if a == k then (a, v) :: rest else (a, b) :: alSet rest k v

/-- Two-level association-list lookup, `d.get(i, {}).get(j)`. -/
def alLookup2 {β : Type} (l : List (Nat × List (Nat × β))) (i j : Nat) : Option β :=
  (List.lookup i l).bind (fun inner => List.lookup j inner)

/-- Two-level association-list assignment `d[i][j] = v` where the outer
binding is created when absent. -/
def alSet2 {β : Type} (l : List (Nat × List (Nat × β))) (i j : Nat) (v : β) :
    List (Nat × List (Nat × β)) :=
  match List.lookup i l with
  | none => alSet l i [(j, v)]
  | some inner => alSet l i (alSet inner j v)

/-- Append a value to the list stored at a key, creating the binding when
absent. -/
def alAppend {α β : Type} [BEq α] (l : List (α × List β)) (k : α) (v : β) :
    List (α × List β) :=
  match List.lookup k l with
  | none => alSet l k [v]
  | some xs => alSet l k (xs ++ [v])

/-- Modelled from the spec: an atom of the external `formula_tree` module —
a single-variable atom over one quantifier variable, a mixed atom spanning
two, or a `LogicalNot` wrapper (§6, glossary). -/
inductive AtomF where
  | base (v : Nat)
  | mixed (v1 v2 : Nat)
  | lnotF (a : AtomF)
deriving DecidableEq

/-- Modelled from the spec: `type(atom) is formula_tree.LogicalNot`. -/
def AtomF.isLNot : AtomF → Bool
  | .lnotF _ => true
  | _ => false

/-- Modelled from the spec: `formula_tree.is_mixed_atom`. -/
def is_mixed_atom : AtomF → Bool
  | .mixed _ _ => true
  | _ => false

/-- Modelled from the spec: `get_base_variable` on a mixed atom returns the
list of its base variables. -/
def getBaseVariables : AtomF → List Nat
  | .mixed v1 v2 => [v1, v2]
  | .base v => [v]
  | .lnotF a => getBaseVariables a

/-- Modelled from the spec: `get_base_variable` on a single-variable atom
returns its base variable. -/
def getBaseVariable : AtomF → Nat
  | .base v => v
  | .mixed v1 _ => v1
  | .lnotF a => getBaseVariable a

/-- Modelled from the spec: `formula_tree.lnot` — negation with double
negation cancelled. -/
def atomLnot : AtomF → AtomF
  | .lnotF a => a
  | a => .lnotF a

/-- Modelled from the spec: the compiled property structure exposing
`_formula_atoms` and `_bind_variables` (quantifier variables as opaque
identifiers, ordered by binding position). -/
structure FormulaStructure where
  formulaAtoms : List AtomF
  bindVariables : List Nat
deriving DecidableEq

/-- The `list.index` of a quantifier variable in `_bind_variables`: a
missing element raises `ValueError`. -/
def bvIndex (fs : FormulaStructure) (v : Nat) : Except PyErr Nat :=
  match fs.bindVariables.findIdx? (fun x => x == v) with
  | none => .error .valueError
  | some i => .ok i

/-- The `list.index` of a variable among an atom's base variables. -/
def baseVarIndex (vars : List Nat) (v : Nat) : Except PyErr Nat :=
  match vars.findIdx? (fun x => x == v) with
  | none => .error .valueError
  | some i => .ok i

/-- An observation record (start time, end time, observed value). -/
structure Obs where
  startT : Nat
  endT : Nat
  value : Int
deriving DecidableEq

/-- Modelled from the spec (§6): the monitor state exposed by the external
`formula_tree` module — tri-state atom map keyed by atom index,
instantiation-timestamp sequence, per-atom-per-sub-index observation,
program-path and state-dict maps, and the collapsing atom. -/
structure MonitorM where
  formulaAtoms : List AtomF
  verdict : Option Bool
  stateMap : List (Nat × Option Bool)
  instTime : List Nat
  atomToObservation : List (Nat × List (Nat × Obs))
  atomToProgramPath : List (Nat × List (Nat × Nat))
  atomToStateDict : List (Nat × List (Nat × Option (List (String × Int))))
  collapsingAtomIndex : Option Nat
  collapsingAtomSubIndex : Nat
deriving DecidableEq

/-- Modelled from the spec: `formula_tree.new_monitor(
formula_structure.get_formula_instance())` — a fresh monitor with one
unknown tri-state slot per atom, instantiation time stamped with the
current clock, and empty observation maps. -/
def new_monitor (fs : FormulaStructure) (now : Nat) : MonitorM :=
  { formulaAtoms := fs.formulaAtoms, verdict := none,
    stateMap := (List.range fs.formulaAtoms.length).map (fun i => (i, none)),
    instTime := [now], atomToObservation := [], atomToProgramPath := [],
    atomToStateDict := [], collapsingAtomIndex := none, collapsingAtomSubIndex := 0 }

/-- Position of an atom in the monitor's formula (atoms are assumed to
occur in the formula they were built from). -/
def idxOfAtom (m : MonitorM) (a : AtomF) : Nat :=
  (m.formulaAtoms.findIdx? (fun x => x == a)).getD 0

/-- Modelled from the spec: `check_optimised(atom_or_negation)` records the
replayed truth value (false for a negated atom) in the tri-state map. -/
def checkOptimised (m : MonitorM) (a : AtomF) : MonitorM :=
  match a with
  | .lnotF b => { m with stateMap := alSet m.stateMap (idxOfAtom m b) (some false) }
  | b => { m with stateMap := alSet m.stateMap (idxOfAtom m b) (some true) }

/-- Modelled from the spec: `check_atom_truth_value(atom, atom_index,
atom_sub_index)` re-derives the atom's truth value from the recorded
observation at the given slot. -/
def checkAtomTruthValue (m : MonitorM) (_a : AtomF) (atomIndex atomSubIndex : Nat) : MonitorM :=
  match alLookup2 m.atomToObservation atomIndex atomSubIndex with
  | some _ => { m with stateMap := alSet m.stateMap atomIndex (some true) }
  | none => m

/-- Modelled from the spec (§4.6 item 7, §6): `process_atom_and_value` —
the monitor deduplicates per `(atom_index, sub_index)`; on first
processing, the observation, program-path length and state dict are
recorded and the atom's truth value becomes known.  As a deterministic
instance of the black-box formula evaluation, the first processed atom
collapses the monitor and fixes its verdict. -/
def processAtomAndValue (m : MonitorM) (_atom : AtomF) (obsStart obsEnd : Nat)
    (value : Int) (atomIndex atomSubIndex : Nat) (_instPointId : Nat)
    (pathLen : Nat) (stateDict : Option (List (String × Int))) : MonitorM :=
  if (alLookup2 m.atomToObservation atomIndex atomSubIndex).isSome then m
  else
    let m1 := { m with
      atomToObservation := alSet2 m.atomToObservation atomIndex atomSubIndex
        { startT := obsStart, endT := obsEnd, value := value },
      atomToProgramPath := alSet2 m.atomToProgramPath atomIndex atomSubIndex pathLen,
      atomToStateDict := alSet2 m.atomToStateDict atomIndex atomSubIndex stateDict,
      stateMap := alSet m.stateMap atomIndex (some true) }
    if m1.collapsingAtomIndex.isNone then
      { m1 with collapsingAtomIndex := some atomIndex,
                collapsingAtomSubIndex := atomSubIndex, verdict := some true }
    else m1

/-- Modelled from the spec: one verdict tuple registered in a
`VerdictReport` by `add_verdict` — the monitor's verdict, a registration
timestamp (`verdict[1]`, isoformatted during serialisation), the
observation and path maps, the collapsing atom coordinates and the state
dicts. -/
structure VerdictEntry where
  verdict : Option Bool
  time : Nat
  observations : List (Nat × List (Nat × Obs))
  paths : List (Nat × List (Nat × Nat))
  collapsingIndex : Option Nat
  collapsingSubIndex : Nat
  stateDicts : List (Nat × List (Nat × Option (List (String × Int))))
deriving DecidableEq

/-- Modelled from the spec: `VerdictReport.add_verdict` appends a verdict
tuple under the static quantifier-binding index. -/
def addVerdict (report : List (Nat × List VerdictEntry)) (idx : Nat)
    (e : VerdictEntry) : List (Nat × List VerdictEntry) :=
  alAppend report idx e

/-- The verdict tuple built from a collapsed monitor
(lines 263-272 of `init_verification.py`). -/
def verdictEntryOf (m : MonitorM) (now : Nat) : VerdictEntry :=
  { verdict := m.verdict, time := now, observations := m.atomToObservation,
    paths := m.atomToProgramPath, collapsingIndex := m.collapsingAtomIndex,
    collapsingSubIndex := m.collapsingAtomSubIndex, stateDicts := m.atomToStateDict }

/-- Per-function-per-property monitoring state
(`PropertyMapGroup`, lines 569-606). -/
structure PMGL where
  formulaStructure : FormulaStructure
  staticQdToMonitors : List (Nat × List MonitorM)
  verdictReport : List (Nat × List VerdictEntry)
  latestTimeOfCall : Option Nat
  programPath : List Int
deriving DecidableEq

/-- A record of one POST to the verdict sink. -/
inductive Submission where
  | functionCall (functionName : String)
      (transactionTime timeOfCall endTimeOfCall : String) (programPath : List Int)
  | verdicts (propertyHash : String) (functionId functionCallId : Nat)
      (report : List (Nat × List VerdictEntry))
  | testData (testName testResult startTime endTime : String)
deriving DecidableEq

/-- Whether a submission is a function-call record. -/
def Submission.isFunctionCall : Submission → Bool
  | .functionCall _ _ _ _ _ => true
  | _ => false

/-- Whether a submission is a verdict report. -/
def Submission.isVerdicts : Submission → Bool
  | .verdicts _ _ _ _ => true
  | _ => false

/-- Lines 81-106: `send_function_call_data` — serialise the call record
and POST it.  The dict literal evaluates `transaction_time.isoformat()`
first, then `time_of_call.isoformat()`, then the end time, so a
serialisation failure aborts before anything is sent.  The sink's parsed
response is modelled as fixed ids `(0, 0)`. -/
def send_function_call_data (log : List Submission) (functionName : String)
    (timeOfCall : Option Nat) (endTimeOfCall : Nat) (programPath : List Int)
    (transactionTime : PyVal) : Except PyErr (List Submission × Nat × Nat) := do
  let tx ← isoformatPy transactionTime
  let toc ← isoformatOpt timeOfCall
  let eoc := isoformatNat endTimeOfCall
  .ok (log ++ [.functionCall functionName tx toc eoc programPath], 0, 0)

/-- Lines 109-159: `send_verdict_report` — serialise the final verdict
report (total in our model: the registration timestamps are genuine
times) and POST it; transmission errors are swallowed by the source's
`try`, and our sink never fails. -/
def send_verdict_report (log : List Submission)
    (report : List (Nat × List VerdictEntry)) (propertyHash : String)
    (functionId functionCallId : Nat) : List Submission :=
  log ++ [.verdicts propertyHash functionId functionCallId report]

/-- A typed event tuple as placed on the consumption queue. -/
inductive Event where
  | endMonitoring
  | inactiveMonitoringStart
  | inactiveMonitoringStop
  | testTransaction (tx : PyVal)
  | functionEvent (propertyHashList : List String) (functionName scope : String)
      (timestamp : Nat)
  | trigger (propertyHash functionName : String) (staticQdIndex bindVariableIndex : Nat)
  | pathEvent (propertyHash functionName : String) (branchLabel : Int)
  | instrument (propertyHash functionName : String) (staticQdIndices : List Nat)
      (atomIndex atomSubIndex : Nat) (instPointIds : List Nat)
      (obsStart obsEnd : Nat) (observedValue : Int) (threadId : Nat)
      (stateDict : Option (List (String × Int)))
  | testStatus (propertyHash functionName : String) (failures errors : Bool)
      (startT endT : Nat) (unused : Int) (testName : String)
deriving DecidableEq

/-- The consumer's mutable state: the property map groups, the loop locals
of `consumption_thread_function` (`INACTIVE_MONITORING`, `transaction`,
and the function-scope locals `atom_sub_index` and `maps` that survive
across loop iterations), a clock for `datetime.now()`, and the log of sink
submissions performed so far. -/
structure ConsState where
  functionToMaps : List (String × List (String × PMGL))
  inactiveMonitoring : Bool
  transaction : PyVal
  atomSubIndexVar : Option Nat
  mapsVar : Option (String × String)
  clock : Nat
  submissions : List Submission
deriving DecidableEq

/-- The configuration globals the consumer reads (`TEST_FRAMEWORK`). -/
structure VyPRConfig where
  testFramework : String
deriving DecidableEq

/-- Whether a character list occurs as a contiguous infix of another. -/
def charsInfixOf (needle : List Char) : List Char → Bool
  | [] => needle.isPrefixOf []
  | c :: rest => needle.isPrefixOf (c :: rest) || charsInfixOf needle rest

/-- The `'yes' in TEST_FRAMEWORK` substring test. -/
def testModeOn (cfg : VyPRConfig) : Bool :=
  charsInfixOf sYes.toList cfg.testFramework.toList

/-- Look up the `PropertyMapGroup` of a function/property pair. -/
def lookupPMG (st : ConsState) (fname h : String) : Option PMGL :=
  (List.lookup fname st.functionToMaps).bind (fun pmgs => List.lookup h pmgs)

/-- Update the `PropertyMapGroup` of a function/property pair in place. -/
def updatePMG (st : ConsState) (fname h : String) (f : PMGL → PMGL) : ConsState :=
  { st with functionToMaps :=
      alUpdate st.functionToMaps fname (fun pmgs => alUpdate pmgs h f) }

/-- Lines 412-425: copy one sub-index slot of a mixed atom from the source
monitor to the clone.  The clone's per-atom maps are initialised when
`atom_to_observation.get(atom_index)` is falsy (absent or empty); the
source slots are read with plain indexing, so a missing slot is a
`KeyError` (right-hand sides evaluate first). -/
def copySlot (src clone : MonitorM) (atomIndex subIndex : Nat) :
    Except PyErr MonitorM := do
  let clone :=
    if ((List.lookup atomIndex clone.atomToObservation).getD []).isEmpty then
      { clone with
        atomToObservation := alSet clone.atomToObservation atomIndex [],
        atomToProgramPath := alSet clone.atomToProgramPath atomIndex [],
        atomToStateDict := alSet clone.atomToStateDict atomIndex [] }
    else clone
  let obs ← match alLookup2 src.atomToObservation atomIndex subIndex with
    | none => .error PyErr.keyError
    | some o => .ok o
  let clone := { clone with
    atomToObservation := alSet2 clone.atomToObservation atomIndex subIndex obs }
  let pp ← match alLookup2 src.atomToProgramPath atomIndex subIndex with
    | none => .error PyErr.keyError
    | some p => .ok p
  let clone := { clone with
    atomToProgramPath := alSet2 clone.atomToProgramPath atomIndex subIndex pp }
  let sd ← match alLookup2 src.atomToStateDict atomIndex subIndex with
    | none => .error PyErr.keyError
    | some s => .ok s
  .ok { clone with
    atomToStateDict := alSet2 clone.atomToStateDict atomIndex subIndex sd }

/-- Copy every relevant sub-index slot of one atom. -/
def copySlots (src : MonitorM) (atomIndex : Nat) :
    List Nat → MonitorM → Except PyErr MonitorM
  | [], clone => .ok clone
  | s :: rest, clone => do
    let clone ← copySlot src clone atomIndex s
    copySlots src atomIndex rest clone

/-- Lines 383-450: the per-atom copy loop of monitor cloning.  For each
atom index in the source monitor's tri-state map: negations are skipped;
for a **mixed atom** the sub-index slots of base variables bound before
the trigger's bind variable are copied, after which line 428 calls
`check_atom_truth_value(atom, atom_index, atom_sub_index)` where
`atom_sub_index` is the function-scope local bound only by the instrument
handler — a `NameError` when no instrument event has ever bound it; for a
**single-variable atom** bound before the bind variable, line 435 indexes
the tri-state map (keyed by atom index, spec §6) with the atom object
itself, a `KeyError` (the conjunction short-circuits, so atoms bound at or
after the bind variable are skipped safely). -/
def cloneCopyLoop (fs : FormulaStructure) (src : MonitorM) (k : Nat)
    (atomSubIndexVar : Option Nat) :
    List (Nat × Option Bool) → MonitorM → Except PyErr MonitorM
  | [], clone => .ok clone
  | (atomIndex, _) :: rest, clone => do
    let atom ← match fs.formulaAtoms.get? atomIndex with
      | none => .error PyErr.indexError
      | some a => .ok a
    if atom.isLNot then cloneCopyLoop fs src k atomSubIndexVar rest clone
    else if is_mixed_atom atom then do
      let baseVars := getBaseVariables atom
      let idxs ← baseVars.mapM (bvIndex fs)
      let relevant := ((baseVars.zip idxs).filter (fun p => p.2 < k)).map Prod.fst
      let subIdxs ← relevant.mapM (baseVarIndex baseVars)
      let clone ← copySlots src atomIndex subIdxs clone
      match atomSubIndexVar with
      | none => .error PyErr.nameError
      | some sub =>
        cloneCopyLoop fs src k atomSubIndexVar rest
          (checkAtomTruthValue clone atom atomIndex sub)
    else do
      let bi ← bvIndex fs (getBaseVariable atom)
      if bi < k then .error PyErr.keyError
      else cloneCopyLoop fs src k atomSubIndexVar rest clone

/-- Lines 354-459: the monitor scan of a trigger with a positive bind
variable index.  Monitors one timestamp ahead are cloned once per
distinct prefix; monitors exactly at the bind variable get their
timestamp sequence extended in place.  Returns the updated original list
(in-place mutations persist even when a later clone fails), the clones,
the advanced clock, and the error if one occurred. -/
def triggerLoop (fs : FormulaStructure) (k : Nat) (atomSubIndexVar : Option Nat) :
    List MonitorM → List (List Nat) → List MonitorM → List MonitorM → Nat →
    List MonitorM × List MonitorM × Nat × Option PyErr
  | [], _, updated, newMs, clock => (updated, newMs, clock, none)
  | m :: rest, processed, updated, newMs, clock =>
    if m.instTime.length == k + 1 then
      let pref := m.instTime.take k
      if processed.contains pref then
        triggerLoop fs k atomSubIndexVar rest processed (updated ++ [m]) newMs clock
      else
        let clone0 := new_monitor fs clock
        let clone1 := { clone0 with instTime := m.instTime.take k ++ [clock] }
        match cloneCopyLoop fs m k atomSubIndexVar m.stateMap clone1 with
        | .error e => (updated ++ m :: rest, newMs, clock + 1, some e)
        | .ok clone =>
          triggerLoop fs k atomSubIndexVar rest (processed ++ [pref])
            (updated ++ [m]) (newMs ++ [clone]) (clock + 1)
    else if m.instTime.length == k then
      triggerLoop fs k atomSubIndexVar rest processed
        (updated ++ [{ m with instTime := m.instTime ++ [clock] }]) newMs (clock + 1)
    else
      triggerLoop fs k atomSubIndexVar rest processed (updated ++ [m]) newMs clock

/-- Lines 333-462: the trigger handler.  With bind variable index 0 a
fresh monitor is appended to the bucket (created on `KeyError`); otherwise
the bucket is read with plain indexing (`KeyError` when absent) and
scanned by `triggerLoop`, and the clones are appended after the existing
list. -/
def handleTrigger (st : ConsState) (h fname : String) (qd k : Nat) :
    ConsState × Except PyErr Bool :=
  match lookupPMG st fname h with
  | none => (st, .error .keyError)
  | some pmg =>
    let st := { st with mapsVar := some (fname, h) }
    if k == 0 then
      let m := new_monitor pmg.formulaStructure st.clock
      let newBucket :=
        match List.lookup qd pmg.staticQdToMonitors with
        | some ms => ms ++ [m]
        | none => [m]
      let st := updatePMG st fname h (fun p =>
        { p with staticQdToMonitors := alSet p.staticQdToMonitors qd newBucket })
      ({ st with clock := st.clock + 1 }, .ok true)
    else
      match List.lookup qd pmg.staticQdToMonitors with
      | none => (st, .error .keyError)
      | some monitors =>
        let r := triggerLoop pmg.formulaStructure k st.atomSubIndexVar
          monitors [] [] [] st.clock
        match r.2.2.2 with
        | some e =>
          let st := updatePMG st fname h (fun p =>
            { p with staticQdToMonitors := alSet p.staticQdToMonitors qd r.1 })
          ({ st with clock := r.2.2.1 }, .error e)
        | none =>
          let st := updatePMG st fname h (fun p =>
            { p with staticQdToMonitors := alSet p.staticQdToMonitors qd (r.1 ++ r.2.1) })
          ({ st with clock := r.2.2.1 }, .ok true)

/-- Lines 260-272: register a verdict for every monitor with a collapsing
atom, walking the buckets in order. -/
def registerVerdicts (now : Nat) : List (Nat × List MonitorM) →
    List (Nat × List VerdictEntry) → List (Nat × List VerdictEntry)
  | [], report => report
  | (idx, ms) :: rest, report => registerVerdicts now rest (registerBucket idx ms report)
where
  /-- Register the collapsed monitors of one bucket. -/
  registerBucket (idx : Nat) : List MonitorM → List (Nat × List VerdictEntry) →
      List (Nat × List VerdictEntry)
    | [], report => report
    | m :: ms, report =>
      if m.collapsingAtomIndex.isSome then
        registerBucket idx ms (addVerdict report idx (verdictEntryOf m now))
      else registerBucket idx ms report

/-- Lines 249-289: the per-property loop of a function-end event —
register collapsed verdicts, reset the monitor map, transmit the report,
reset the report and the start time. -/
def endPropsLoop (fname : String) (fid fcid : Nat) :
    List String → ConsState → ConsState × Except PyErr Bool
  | [], st => (st, .ok true)
  | h :: rest, st =>
    match lookupPMG st fname h with
    | none => (st, .error .keyError)
    | some pmg =>
      let st := { st with mapsVar := some (fname, h) }
      let report1 := registerVerdicts st.clock pmg.staticQdToMonitors pmg.verdictReport
      let st := updatePMG st fname h (fun p =>
        { p with staticQdToMonitors := [], verdictReport := [],
                 latestTimeOfCall := none })
      let st := { st with
        submissions := send_verdict_report st.submissions report1 h fid fcid }
      endPropsLoop fname fid fcid rest st

/-- Lines 223-289: the function-end handler.  The latest time of call and
program path are read from the function's first property map
(`.keys()[0]`, an `IndexError` on an empty dict); in test mode the
transaction time is the stored transaction value, otherwise it is
`top_pair[3]` — which is the scope string `"end"`, not a time. -/
def handleEnd (cfg : VyPRConfig) (st : ConsState) (hs : List String)
    (fname scope : String) (ts : Nat) : ConsState × Except PyErr Bool :=
  match List.lookup fname st.functionToMaps with
  | none => (st, .error .keyError)
  | some pmgs =>
    match pmgs.head? with
    | none => (st, .error .indexError)
    | some hp =>
      let latest := hp.2.latestTimeOfCall
      let ppath := hp.2.programPath
      let transactionTime : PyVal :=
        if testModeOn cfg then st.transaction else .str scope
      match send_function_call_data st.submissions fname latest ts ppath transactionTime with
      | .error e => (st, .error e)
      | .ok (log, fid, fcid) =>
        endPropsLoop fname fid fcid hs { st with submissions := log }

/-- The reset applied to each listed property on a function-start event
(lines 299-304). -/
def startReset (ts : Nat) (p : PMGL) : PMGL :=
  { p with staticQdToMonitors := [], verdictReport := [],
           latestTimeOfCall := some ts }

/-- Lines 294-304: the per-property loop of a function-start event,
threading the `maps` local. -/
def startLoop (ts : Nat) (fname : String) :
    List String → ConsState → ConsState × Option PyErr
  | [], st => (st, none)
  | h :: rest, st =>
    match lookupPMG st fname h with
    | none => (st, some .keyError)
    | some _ =>
      startLoop ts fname rest
        { updatePMG st fname h (startReset ts) with mapsVar := some (fname, h) }

/-- Lines 291-311: the function-start handler.  After the per-property
loop, lines 306 and 309 use the loop-leaked `maps` local: the start time
is logged and `maps.program_path = []` clears the program path of the
property map bound last (a `NameError` when `maps` was never bound). -/
def handleStart (st : ConsState) (hs : List String) (fname : String) (ts : Nat) :
    ConsState × Except PyErr Bool :=
  let r := startLoop ts fname hs st
  match r.2 with
  | some e => (r.1, .error e)
  | none =>
    match r.1.mapsVar with
    | none => (r.1, .error .nameError)
    | some key =>
      (updatePMG r.1 key.1 key.2 (fun p => { p with programPath := [] }), .ok true)

/-- Lines 216-311: the `"function"` event dispatch. -/
def handleFunction (cfg : VyPRConfig) (st : ConsState) (hs : List String)
    (fname scope : String) (ts : Nat) : ConsState × Except PyErr Bool :=
  if scope == sEnd then handleEnd cfg st hs fname scope ts
  else if scope == sStart then handleStart st hs fname ts
  else (st, .ok true)

/-- Lines 464-467: the path handler — append the branch label to the
program path. -/
def handlePath (st : ConsState) (h fname : String) (lbl : Int) :
    ConsState × Except PyErr Bool :=
  match lookupPMG st fname h with
  | none => (st, .error .keyError)
  | some _ =>
    let st := { st with mapsVar := some (fname, h) }
    (updatePMG st fname h (fun p => { p with programPath := p.programPath ++ [lbl] }),
     .ok true)

/-- Lines 487-512: the per-pair loop of the instrument handler — for each
`(static_qd_index, inst_point_id)` pair, forward the observation to every
monitor of a non-falsy bucket. -/
def instrPairsLoop (fname h : String) (atom : AtomF)
    (atomIndex atomSubIndex obsStart obsEnd : Nat) (value : Int)
    (stateDict : Option (List (String × Int))) :
    List (Nat × Nat) → ConsState → ConsState
  | [], st => st
  | (qd, ipid) :: rest, st =>
    let st :=
      match lookupPMG st fname h with
      | none => st
      | some pmg =>
        match List.lookup qd pmg.staticQdToMonitors with
        | none => st
        | some ms =>
          if ms.isEmpty then st
          else
            let pl := pmg.programPath.length
            let ms2 := ms.map (fun m =>
              processAtomAndValue m atom obsStart obsEnd value atomIndex
                atomSubIndex ipid pl stateDict)
            updatePMG st fname h (fun p =>
              { p with staticQdToMonitors := alSet p.staticQdToMonitors qd ms2 })
    instrPairsLoop fname h atom atomIndex atomSubIndex obsStart obsEnd value
      stateDict rest st

/-- Lines 469-512: the instrument handler.  It binds the function-scope
locals (`atom_sub_index` among them) and forwards the observation; the
atom list is indexed inside the pair loop, so an out-of-range atom index
only raises when there is at least one pair. -/
def handleInstrument (st : ConsState) (h fname : String) (qds : List Nat)
    (atomIndex atomSubIndex : Nat) (ipids : List Nat) (obsStart obsEnd : Nat)
    (value : Int) (stateDict : Option (List (String × Int))) :
    ConsState × Except PyErr Bool :=
  match lookupPMG st fname h with
  | none => (st, .error .keyError)
  | some pmg =>
    let st := { st with mapsVar := some (fname, h), atomSubIndexVar := some atomSubIndex }
    let pairs := qds.zip ipids
    match pairs, pmg.formulaStructure.formulaAtoms.get? atomIndex with
    | [], _ => (st, .ok true)
    | _ :: _, none => (st, .error .indexError)
    | _ :: _, some atom =>
      (instrPairsLoop fname h atom atomIndex atomSubIndex obsStart obsEnd value
        stateDict pairs st, .ok true)

/-- Lines 515-554: the test-status handler — coerce the status to a result
string and forward the test metadata to the sink. -/
def handleTestStatus (st : ConsState) (h fname : String) (failures errors : Bool)
    (startT endT : Nat) (testName : String) : ConsState × Except PyErr Bool :=
  match lookupPMG st fname h with
  | none => (st, .error .keyError)
  | some _ =>
    let st := { st with mapsVar := some (fname, h) }
    let result := if failures then sFail else if errors then sErrorResult else sSuccess
    ({ st with submissions := st.submissions ++
        [.testData testName result (isoformatNat startT) (isoformatNat endT)] },
     .ok true)

/-- Lines 164-559: one iteration of `consumption_thread_function` on a
dequeued event.  Returns the state after the iteration and either the
`continue_monitoring` flag or the exception that killed the thread.
Check order follows the source: `end-monitoring` first, then the paused
flag (discarding everything but the stop message), then pause, then
`test_transaction`, then the dispatch.  A stop message received while not
paused falls into the property-specific branch and indexes past the end
of its one-element tuple. -/
def stepConsumer (cfg : VyPRConfig) (st : ConsState) (ev : Event) :
    ConsState × Except PyErr Bool :=
  if ev = Event.endMonitoring then (st, .ok false)
  else if st.inactiveMonitoring then
    if ev = Event.inactiveMonitoringStop then
      ({ st with inactiveMonitoring := false }, .ok true)
    else (st, .ok true)
  else if ev = Event.inactiveMonitoringStart then
    ({ st with inactiveMonitoring := true }, .ok true)
  else
    match ev with
    | .testTransaction tx => ({ st with transaction := tx }, .ok true)
    | .functionEvent hs fname scope ts => handleFunction cfg st hs fname scope ts
    | .trigger h fname qd k => handleTrigger st h fname qd k
    | .pathEvent h fname lbl => handlePath st h fname lbl
    | .instrument h fname qds ai asi ipids os oe v _thr sd =>
      handleInstrument st h fname qds ai asi ipids os oe v sd
    | .testStatus h fname failures errors startT endT _ testName =>
      handleTestStatus st h fname failures errors startT endT testName
    | .inactiveMonitoringStop => (st, .error .indexError)
    | _ => (st, .ok true)

/-- Run the consumer over a finite event list in queue order, stopping at
`end-monitoring` or at an uncaught exception (which kills the thread,
keeping the state and submissions made so far). -/
def runEvents (cfg : VyPRConfig) : ConsState → List Event →
    ConsState × Except PyErr Bool
  | st, [] => (st, .ok true)
  | st, ev :: rest =>
    match stepConsumer cfg st ev with
    | (st2, .ok true) => runEvents cfg st2 rest
    | (st2, .ok false) => (st2, .ok false)
    | (st2, .error e) => (st2, .error e)

/-! ## Startup configuration check (`Verification.__init__`, lines 679-696) -/

/-- Truthy-or-default read of an optional configuration value:
`cfg.get(k) if cfg.get(k) else d` (absent and empty are falsy). -/
def pyGetOr (v : Option String) (d : String) : String :=
  match v with
  | none => d
  | some s => if s == "" then d else s

/-- The configuration keys the startup check reads. -/
structure VyPRConfigFile where
  test : Option String
  testModule : Option String
deriving DecidableEq

/-- Lines 686-696: the test-framework configuration check of
`Verification.__init__`.  `TEST_DIR` is assigned only inside the
`TEST_FRAMEWORK in ['yes']` branch and is missing from the method's
`global` declaration (line 679), making it a function-local throughout;
reading it on line 694 when the branch was not taken raises
`UnboundLocalError`.  An empty `TEST_DIR` prints the operator message and
calls `exit()` (`systemExit`). -/
def startupTestCheck (cfg : VyPRConfigFile) : Except PyErr Unit :=
  let testFramework := pyGetOr cfg.test ""
  let testDir : Option String :=
    if testFramework == sYes then some (pyGetOr cfg.testModule "") else none
  match testDir with
  | none => .error .unboundLocal
  | some d => if d == "" then .error .systemExit else .ok ()

/-! ## Well-formed statements

Python's grammar guarantees every statement body (`if`/`elif`/`else`
bodies, `try` bodies, handler bodies, loop bodies) is non-empty; the
builder silently relies on this.  `wfStmt` captures exactly that. -/

mutual

/-- A statement whose nested bodies are all non-empty and well-formed. -/
def wfStmt : Stmt → Bool
  | .assign _ _ => true
  | .exprStmt _ => true
  | .passStmt => true
  | .ret _ => true
  | .raiseStmt _ => true
  | .ifStmt _ body orelse => !body.isEmpty && wfBlock body && wfBlock orelse
  | .tryStmt body handlers => !body.isEmpty && wfBlock body && wfHandlers handlers
  | .forStmt _ _ body => !body.isEmpty && wfBlock body
  | .whileStmt _ body => !body.isEmpty && wfBlock body

/-- All statements of a block are well-formed (the block itself may be
empty; `orelse` lists legitimately are). -/
def wfBlock : List Stmt → Bool
  | [] => true
  | s :: rest => wfStmt s && wfBlock rest

/-- All handler bodies are non-empty and well-formed. -/
def wfHandlers : List (List Stmt) → Bool
  | [] => true
  | hb :: rest => !hb.isEmpty && wfBlock hb && wfHandlers rest

end

/-! ## Concrete instances used by witnesses and counterexamples -/

/-- The spec's E1 program: `x = 1; y = f(x); return y`. -/
def exE1block : List Stmt :=
  [ .assign [.name ("x")] (.num 1),
    .assign [.name ("y")] (.call (.name ("f")) [.name ("x")]),
    .ret (some (.name ("y"))) ]

/-- The SCFG built from the E1 program. -/
def exE1graph : CFG :=
  match processBlockF 9 exE1block (initCFG []) none [] [] with
  | .ok r => r.1
  | .error _ => initCFG []

/-- A single-atom, single-variable property structure. -/
def exFormula1 : FormulaStructure :=
  { formulaAtoms := [.base 0], bindVariables := [0] }

/-- A fresh property map group over `exFormula1`. -/
def exPMG1 : PMGL :=
  { formulaStructure := exFormula1, staticQdToMonitors := [],
    verdictReport := [], latestTimeOfCall := none, programPath := [] }

/-- The non-test configuration (`TEST_FRAMEWORK = "no"`). -/
def exCfgNo : VyPRConfig := { testFramework := ("no") }

/-- The consumer's state right after startup for one monitored function
`m.f` with one property `h1`. -/
def exC1state : ConsState :=
  { functionToMaps := [(("m.f"), [(("h1"), exPMG1)])],
    inactiveMonitoring := false, transaction := .int (-1),
    atomSubIndexVar := none, mapsVar := none, clock := 0, submissions := [] }

/-- The claim-C1 event sequence: function start, trigger for bind variable
0, one instrument event, function end. -/
def exC1events : List Event :=
  [ .functionEvent [("h1")] ("m.f") sStart 10,
    .trigger ("h1") ("m.f") 0 0,
    .instrument ("h1") ("m.f") [0] 0 0 [7] 11 12 5 0 none,
    .functionEvent [("h1")] ("m.f") sEnd 13 ]

/-- A property with one mixed atom over two bind variables. -/
def exFormula2 : FormulaStructure :=
  { formulaAtoms := [.mixed 0 1], bindVariables := [0, 1] }

/-- A monitor one binding ahead (timestamp sequence of length 2) whose
state mentions the mixed atom, with a recorded observation, program path
and state dict in slot `(0, 0)`. -/
def exMonitor2 : MonitorM :=
  { formulaAtoms := [.mixed 0 1], verdict := none,
    stateMap := [(0, none)], instTime := [3, 4],
    atomToObservation := [(0, [(0, { startT := 1, endT := 2, value := 9 })])],
    atomToProgramPath := [(0, [(0, 0)])],
    atomToStateDict := [(0, [(0, none)])],
    collapsingAtomIndex := none, collapsingAtomSubIndex := 0 }

/-- The consumer state for the claim-C2 scenario: one monitor in bucket 0,
no instrument event processed yet (`atom_sub_index` unbound). -/
def exC2state : ConsState :=
  { functionToMaps := [(("m.f"),
      [(("h1"),
        { formulaStructure := exFormula2,
          staticQdToMonitors := [(0, [exMonitor2])],
          verdictReport := [], latestTimeOfCall := some 0, programPath := [] })])],
    inactiveMonitoring := false, transaction := .int (-1),
    atomSubIndexVar := none, mapsVar := none, clock := 5, submissions := [] }

/-- The claim-C2 trigger event: bind variable index 1. -/
def exC2event : Event := .trigger ("h1") ("m.f") 0 1

/-- A paused consumer state. -/
def exPausedState : ConsState :=
  { exC1state with inactiveMonitoring := true }

/-- A property map group with a non-empty recorded program path. -/
def exPMGpath : PMGL := { exPMG1 with programPath := [5] }

/-- The consumer state for the claim-C4 scenario: one function with two
properties, both with recorded program path `[5]`. -/
def exC4state : ConsState :=
  { exC1state with
      functionToMaps := [(("m.f"), [(("h1"), exPMGpath), (("h2"), exPMGpath)])] }

/-- The claim-C4 function-start event listing both properties. -/
def exC4event : Event := .functionEvent [("h1"), ("h2")] ("m.f") sStart 7

/-- A small graph for the claim-C5 witness: vertex 0 is a conditional
head, vertex 1 a surviving branch tail, vertex 2 a branch tail whose
inbound edge 0 carries a `return`. -/
def exC5graph : CFG :=
  { vertexArr :=
      [ { nameChanged := [some nmConditional] },
        { nameChanged := [some (("x"))] },
        { nameChanged := [], previousEdge := some 0 } ],
    edgePool :=
      [ { condition := .list [], instruction := .stmt (.ret none),
          operatesOn := .selfInstr, inputVariables := [],
          source := some 0, target := some 2 } ],
    edgesPub := [0], startingVertex := 0, returnStatements := [2],
    branchInitial := [], referenceVariables := [] }

/-- A well-formed for loop over a one-statement body, with trailing
statements after it, for the claim-C6 witness. -/
def exC6block : List Stmt :=
  [ .forStmt (.name ("i")) (.name ("xs"))
      [.exprStmt (.call (.name ("f")) [.name ("i")])],
    .assign [.name ("z")] (.num 0) ]

/-- A property with one single-variable atom but two bind variables (the
atom's base variable is bound at position 0). -/
def exFormula3 : FormulaStructure :=
  { formulaAtoms := [.base 0], bindVariables := [0, 1] }

/-- The claim-C2 companion state whose monitor's formula has only the
single-variable atom. -/
def exC2stateSingle : ConsState :=
  { functionToMaps := [(("m.f"),
      [(("h1"),
        { formulaStructure := exFormula3,
          staticQdToMonitors := [(0, [{ exMonitor2 with formulaAtoms := [.base 0] }])],
          verdictReport := [], latestTimeOfCall := some 0, programPath := [] })])],
    inactiveMonitoring := false, transaction := .int (-1),
    atomSubIndexVar := none, mapsVar := none, clock := 5, submissions := [] }

/-- The vertex-record fields that `addOutgoing` and `setTargetState` never
touch. -/
def sameStaticFields (a b : VertexRec) : Prop :=
  a.nameChanged = b.nameChanged ∧
  a.postConditionalVertex = b.postConditionalVertex ∧
  a.postTryCatchVertex = b.postTryCatchVertex

/-- The final record of one merge edge. -/
def mergeEdgeRec (condStr : String) (v mv : Nat) : EdgeRec :=
  { condition := .str condStr, instruction := .str sControlFlow,
    operatesOn := .selfInstr, inputVariables := [],
    source := some v, target := some mv }

/-- The merge pointer recorded on a head vertex (`post_conditional_vertex`
for a conditional, `post_try_catch_vertex` for a try-catch). -/
def mergePtr (g : CFG) (head : Nat) (isTry : Bool) : Option (Option Nat) :=
  if isTry then (g.getVertex head).postTryCatchVertex
  else (g.getVertex head).postConditionalVertex

/-- The vertex-record fields relevant to a vertex's outgoing structure:
its `edges` list together with the static fields.  (`previous_edge` is
excluded: loop back edges legitimately re-point it on old vertices.) -/
def sameOutgoing (a b : VertexRec) : Prop :=
  a.edges = b.edges ∧ sameStaticFields a b

mutual

/-- A statement that consumes the current frontier: processing it attaches
exactly one new outgoing edge to each current vertex and moves the
frontier to freshly created vertices.  A non-call expression statement
matches no branch of `process_block` (a no-op); a `while` consumes exactly
when its body does. -/
def consumesStmt : Stmt → Bool
  | .exprStmt v => v.isCall
  | .whileStmt _ body => consumesBlock body
  | _ => true

/-- A block whose leading no-op statements are followed by a consuming
statement. -/
def consumesBlock : List Stmt → Bool
  | [] => false
  | .exprStmt v :: rest => if v.isCall then true else consumesBlock rest
  | s :: _ => consumesStmt s

end

/-- All graph-growth facts preserved by every builder step, relative to a
snapshot `g` and the frontier `cur` the step was run on: arena lengths
grow, edges below the snapshot never mutate, vertex names below the
snapshot never change, and the outgoing structure of a snapshot vertex
outside the frontier never changes. -/
def frameOK (g g2 : CFG) (cur : List Nat) : Prop :=
  g.vertexArr.length ≤ g2.vertexArr.length ∧
  g.edgePool.length ≤ g2.edgePool.length ∧
  (∀ e, e < g.edgePool.length → g2.getEdge e = g.getEdge e) ∧
  (∀ i, i < g.vertexArr.length →
    (g2.getVertex i).nameChanged = (g.getVertex i).nameChanged) ∧
  (∀ i, i < g.vertexArr.length → i ∉ cur → sameOutgoing (g2.getVertex i) (g.getVertex i))

/-- Every vertex of the frontier produced by a builder step is either a
frontier vertex of the input or a vertex created at or after the
snapshot. -/
def frontierOK (g : CFG) (cur cur2 : List Nat) : Prop :=
  ∀ u ∈ cur2, u ∈ cur ∨ g.vertexArr.length ≤ u

/-- The shared fan step of the synthetic-edge builders: allocate an edge,
publish it, attach it to `v` and point it at `head`. -/
def fanStep (g : CFG) (v head : Nat) (cond : EdgeCond) (instr : Instr) : CFG :=
  (((g.newEdgeRaw cond instr .selfInstr []).1.publish
    (g.newEdgeRaw cond instr .selfInstr []).2).addOutgoing v
    (g.newEdgeRaw cond instr .selfInstr []).2).setTargetState
    (g.newEdgeRaw cond instr .selfInstr []).2 head

/-- The frame property of `processBlockF` at a given fuel. -/
def PBlock (fuel : Nat) : Prop :=
  ∀ block g vs cond iv g2 cur2,
    processBlockF fuel block g vs cond iv = .ok (g2, cur2) →
    frameOK g g2 (vs.getD [g.startingVertex]) ∧
    frontierOK g (vs.getD [g.startingVertex]) cur2

/-- The frame property of `blockGoF` at a given fuel. -/
def PGo (fuel : Nat) : Prop :=
  ∀ block g cur cond iv pl g2 cur2,
    blockGoF fuel block g cur cond iv pl = .ok (g2, cur2) →
    frameOK g g2 cur ∧ frontierOK g cur cur2

/-- The frame property of `processStmtF` at a given fuel. -/
def PStmt (fuel : Nat) : Prop :=
  ∀ s g cur cond iv pl isLast g2 cur2 cnd2 pl2,
    processStmtF fuel s g cur cond iv pl isLast = .ok (g2, cur2, cnd2, pl2) →
    frameOK g g2 cur ∧ frontierOK g cur cur2

/-- The frame property of `processPairsF` at a given fuel. -/
def PPairs (fuel : Nat) : Prop :=
  ∀ pairs n g cur iv g2 fin,
    processPairsF fuel pairs n g cur iv = .ok (g2, fin) →
    frameOK g g2 cur ∧ frontierOK g cur fin

/-- The frame property of `processHandlersF` at a given fuel. -/
def PHandlers (fuel : Nat) : Prop :=
  ∀ hbs g cur iv g2 fin,
    processHandlersF fuel hbs g cur iv = .ok (g2, fin) →
    frameOK g g2 cur ∧ frontierOK g cur fin

/-- The conclusion of a consuming step run on the one-vertex frontier
`[v]`: exactly one new edge was appended to `v`'s outgoing list — not a
loop-skip edge, targeting a fresh vertex — `v`'s static fields are
untouched, and the new frontier is entirely fresh. -/
def Consumed (g g2 : CFG) (v : Nat) (cur2 : List Nat) : Prop :=
  (∃ e t, (g2.getVertex v).edges = (g.getVertex v).edges ++ [e] ∧
    sameStaticFields (g2.getVertex v) (g.getVertex v) ∧
    g.edgePool.length ≤ e ∧ e < g2.edgePool.length ∧
    (g2.getEdge e).instruction.isLoopSkip = false ∧
    (g2.getEdge e).target = some t ∧ g.vertexArr.length ≤ t) ∧
  (∀ u ∈ cur2, g.vertexArr.length ≤ u)

/-- The consuming property of `processBlockF` on a one-vertex frontier. -/
def QBlock (fuel : Nat) : Prop :=
  ∀ block g v cond iv g2 cur2,
    wfBlock block = true → consumesBlock block = true → v < g.vertexArr.length →
    processBlockF fuel block g (some [v]) cond iv = .ok (g2, cur2) →
    Consumed g g2 v cur2

/-- The consuming property of `blockGoF` on a one-vertex frontier. -/
def QGo (fuel : Nat) : Prop :=
  ∀ block g v cond iv pl g2 cur2,
    wfBlock block = true → consumesBlock block = true → v < g.vertexArr.length →
    blockGoF fuel block g [v] cond iv pl = .ok (g2, cur2) →
    Consumed g g2 v cur2

/-- The consuming property of `processStmtF` on a one-vertex frontier. -/
def QStmt (fuel : Nat) : Prop :=
  ∀ s g v cond iv pl isLast g2 cur2 cnd2 pl2,
    wfStmt s = true → consumesStmt s = true → v < g.vertexArr.length →
    processStmtF fuel s g [v] cond iv pl isLast = .ok (g2, cur2, cnd2, pl2) →
    Consumed g g2 v cur2

/-! ## Base lemmas about arena access -/

/-- Reading the freshly appended element. -/
theorem listGet_append_len {α : Type} (l : List α) (x : α) :
    (l ++ [x])[l.length]? = some x := by
  simp

/-- Appending does not disturb reads below the old length. -/
theorem listGet_append_lt {α : Type} (l l2 : List α) (i : Nat)
    (h : i < l.length) : (l ++ l2)[i]? = l[i]? :=
  List.getElem?_append_left h

/-- Reading an in-range overwrite. -/
theorem listGet_set_self {α : Type} (l : List α) (i : Nat) (x : α)
    (h : i < l.length) : (l.set i x)[i]? = some x := by
  simp [List.getElem?_set_self, h]

/-- Overwriting one position does not disturb the others. -/
theorem listGet_set_ne {α : Type} (l : List α) (i j : Nat) (x : α)
    (h : i ≠ j) : (l.set i x)[j]? = l[j]? := by
  simp [List.getElem?_set_ne h]

/-- Overwriting the freshly appended element. -/
theorem listSet_append_len {α : Type} (l : List α) (a b : α) :
    (l ++ [a]).set l.length b = l ++ [b] := by
  induction l with
  | nil => rfl
  | cons h t ih => simp [List.set, ih]

/-- Out-of-range overwrites are no-ops. -/
theorem listSet_oob {α : Type} (l : List α) (i : Nat) (x : α)
    (h : l.length ≤ i) : l.set i x = l :=
  List.set_eq_of_length_le h

/-! ## Frame lemmas for the arena operations -/

/-- `pushVertex` facts: returned index, new length, reads. -/
theorem pushVertex_spec (g : CFG) (v : VertexRec) :
    (g.pushVertex v).2 = g.vertexArr.length ∧
    (g.pushVertex v).1.vertexArr.length = g.vertexArr.length + 1 ∧
    (g.pushVertex v).1.getVertex g.vertexArr.length = v ∧
    (∀ i, i < g.vertexArr.length →
      (g.pushVertex v).1.getVertex i = g.getVertex i) ∧
    (g.pushVertex v).1.edgePool = g.edgePool := by
  refine ⟨rfl, by simp [CFG.pushVertex], ?_, ?_, rfl⟩
  · simp [CFG.pushVertex, CFG.getVertex, listGet_append_len]
  · intro i hi
    simp [CFG.pushVertex, CFG.getVertex, listGet_append_lt _ _ _ hi]

/-- Static fields are reflexively equal. -/
theorem sameStaticFields_refl (a : VertexRec) : sameStaticFields a a :=
  ⟨rfl, rfl, rfl⟩

/-- `setVertex` with a record sharing the static fields keeps every
vertex's static fields. -/
theorem setVertex_keeps (g : CFG) (j : Nat) (x : VertexRec)
    (hx : sameStaticFields x (g.getVertex j)) (i : Nat) :
    sameStaticFields ((g.setVertex j x).getVertex i) (g.getVertex i) := by
  by_cases hij : i = j
  · subst hij
    by_cases hlt : i < g.vertexArr.length
    · simpa [CFG.setVertex, CFG.getVertex, listGet_set_self _ _ _ hlt] using hx
    · simp [CFG.setVertex, CFG.getVertex, listSet_oob _ _ _ (Nat.le_of_not_lt hlt),
        sameStaticFields_refl]
  · simp [CFG.setVertex, CFG.getVertex, listGet_set_ne _ _ _ _ (fun h => hij h.symm),
      sameStaticFields_refl]

/-- Static-field equality is transitive. -/
theorem sameStaticFields_trans {a b c : VertexRec}
    (h1 : sameStaticFields a b) (h2 : sameStaticFields b c) :
    sameStaticFields a c :=
  ⟨h1.1.trans h2.1, h1.2.1.trans h2.2.1, h1.2.2.trans h2.2.2⟩

/-- `setEdge` does not touch the vertex arena. -/
theorem getVertex_setEdge (g : CFG) (e : Nat) (x : EdgeRec) (i : Nat) :
    (g.setEdge e x).getVertex i = g.getVertex i := by
  simp [CFG.setEdge, CFG.getVertex]

/-- `addOutgoing` keeps every vertex's static fields, the vertex count and
the edge count. -/
theorem addOutgoing_keeps (g : CFG) (v e : Nat) :
    (∀ i, sameStaticFields ((g.addOutgoing v e).getVertex i) (g.getVertex i)) ∧
    (g.addOutgoing v e).vertexArr.length = g.vertexArr.length ∧
    (g.addOutgoing v e).edgePool.length = g.edgePool.length := by
  refine ⟨fun i => ?_, by simp [CFG.addOutgoing, CFG.setVertex, CFG.setEdge],
    by simp [CFG.addOutgoing, CFG.setVertex, CFG.setEdge]⟩
  unfold CFG.addOutgoing
  have h2 := setVertex_keeps (g.setEdge e { g.getEdge e with source := some v })
    v { (g.setEdge e { g.getEdge e with source := some v }).getVertex v with
        edges := ((g.setEdge e { g.getEdge e with source := some v }).getVertex v).edges ++ [e] }
    ⟨rfl, rfl, rfl⟩ i
  rw [getVertex_setEdge] at h2
  exact h2

/-- `setTargetState` keeps every vertex's static fields, the vertex count
and the edge count. -/
theorem setTargetState_keeps (g : CFG) (e v : Nat) :
    (∀ i, sameStaticFields ((g.setTargetState e v).getVertex i) (g.getVertex i)) ∧
    (g.setTargetState e v).vertexArr.length = g.vertexArr.length ∧
    (g.setTargetState e v).edgePool.length = g.edgePool.length := by
  refine ⟨fun i => ?_, by simp [CFG.setTargetState, CFG.setVertex, CFG.setEdge],
    by simp [CFG.setTargetState, CFG.setVertex, CFG.setEdge]⟩
  unfold CFG.setTargetState
  have h2 := setVertex_keeps (g.setEdge e { g.getEdge e with target := some v })
    v { (g.setEdge e { g.getEdge e with target := some v }).getVertex v with
        previousEdge := some e }
    ⟨rfl, rfl, rfl⟩ i
  rw [getVertex_setEdge] at h2
  exact h2

/-- `publish` only touches the published-edge list. -/
theorem publish_keeps (g : CFG) (e : Nat) :
    (g.publish e).vertexArr = g.vertexArr ∧ (g.publish e).edgePool = g.edgePool := by
  exact ⟨rfl, rfl⟩

/-- One pass of `mergeEdgesFromAll` appends exactly the merge edge of the
first survivor, fully initialised. -/
theorem mergeEdges_cons (g : CFG) (v : Nat) (rest : List Nat)
    (condStr : String) (mv : Nat) :
    mergeEdgesFromAll g (v :: rest) condStr mv =
      mergeEdgesFromAll
        ((((g.newEdgeStr condStr sControlFlow).1.publish
            (g.newEdgeStr condStr sControlFlow).2).setTargetState
            (g.newEdgeStr condStr sControlFlow).2 mv).addOutgoing v
            (g.newEdgeStr condStr sControlFlow).2)
        rest condStr mv := rfl

/-- `mergeEdgesFromAll` appends exactly one fully initialised edge per
survivor, preserves the vertex count and every vertex's static fields. -/
theorem mergeEdgesFromAll_spec (survivors : List Nat) (g : CFG)
    (condStr : String) (mv : Nat) :
    (mergeEdgesFromAll g survivors condStr mv).edgePool =
      g.edgePool ++ survivors.map (fun v => mergeEdgeRec condStr v mv) ∧
    (mergeEdgesFromAll g survivors condStr mv).vertexArr.length = g.vertexArr.length ∧
    (∀ i, sameStaticFields ((mergeEdgesFromAll g survivors condStr mv).getVertex i)
      (g.getVertex i)) := by
  induction survivors generalizing g with
  | nil => exact ⟨by simp [mergeEdgesFromAll], rfl, fun i => sameStaticFields_refl _⟩
  | cons v rest ih =>
    have hstep : ((((g.newEdgeStr condStr sControlFlow).1.publish
        (g.newEdgeStr condStr sControlFlow).2).setTargetState
        (g.newEdgeStr condStr sControlFlow).2 mv).addOutgoing v
        (g.newEdgeStr condStr sControlFlow).2).edgePool =
        g.edgePool ++ [mergeEdgeRec condStr v mv] := by
      simp [CFG.newEdgeStr, CFG.newEdgeRaw, CFG.publish, CFG.setTargetState,
        CFG.addOutgoing, CFG.setEdge, CFG.setVertex, CFG.getEdge,
        listGet_append_len, listSet_append_len, mergeEdgeRec]
    rw [mergeEdges_cons]
    set g1 := (((g.newEdgeStr condStr sControlFlow).1.publish
        (g.newEdgeStr condStr sControlFlow).2).setTargetState
        (g.newEdgeStr condStr sControlFlow).2 mv).addOutgoing v
        (g.newEdgeStr condStr sControlFlow).2 with hg1
    obtain ⟨ihPool, ihLen, ihKeep⟩ := ih g1
    refine ⟨?_, ?_, ?_⟩
    · rw [ihPool, hstep]; simp
    · rw [ihLen, hg1]
      have h1 := (addOutgoing_keeps (((g.newEdgeStr condStr sControlFlow).1.publish
          (g.newEdgeStr condStr sControlFlow).2).setTargetState
          (g.newEdgeStr condStr sControlFlow).2 mv) v
          (g.newEdgeStr condStr sControlFlow).2).2.1
      have h2 := (setTargetState_keeps ((g.newEdgeStr condStr sControlFlow).1.publish
          (g.newEdgeStr condStr sControlFlow).2)
          (g.newEdgeStr condStr sControlFlow).2 mv).2.1
      rw [h1, h2]
      simp [CFG.newEdgeStr, CFG.newEdgeRaw, CFG.publish]
    · intro i
      refine sameStaticFields_trans (ihKeep i) ?_
      rw [hg1]
      refine sameStaticFields_trans
        ((addOutgoing_keeps _ v (g.newEdgeStr condStr sControlFlow).2).1 i) ?_
      refine sameStaticFields_trans
        ((setTargetState_keeps _ (g.newEdgeStr condStr sControlFlow).2 mv).1 i) ?_
      simp [CFG.newEdgeStr, CFG.newEdgeRaw, CFG.publish, CFG.getVertex,
        sameStaticFields_refl]

/-- Reads after `setMergePtr`: the head's pointer is set, everything else
is untouched. -/
theorem setMergePtr_reads (g : CFG) (head : Nat) (isTry : Bool) (val : Option Nat) :
    (head < g.vertexArr.length →
      mergePtr (setMergePtr g head isTry val) head isTry = some val) ∧
    (∀ i, ((setMergePtr g head isTry val).getVertex i).nameChanged =
      (g.getVertex i).nameChanged) ∧
    (∀ i, i ≠ head → (setMergePtr g head isTry val).getVertex i = g.getVertex i) ∧
    (setMergePtr g head isTry val).vertexArr.length = g.vertexArr.length ∧
    (setMergePtr g head isTry val).edgePool = g.edgePool := by
  cases isTry with
  | true =>
    refine ⟨fun h => ?_, fun i => ?_, fun i hi => ?_, ?_, rfl⟩
    · simp [setMergePtr, mergePtr, CFG.setVertex, CFG.getVertex,
        listGet_set_self _ _ _ h]
    · by_cases hih : i = head
      · subst hih
        by_cases hlt : i < g.vertexArr.length
        · simp [setMergePtr, CFG.setVertex, CFG.getVertex, listGet_set_self _ _ _ hlt]
        · simp [setMergePtr, CFG.setVertex, CFG.getVertex,
            listSet_oob _ _ _ (Nat.le_of_not_lt hlt)]
      · simp [setMergePtr, CFG.setVertex, CFG.getVertex,
          listGet_set_ne _ _ _ _ (fun h => hih h.symm)]
    · simp [setMergePtr, CFG.setVertex, CFG.getVertex,
        listGet_set_ne _ _ _ _ (fun h => hi h.symm)]
    · simp [setMergePtr, CFG.setVertex]
  | false =>
    refine ⟨fun h => ?_, fun i => ?_, fun i hi => ?_, ?_, rfl⟩
    · simp [setMergePtr, mergePtr, CFG.setVertex, CFG.getVertex,
        listGet_set_self _ _ _ h]
    · by_cases hih : i = head
      · subst hih
        by_cases hlt : i < g.vertexArr.length
        · simp [setMergePtr, CFG.setVertex, CFG.getVertex, listGet_set_self _ _ _ hlt]
        · simp [setMergePtr, CFG.setVertex, CFG.getVertex,
            listSet_oob _ _ _ (Nat.le_of_not_lt hlt)]
      · simp [setMergePtr, CFG.setVertex, CFG.getVertex,
          listGet_set_ne _ _ _ _ (fun h => hih h.symm)]
    · simp [setMergePtr, CFG.setVertex, CFG.getVertex,
        listGet_set_ne _ _ _ _ (fun h => hi h.symm)]
    · simp [setMergePtr, CFG.setVertex]

/-- Two graphs agreeing on a head vertex's static fields agree on its
merge pointer. -/
theorem mergePtr_eq_of_keeps {g g2 : CFG} (head : Nat) (isTry : Bool)
    (h : sameStaticFields (g2.getVertex head) (g.getVertex head)) :
    mergePtr g2 head isTry = mergePtr g head isTry := by
  cases isTry <;> simp [mergePtr, h.2.1, h.2.2]

/-- Claim C5: when at least one branch tail's inbound edge is not a return
or raise, `finishBranches` (the shared merge step of the conditional and
try-catch cases of `process_block`) creates exactly one synthetic merge
vertex, records it on the head vertex, and connects exactly the surviving
tails to it — a tail whose inbound edge carries a return or raise is never
the source of a merge edge; when no tail survives, no merge vertex is
created and the head's pointer is recorded as null. -/
theorem claim_C5 (g : CFG) (head : Nat) (tails : List Nat) (isTry : Bool)
    (hhead : head < g.vertexArr.length) :
    ((∃ t ∈ tails, terminatedTail g t = false) →
      (finishBranches g head tails isTry).1.vertexArr.length = g.vertexArr.length + 1 ∧
      ((finishBranches g head tails isTry).1.getVertex g.vertexArr.length).nameChanged =
        [some (if isTry then nmPostTryCatch else nmPostConditional)] ∧
      mergePtr (finishBranches g head tails isTry).1 head isTry =
        some (some g.vertexArr.length) ∧
      (finishBranches g head tails isTry).2 = [g.vertexArr.length] ∧
      ((finishBranches g head tails isTry).1.edgePool.drop g.edgePool.length).map
          (fun er => er.source) =
        (tails.filter (fun v => !terminatedTail g v)).map some ∧
      ((finishBranches g head tails isTry).1.edgePool.drop g.edgePool.length).map
          (fun er => er.target) =
        (tails.filter (fun v => !terminatedTail g v)).map
          (fun _ => some g.vertexArr.length) ∧
      (∀ t ∈ tails, terminatedTail g t = true →
        ∀ er ∈ (finishBranches g head tails isTry).1.edgePool.drop g.edgePool.length,
          er.source ≠ some t)) ∧
    ((∀ t ∈ tails, terminatedTail g t = true) →
      mergePtr (finishBranches g head tails isTry).1 head isTry = some none ∧
      (finishBranches g head tails isTry).1.vertexArr.length = g.vertexArr.length ∧
      (finishBranches g head tails isTry).1.edgePool = g.edgePool ∧
      (finishBranches g head tails isTry).2 = []) := by
  cases hfil : tails.filter (fun v => !terminatedTail g v) with
  | nil =>
    have hall : ∀ t ∈ tails, terminatedTail g t = true := by
      intro t ht
      by_contra hc
      have : t ∈ tails.filter (fun v => !terminatedTail g v) :=
        List.mem_filter.mpr ⟨ht, by simp [Bool.eq_false_iff.mpr hc]⟩
      simp [hfil] at this
    constructor
    · rintro ⟨t, ht, hterm⟩
      exact absurd (hall t ht) (by simp [hterm])
    · intro _
      have hres : finishBranches g head tails isTry =
          (setMergePtr g head isTry none, []) := by
        unfold finishBranches
        rw [hfil]
      rw [hres]
      obtain ⟨h1, _, _, h4, h5⟩ := setMergePtr_reads g head isTry none
      exact ⟨h1 hhead, h4, h5, rfl⟩
  | cons v vs =>
    have hres : finishBranches g head tails isTry =
        (mergeEdgesFromAll
          (setMergePtr (g.pushVertex
            { nameChanged := [some (if isTry then nmPostTryCatch else nmPostConditional)] }).1
            head isTry (some g.vertexArr.length))
          (v :: vs) (if isTry then nmPostTryCatch else sPostCondition)
          g.vertexArr.length,
         [g.vertexArr.length]) := by
      unfold finishBranches
      rw [hfil]
      exact rfl
    constructor
    · intro _
      rw [hres]
      obtain ⟨hp1, hp2, hp3, hp4, hp5⟩ := pushVertex_spec g
        { nameChanged := [some (if isTry then nmPostTryCatch else nmPostConditional)] }
      generalize hg2E : setMergePtr (g.pushVertex
        { nameChanged := [some (if isTry then nmPostTryCatch else nmPostConditional)] }).1
        head isTry (some g.vertexArr.length) = g2 at *
      have hs := setMergePtr_reads (g.pushVertex
        { nameChanged := [some (if isTry then nmPostTryCatch else nmPostConditional)] }).1
        head isTry (some g.vertexArr.length)
      rw [hg2E] at hs
      obtain ⟨hs1, hs2, hs3, hs4, hs5⟩ := hs
      obtain ⟨hm1, hm2, hm3⟩ := mergeEdgesFromAll_spec (v :: vs) g2
        (if isTry then nmPostTryCatch else sPostCondition) g.vertexArr.length
      refine ⟨?_, ?_, ?_, rfl, ?_, ?_, ?_⟩
      · rw [hm2, hs4, hp2]
      · rw [(hm3 g.vertexArr.length).1, hs2, hp3]
      · have hptr : mergePtr g2 head isTry = some (some g.vertexArr.length) :=
          hs1 (by rw [hp2]; exact Nat.lt_succ_of_lt hhead)
        rw [mergePtr_eq_of_keeps head isTry (hm3 head)]
        exact hptr
      · rw [hm1, hs5, hp5]
        simp only [List.drop_left, List.map_map, Function.comp_def, mergeEdgeRec]
      · rw [hm1, hs5, hp5]
        simp only [List.drop_left, List.map_map, Function.comp_def, mergeEdgeRec]
      · intro t ht hterm er her
        rw [hm1, hs5, hp5] at her
        simp only [List.drop_left] at her
        rw [List.mem_map] at her
        obtain ⟨w, hw, hwe⟩ := her
        have hwmem : w ∈ tails.filter (fun u => !terminatedTail g u) := by
          rw [hfil]; exact hw
        have hwf := List.mem_filter.mp hwmem
        intro hsrc
        rw [← hwe] at hsrc
        simp only [mergeEdgeRec, Option.some.injEq] at hsrc
        subst hsrc
        rw [hterm] at hwf
        simp at hwf
    · intro hall
      exfalso
      have : v ∈ tails.filter (fun u => !terminatedTail g u) := by
        rw [hfil]; exact List.mem_cons_self v vs
      have hvf := List.mem_filter.mp this
      rw [hall v hvf.1] at hvf
      simp at hvf

/-- Witness for claim C5 at a concrete graph: head vertex 0, a surviving
tail 1 and a terminated tail 2. -/
theorem claim_C5_witness :
    0 < exC5graph.vertexArr.length ∧
    mergePtr (finishBranches exC5graph 0 [1, 2] false).1 0 false =
      some (some exC5graph.vertexArr.length) ∧
    ((finishBranches exC5graph 0 [1, 2] false).1.edgePool.drop
        exC5graph.edgePool.length).map (fun er => er.source) =
      ([1, 2].filter (fun v => !terminatedTail exC5graph v)).map some := by
  have h := claim_C5 exC5graph 0 [1, 2] false (by decide)
  have h1 := h.1 ⟨1, by decide, by decide⟩
  exact ⟨by decide, h1.2.2.1, h1.2.2.2.2.1⟩

/-- Claim C10: `process_block` on the empty block is the identity on the
continuation frontier — it returns the given starting vertices (or the
singleton starting vertex when none are given) and leaves the graph,
including `vertices`, `edges`, `return_statements` and
`branch_initial_statements`, untouched. -/
theorem claim_C10 (fuel : Nat) (g : CFG) (vs : Option (List Nat))
    (condition : List CondElem) (iv : List String) :
    processBlockF (fuel + 1) [] g vs condition iv =
      .ok (g, vs.getD [g.startingVertex]) := by
  cases fuel with
  | zero => rfl
  | succ n => rfl

/-- Claim C9 (code bug): startup is supposed to refuse exactly when test
mode is enabled without `test_module`; the embedded check indeed exits in
that case and proceeds when both are given — but with test mode disabled
it raises `UnboundLocalError` reading `TEST_DIR` (missing from the
`global` declaration on line 679), so startup also fails outside test
mode, contradicting the claim. -/
theorem claim_C9 :
    startupTestCheck { test := none, testModule := none } = .error .unboundLocal ∧
    startupTestCheck { test := some ("no"), testModule := some ("tests") } =
      .error .unboundLocal ∧
    startupTestCheck { test := some sYes, testModule := none } = .error .systemExit ∧
    startupTestCheck { test := some sYes, testModule := some ("tests") } = .ok () :=
  ⟨rfl, rfl, rfl, rfl⟩

/-- Claim C3 (counterexample): an `end-monitoring` event processed while
the paused flag is set terminates the consumer loop (the flag is checked
after the `end-monitoring` test), refuting the claim that every event
other than `inactive-monitoring-stop` is discarded without terminating
the loop. -/
theorem claim_C3_counterexample :
    stepConsumer exCfgNo exPausedState Event.endMonitoring =
      (exPausedState, .ok false) := rfl

/-- Claim C3 (amended): while the paused flag is set, every event other
than `inactive-monitoring-stop` and `end-monitoring` is discarded — the
whole consumer state, property map groups included, is unchanged and the
loop continues; `end-monitoring` still terminates the loop even while
paused. -/
theorem claim_C3 (cfg : VyPRConfig) (st : ConsState) (ev : Event)
    (hpaused : st.inactiveMonitoring = true)
    (hstop : ev ≠ Event.inactiveMonitoringStop)
    (hend : ev ≠ Event.endMonitoring) :
    stepConsumer cfg st ev = (st, .ok true) := by
  unfold stepConsumer
  rw [if_neg hend, if_pos hpaused, if_neg hstop]

/-- Witness for claim C3 at a concrete paused state and event. -/
theorem claim_C3_witness :
    exPausedState.inactiveMonitoring = true ∧
    Event.testTransaction (.int 3) ≠ Event.inactiveMonitoringStop ∧
    Event.testTransaction (.int 3) ≠ Event.endMonitoring ∧
    stepConsumer exCfgNo exPausedState (Event.testTransaction (.int 3)) =
      (exPausedState, .ok true) :=
  ⟨rfl, by decide, by decide,
    claim_C3 exCfgNo exPausedState (Event.testTransaction (.int 3)) rfl
      (by decide) (by decide)⟩

/-- Claim C1 (code bug): on the event sequence function-start, trigger
with bind variable 0, one instrument event, function-end, the consumer is
supposed to submit exactly one function-call record and then one verdict
report.  Instead the function-end handler computes
`transaction_time.isoformat()` where `transaction_time` is `top_pair[3]`
(the scope string `"end"`) outside test mode, or the consumer's stored
transaction (initially the integer `-1`) in test mode — an
`AttributeError` either way, killing the thread with zero submissions.
The final conjunct shows the rest of the pipeline does submit exactly one
call record followed by one verdict report once the transaction value is
a genuine time. -/
theorem claim_C1 :
    (runEvents exCfgNo exC1state exC1events).2 = .error .attributeError ∧
    (runEvents exCfgNo exC1state exC1events).1.submissions = [] ∧
    (runEvents { testFramework := sYes } exC1state exC1events).2 =
      .error .attributeError ∧
    (runEvents { testFramework := sYes } exC1state exC1events).1.submissions = [] ∧
    (runEvents { testFramework := sYes }
        { exC1state with transaction := .time 42 } exC1events).1.submissions.map
      (fun s => (s.isFunctionCall, s.isVerdicts)) = [(true, false), (false, true)] :=
  ⟨rfl, rfl, rfl, rfl, rfl⟩

/-- Claim C2 (code bug): cloning a monitor on a trigger with bind variable
index 1 is supposed to copy the recorded slots and append the clone.  For
a monitor whose state mentions a mixed atom, the copy loop reaches line
428's `check_atom_truth_value(atom, atom_index, atom_sub_index)` where
`atom_sub_index` is unbound (no instrument event ever ran), raising
`NameError`; the clone is never appended (the bucket still holds exactly
the original monitor) and the thread dies.  For a single-variable atom
bound before the bind variable, line 435 indexes the index-keyed
tri-state map with the atom object, raising `KeyError`. -/
theorem claim_C2 :
    (stepConsumer exCfgNo exC2state exC2event).2 = .error .nameError ∧
    (lookupPMG (stepConsumer exCfgNo exC2state exC2event).1 ("m.f") ("h1")).map
      (fun p => p.staticQdToMonitors) = some [(0, [exMonitor2])] ∧
    (stepConsumer exCfgNo exC2stateSingle exC2event).2 = .error .keyError :=
  ⟨rfl, rfl, rfl⟩

/-- Looking up the updated key sees the update. -/
theorem lookup_alUpdate_self {α β : Type} [BEq α] [LawfulBEq α]
    (l : List (α × β)) (k : α) (f : β → β) :
    List.lookup k (alUpdate l k f) = (List.lookup k l).map f := by
  induction l with
  | nil => rfl
  | cons p rest ih =>
    obtain ⟨a, b⟩ := p
    by_cases hak : a = k
    · subst hak
      simp [alUpdate, List.lookup]
    · have h1 : (a == k) = false := beq_eq_false_iff_ne.mpr hak
      have h2 : (k == a) = false := beq_eq_false_iff_ne.mpr (fun h => hak h.symm)
      simp [alUpdate, List.lookup, h1, h2, ih]

/-- Looking up a different key is unaffected by the update. -/
theorem lookup_alUpdate_ne {α β : Type} [BEq α] [LawfulBEq α]
    (l : List (α × β)) (k k2 : α) (f : β → β) (hne : k2 ≠ k) :
    List.lookup k2 (alUpdate l k f) = List.lookup k2 l := by
  induction l with
  | nil => rfl
  | cons p rest ih =>
    obtain ⟨a, b⟩ := p
    by_cases hak : a = k
    · subst hak
      have h2 : (k2 == a) = false := beq_eq_false_iff_ne.mpr hne
      simp [alUpdate, List.lookup, h2]
    · have h1 : (a == k) = false := beq_eq_false_iff_ne.mpr hak
      by_cases hk2a : k2 = a
      · subst hk2a
        simp [alUpdate, List.lookup, h1]
      · have h3 : (k2 == a) = false := beq_eq_false_iff_ne.mpr hk2a
        simp [alUpdate, List.lookup, h1, h3, ih]

/-- Effect of `updatePMG` on `lookupPMG` for the same function name. -/
theorem lookupPMG_updatePMG (st : ConsState) (fn h h2 : String) (f : PMGL → PMGL) :
    lookupPMG (updatePMG st fn h f) fn h2 =
      if h2 = h then (lookupPMG st fn h2).map f else lookupPMG st fn h2 := by
  unfold lookupPMG updatePMG
  simp only [lookup_alUpdate_self]
  cases hl : List.lookup fn st.functionToMaps with
  | none => by_cases h2h : h2 = h <;> simp [h2h]
  | some pmgs =>
    by_cases h2h : h2 = h
    · subst h2h
      simp [lookup_alUpdate_self]
    · simp [h2h, lookup_alUpdate_ne pmgs h h2 f h2h]

/-- Behaviour of the function-start per-property loop: it never errors
when all listed properties resolve, leaves unlisted properties alone,
resets each listed property, binds `maps` to the last listed property,
and touches nothing else in the state. -/
theorem startLoop_spec (ts : Nat) (fname : String) (hs : List String)
    (st : ConsState) (hlook : ∀ h ∈ hs, (lookupPMG st fname h).isSome) :
    (startLoop ts fname hs st).2 = none ∧
    (∀ hl, hs.getLast? = some hl →
      (startLoop ts fname hs st).1.mapsVar = some (fname, hl)) ∧
    (∀ h pmg0, h ∈ hs → lookupPMG st fname h = some pmg0 →
      lookupPMG (startLoop ts fname hs st).1 fname h = some (startReset ts pmg0)) ∧
    (∀ h, h ∉ hs →
      lookupPMG (startLoop ts fname hs st).1 fname h = lookupPMG st fname h) ∧
    (hs = [] → (startLoop ts fname hs st).1 = st) := by
  induction hs generalizing st with
  | nil =>
    exact ⟨rfl, fun hl h => by simp at h, fun h pmg0 hmem => by simp at hmem,
      fun h _ => rfl, fun _ => rfl⟩
  | cons h0 rest ih =>
    have hl0 : (lookupPMG st fname h0).isSome := hlook h0 (by simp)
    obtain ⟨pmgh0, hpmgh0⟩ := Option.isSome_iff_exists.mp hl0
    have hstep : startLoop ts fname (h0 :: rest) st =
        startLoop ts fname rest
          { updatePMG st fname h0 (startReset ts) with mapsVar := some (fname, h0) } := by
      simp only [startLoop, hpmgh0]
    set st1 : ConsState :=
      { updatePMG st fname h0 (startReset ts) with mapsVar := some (fname, h0) } with hst1
    have hlookup1 : ∀ h2, lookupPMG st1 fname h2 =
        if h2 = h0 then (lookupPMG st fname h2).map (startReset ts)
        else lookupPMG st fname h2 := by
      intro h2
      have : lookupPMG st1 fname h2 =
          lookupPMG (updatePMG st fname h0 (startReset ts)) fname h2 := rfl
      rw [this, lookupPMG_updatePMG]
    have hlookRest : ∀ h2 ∈ rest, (lookupPMG st1 fname h2).isSome := by
      intro h2 hmem
      rw [hlookup1 h2]
      by_cases h2h0 : h2 = h0
      · subst h2h0
        simpa [Option.isSome_map] using hl0
      · simp only [h2h0, if_false]
        exact hlook h2 (by simp [hmem])
    obtain ⟨ih1, ih2, ih3, ih4, ih5⟩ := ih st1 hlookRest
    rw [hstep]
    refine ⟨ih1, ?_, ?_, ?_, fun hemp => by simp at hemp⟩
    · intro hl hlast
      rcases rest with _ | ⟨r, rs⟩
      · simp at hlast
        subst hlast
        rw [ih5 rfl, hst1]
      · have hlast2 : (r :: rs).getLast? = some hl := by
          simpa [List.getLast?_cons_cons] using hlast
        exact ih2 hl hlast2
    · intro h2 pmg0 hmem hlook0
      rcases List.mem_cons.mp hmem with hh | hh
      · subst hh
        rw [hpmgh0] at hlook0
        injection hlook0 with hpe
        by_cases hmem2 : h2 ∈ rest
        · have hin1 : lookupPMG st1 fname h2 = some (startReset ts pmgh0) := by
            rw [hlookup1 h2]
            simp [hpmgh0]
          have hfin := ih3 h2 (startReset ts pmgh0) hmem2 hin1
          rw [← hpe]
          simpa [startReset] using hfin
        · rw [← hpe, ih4 h2 hmem2, hlookup1 h2]
          simp [hpmgh0]
      · by_cases h2h0 : h2 = h0
        · subst h2h0
          rw [hpmgh0] at hlook0
          injection hlook0 with hpe
          have hin1 : lookupPMG st1 fname h2 = some (startReset ts pmgh0) := by
            rw [hlookup1 h2]
            simp [hpmgh0]
          have hfin := ih3 h2 (startReset ts pmgh0) hh hin1
          rw [← hpe]
          simpa [startReset] using hfin
        · have hin1 : lookupPMG st1 fname h2 = some pmg0 := by
            rw [hlookup1 h2]
            simp [h2h0, hlook0]
          exact ih3 h2 pmg0 hh hin1
    · intro h2 hnot
      have hnoth0 : h2 ≠ h0 := fun hc => hnot (by simp [hc])
      have hnotrest : h2 ∉ rest := fun hc => hnot (by simp [hc])
      rw [ih4 h2 hnotrest, hlookup1 h2]
      simp [hnoth0]

/-- Claim C4 (counterexample): a function-start event listing two
property hashes, both with recorded program path `[5]`, resets both
properties' monitors, verdict reports and latest call time, but clears
the program path only of the second (last) hash — `maps.program_path = []`
at line 309 runs once, on the loop-leaked `maps` local, after the
per-property loop has finished. -/
theorem claim_C4_counterexample :
    (stepConsumer exCfgNo exC4state exC4event).2 = .ok true ∧
    (lookupPMG (stepConsumer exCfgNo exC4state exC4event).1 (("m.f")) (("h1"))).map
      PMGL.programPath = some [5] ∧
    (lookupPMG (stepConsumer exCfgNo exC4state exC4event).1 (("m.f")) (("h2"))).map
      PMGL.programPath = some [] ∧
    (lookupPMG (stepConsumer exCfgNo exC4state exC4event).1 (("m.f")) (("h1"))).map
      PMGL.latestTimeOfCall = some (some 7) ∧
    (lookupPMG (stepConsumer exCfgNo exC4state exC4event).1 (("m.f")) (("h1"))).map
      PMGL.staticQdToMonitors = some [] :=
  ⟨rfl, rfl, rfl, rfl, rfl⟩

/-- Claim C4 (amended): on a function-start event whose property-hash
list is non-empty and whose listed hashes are all registered for the
function, the handler succeeds and resets every listed property's
`static_qd_to_monitors`, verdict report and `latest_time_of_call`, but it
clears `program_path` only for the last hash of the list; every other
listed hash keeps its previous program path. -/
theorem claim_C4 (st : ConsState) (hs : List String) (fname : String) (ts : Nat)
    (hlook : ∀ h ∈ hs, (lookupPMG st fname h).isSome)
    (hl : String) (hlast : hs.getLast? = some hl) :
    (handleStart st hs fname ts).2 = .ok true ∧
    (∀ h pmg0, h ∈ hs → lookupPMG st fname h = some pmg0 →
      lookupPMG (handleStart st hs fname ts).1 fname h =
        some { pmg0 with staticQdToMonitors := [], verdictReport := [],
                         latestTimeOfCall := some ts,
                         programPath :=
                           if h = hl then [] else pmg0.programPath }) := by
  obtain ⟨hnone, hmaps, hreset, hkeep, hnil⟩ := startLoop_spec ts fname hs st hlook
  have hmv := hmaps hl hlast
  have hstep : handleStart st hs fname ts =
      (updatePMG (startLoop ts fname hs st).1 fname hl
         (fun p => { p with programPath := [] }), .ok true) := by
    simp only [handleStart, hnone, hmv]
  constructor
  · rw [hstep]
  · intro h pmg0 hmem hlook0
    have h3 := hreset h pmg0 hmem hlook0
    rw [hstep]
    simp only [lookupPMG_updatePMG]
    by_cases hhl : h = hl
    · subst hhl
      rw [if_pos rfl, if_pos rfl, h3]
      rfl
    · rw [if_neg hhl, if_neg hhl, h3]
      rfl

/-- Claim C4 (witness): the amended theorem applied to the two-property
scenario — the first hash keeps its program path `[5]` while everything
else is reset. -/
theorem claim_C4_witness :
    (∀ h ∈ [(("h1")), (("h2"))], (lookupPMG exC4state (("m.f")) h).isSome) ∧
    lookupPMG (handleStart exC4state [(("h1")), (("h2"))] (("m.f")) 7).1
        (("m.f")) (("h1")) =
      some { exPMGpath with staticQdToMonitors := [], verdictReport := [],
                            latestTimeOfCall := some 7, programPath := [5] } := by
  refine ⟨by decide, ?_⟩
  have h := (claim_C4 exC4state [(("h1")), (("h2"))] (("m.f")) 7 (by decide)
    (("h2")) rfl).2 (("h1")) exPMGpath (by decide) rfl
  rw [if_neg (by decide)] at h
  exact h

/-- If every call node in the list has a nice name chase, mapping the
chase over the list succeeds. -/
theorem mapM_chase_ok (l : List AExpr) (h : ∀ x ∈ l, chaseNice x = true) :
    ∃ rs, l.mapM chaseCallName = Except.ok rs := by
  induction l with
  | nil => exact ⟨[], rfl⟩
  | cons a as ih =>
    have ha := h a (by simp)
    unfold chaseNice at ha
    cases hc : chaseCallName a with
    | error e => rw [hc] at ha; simp at ha
    | ok parts =>
      obtain ⟨rs, hrs⟩ := ih (fun x hx => h x (by simp [hx]))
      refine ⟨parts :: rs, ?_⟩
      rw [List.mapM_cons, hc]
      show as.mapM chaseCallName >>= (fun xs => pure (parts :: xs)) =
        Except.ok (parts :: rs)
      rw [hrs]
      rfl

/-- On the supported fragment, `get_reversed_string_list` always returns a
string list (never `None`, never an error), for either value of
`omit_subscripts`. -/
theorem grsl_supported_ok :
    ∀ n (e : AExpr), e.size ≤ n → extractionSupported e = true →
      ∀ b, ∃ r, get_reversed_string_list e b = .ok (some r) := by
  intro n
  induction n with
  | zero =>
    intro e hsz _ _
    cases e <;> simp [AExpr.size] at hsz
  | succ n ih =>
    intro e hsz hsup b
    cases e with
    | name id => exact ⟨[id], rfl⟩
    | strE s => exact ⟨[s], rfl⟩
    | «attribute» v a =>
      simp [extractionSupported, Bool.and_eq_true] at hsup
      have hv : v.size ≤ n := by
        simp [AExpr.size] at hsz; omega
      obtain ⟨r, hr⟩ := ih v hv hsup.2 b
      exact ⟨a :: r, by simp [get_reversed_string_list, hr, consOntoReversed]⟩
    | subscript v s =>
      simp [extractionSupported, Bool.and_eq_true] at hsup
      have hv : v.size ≤ n := by
        simp [AExpr.size] at hsz; omega
      cases b with
      | true =>
        obtain ⟨r, hr⟩ := ih v hv hsup.2 false
        exact ⟨r, by simp [get_reversed_string_list, hr]⟩
      | false =>
        obtain ⟨r, hr⟩ := ih v hv hsup.2 false
        cases s with
        | strE t =>
          exact ⟨strSubscriptToken t :: r,
            by simp [get_reversed_string_list, hr, consOntoReversed]⟩
        | num m =>
          exact ⟨numSubscriptToken m :: r,
            by simp [get_reversed_string_list, hr, consOntoReversed]⟩
        | name id2 =>
          exact ⟨nameSubscriptToken id2 :: r,
            by simp [get_reversed_string_list, hr, consOntoReversed]⟩
        | «attribute» v2 a2 => simp [sliceSupported] at hsup
        | subscript v2 s2 => simp [sliceSupported] at hsup
        | call f2 args2 => simp [sliceSupported] at hsup
        | tupleE e2 => simp [sliceSupported] at hsup
        | load => simp [sliceSupported] at hsup
        | index => simp [sliceSupported] at hsup
        | other k => simp [sliceSupported] at hsup
    | call f args =>
      have hall : ∀ x ∈ astWalkCalls [AExpr.call f args], chaseNice x = true := by
        simpa [extractionSupported, List.all_eq_true] using hsup
      obtain ⟨rs, hrs⟩ := mapM_chase_ok _ hall
      refine ⟨rs.map (fun chain => String.intercalate dotSep chain.reverse), ?_⟩
      have hform : get_reversed_string_list (AExpr.call f args) b =
          (functionNameStringsOf [AExpr.call f args]).map some := rfl
      rw [hform]
      unfold functionNameStringsOf
      rw [hrs]
      rfl
    | num m => simp [extractionSupported] at hsup
    | tupleE elts => simp [extractionSupported] at hsup
    | load => simp [extractionSupported] at hsup
    | index => simp [extractionSupported] at hsup
    | other k => simp [extractionSupported] at hsup

/-- Claim C8: on node kinds outside the contract, `get_reversed_string_list`
falls through and returns Python `None` (`.ok none`); attribute-path
extraction on such a node (other than the immediately-returning
`Load`/`Index` contexts, which yield `None`) fails by slicing `None` — the
`TypeError` standing for the unsupported-AST-node failure — and that error
propagates to the SCFG builder, as the concrete `process_block` run on an
assignment with a numeric-literal target shows; on the supported fragment
the (pure, deterministic) extraction always produces a string list. -/
theorem claim_C8 (e : AExpr) (b : Bool) :
    (topUnsupported e = true →
      get_reversed_string_list e b = .ok none ∧
      (e ≠ .load → e ≠ .index → get_attr_name_string e b = .error .typeError)) ∧
    (e = .load ∨ e = .index → get_attr_name_string e b = .ok none) ∧
    (extractionSupported e = true →
      ∃ r, get_reversed_string_list e b = .ok (some r)) ∧
    processBlockF 3 [.assign [.num 3] (.num 4)] (initCFG []) none [] [] =
      .error .typeError := by
  refine ⟨?_, ?_, ?_, rfl⟩
  · intro htop
    constructor
    · cases e <;> first
        | rfl
        | simp [topUnsupported] at htop
    · intro hl hi
      cases e with
      | num m => rfl
      | tupleE elts => rfl
      | other t => rfl
      | load => exact absurd rfl hl
      | index => exact absurd rfl hi
      | name id => simp [topUnsupported] at htop
      | «attribute» v a => simp [topUnsupported] at htop
      | subscript v s => simp [topUnsupported] at htop
      | call f args => simp [topUnsupported] at htop
      | strE s => simp [topUnsupported] at htop
  · intro h
    rcases h with h | h <;> subst h <;> rfl
  · intro hsup
    exact grsl_supported_ok e.size e le_rfl hsup b

/-- Claim C8 (witness): the theorem applied to the tuple node `(,)` — an
unsupported kind: the reversed string list is `None` and attribute-path
extraction raises the `TypeError`; and to a supported dotted name, where
extraction succeeds. -/
theorem claim_C8_witness :
    (topUnsupported (AExpr.tupleE []) = true ∧
      get_reversed_string_list (AExpr.tupleE []) false = .ok none ∧
      get_attr_name_string (AExpr.tupleE []) false = .error .typeError) ∧
    (extractionSupported (AExpr.attribute (.name ("a")) ("b")) = true ∧
      ∃ r, get_reversed_string_list (AExpr.attribute (.name ("a")) ("b")) false =
        .ok (some r)) := by
  have h1 := (claim_C8 (AExpr.tupleE []) false).1 (by decide)
  have h2 := (claim_C8 (AExpr.attribute (.name ("a")) ("b")) false).2.2.1
    (by decide)
  exact ⟨⟨by decide, h1.1, h1.2 (by simp) (by simp)⟩, ⟨by decide, h2⟩⟩

/-- `grammarFold` over a vertex list, when it succeeds, produces an entry
for every listed vertex, holding exactly the rules `grammarRulesFor`
computes for it. -/
theorem grammarFold_lookup (g : CFG) :
    ∀ (l : List Nat) (m : List (Nat × List (List GSym))),
      grammarFold g l = .ok m →
      ∀ i ∈ l, ∃ r, grammarRulesFor g i = .ok r ∧ m.lookup i = some r := by
  intro l
  induction l with
  | nil =>
    intro m _ i hi
    simp at hi
  | cons j rest ih =>
    intro m hm i hi
    rw [grammarFold] at hm
    cases hg : grammarRulesFor g j with
    | error e =>
      rw [hg] at hm
      exact Except.noConfusion hm
    | ok r0 =>
      rw [hg] at hm
      cases hrest : grammarFold g rest with
      | error e =>
        rw [hrest] at hm
        exact Except.noConfusion hm
      | ok rs0 =>
        rw [hrest] at hm
        injection hm with hmv
        subst hmv
        by_cases hij : i = j
        · subst hij
          exact ⟨r0, hg, by simp [List.lookup]⟩
        · have hir : i ∈ rest := by
            rcases List.mem_cons.mp hi with h | h
            · exact absurd h hij
            · exact h
          obtain ⟨r, hr, hlook⟩ := ih rs0 hrest i hir
          refine ⟨r, hr, ?_⟩
          have hbeq : (i == j) = false := beq_eq_false_iff_ne.mpr hij
          simpa [List.lookup, hbeq] using hlook

/-- Claim C7: when `derive_grammar` returns a grammar, it is total over the
graph — every vertex index is a key of the returned map — and a sink
vertex (no outgoing edges) is mapped to the single rule `[ε]` generating
the empty string. -/
theorem claim_C7 (g : CFG) (m : List (Nat × List (List GSym)))
    (hm : CFG.derive_grammar g = .ok m) :
    (∀ i, i < g.vertexArr.length → (m.lookup i).isSome) ∧
    (∀ i, i < g.vertexArr.length → (g.getVertex i).edges = [] →
      m.lookup i = some [[GSym.eps]]) := by
  have hkeys := grammarFold_lookup g (List.range g.vertexArr.length) m hm
  constructor
  · intro i hi
    obtain ⟨r, -, hlook⟩ := hkeys i (List.mem_range.mpr hi)
    simp [hlook]
  · intro i hi hempty
    obtain ⟨r, hr, hlook⟩ := hkeys i (List.mem_range.mpr hi)
    have hrule : grammarRulesFor g i = .ok [[GSym.eps]] := by
      simp [grammarRulesFor, hempty]
    rw [hrule] at hr
    injection hr with hrv
    rw [hlook, hrv]

/-- Claim C7 (witness): the grammar of the straight-line E1 graph — all
four vertices are keys and the sink vertex 3 gets the `[ε]` rule. -/
theorem claim_C7_witness :
    CFG.derive_grammar exE1graph =
      .ok [(0, [[GSym.edge 0, GSym.vertex 1]]), (1, [[GSym.edge 1, GSym.vertex 2]]),
           (2, [[GSym.edge 2, GSym.vertex 3]]), (3, [[GSym.eps]])] ∧
    (∀ i, i < exE1graph.vertexArr.length →
      (([(0, [[GSym.edge 0, GSym.vertex 1]]), (1, [[GSym.edge 1, GSym.vertex 2]]),
         (2, [[GSym.edge 2, GSym.vertex 3]]), (3, [[GSym.eps]])] :
        List (Nat × List (List GSym))).lookup i).isSome) ∧
    (([(0, [[GSym.edge 0, GSym.vertex 1]]), (1, [[GSym.edge 1, GSym.vertex 2]]),
       (2, [[GSym.edge 2, GSym.vertex 3]]), (3, [[GSym.eps]])] :
      List (Nat × List (List GSym))).lookup 3 = some [[GSym.eps]]) := by
  exact ⟨rfl, (claim_C7 exE1graph _ rfl).1,
    (claim_C7 exE1graph _ rfl).2 3 (by decide) rfl⟩

/-- Outgoing-structure equality is reflexive. -/
theorem sameOutgoing_refl (a : VertexRec) : sameOutgoing a a :=
  ⟨rfl, sameStaticFields_refl a⟩

/-- Outgoing-structure equality is transitive. -/
theorem sameOutgoing_trans {a b c : VertexRec}
    (h1 : sameOutgoing a b) (h2 : sameOutgoing b c) : sameOutgoing a c :=
  ⟨h1.1.trans h2.1, sameStaticFields_trans h1.2 h2.2⟩

/-- The identity step is a frame. -/
theorem frameOK_refl (g : CFG) (cur : List Nat) : frameOK g g cur :=
  ⟨le_rfl, le_rfl, fun _ _ => rfl, fun _ _ => rfl,
   fun _ _ _ => sameOutgoing_refl _⟩

/-- The identity frontier step. -/
theorem frontierOK_refl (g : CFG) (cur : List Nat) : frontierOK g cur cur :=
  fun _ hu => Or.inl hu

/-- Frames compose along a frontier step. -/
theorem frameOK_trans {g g1 g2 : CFG} {cur cur1 : List Nat}
    (h1 : frameOK g g1 cur) (hf : frontierOK g cur cur1)
    (h2 : frameOK g1 g2 cur1) : frameOK g g2 cur := by
  obtain ⟨hl1, he1, hef1, hn1, ho1⟩ := h1
  obtain ⟨hl2, he2, hef2, hn2, ho2⟩ := h2
  refine ⟨hl1.trans hl2, he1.trans he2, ?_, ?_, ?_⟩
  · intro e he
    rw [hef2 e (lt_of_lt_of_le he he1), hef1 e he]
  · intro i hi
    rw [hn2 i (lt_of_lt_of_le hi hl1), hn1 i hi]
  · intro i hi hcur
    have hcur1 : i ∉ cur1 := by
      intro hmem
      rcases hf i hmem with h | h
      · exact hcur h
      · exact absurd hi (not_lt.mpr h)
    exact sameOutgoing_trans (ho2 i (lt_of_lt_of_le hi hl1) hcur1) (ho1 i hi hcur)

/-- Frontier steps compose. -/
theorem frontierOK_trans {g g1 : CFG} {cur cur1 cur2 : List Nat}
    (h1 : frontierOK g cur cur1) (hl : g.vertexArr.length ≤ g1.vertexArr.length)
    (h2 : frontierOK g1 cur1 cur2) : frontierOK g cur cur2 := by
  intro u hu
  rcases h2 u hu with h | h
  · exact h1 u h
  · exact Or.inr (le_trans hl h)

/-- `setVertex` leaves other indices alone. -/
theorem setVertex_getVertex_ne (g : CFG) (j : Nat) (x : VertexRec) (i : Nat)
    (h : i ≠ j) : (g.setVertex j x).getVertex i = g.getVertex i := by
  simp [CFG.setVertex, CFG.getVertex, listGet_set_ne _ _ _ _ (fun hc => h hc.symm)]

/-- `setVertex` on an in-range index stores the record. -/
theorem setVertex_getVertex_self (g : CFG) (j : Nat) (x : VertexRec)
    (hj : j < g.vertexArr.length) : (g.setVertex j x).getVertex j = x := by
  simp [CFG.setVertex, CFG.getVertex, listGet_set_self _ _ _ hj]

/-- `setEdge` leaves other edge indices alone. -/
theorem setEdge_getEdge_ne (g : CFG) (j : Nat) (x : EdgeRec) (i : Nat)
    (h : i ≠ j) : (g.setEdge j x).getEdge i = g.getEdge i := by
  simp [CFG.setEdge, CFG.getEdge, listGet_set_ne _ _ _ _ (fun hc => h hc.symm)]

/-- `setEdge` on an in-range index stores the record. -/
theorem setEdge_getEdge_self (g : CFG) (j : Nat) (x : EdgeRec)
    (hj : j < g.edgePool.length) : (g.setEdge j x).getEdge j = x := by
  simp [CFG.setEdge, CFG.getEdge, listGet_set_self _ _ _ hj]

/-- `setVertex` does not touch the edge pool. -/
theorem getEdge_setVertex (g : CFG) (j : Nat) (x : VertexRec) (i : Nat) :
    (g.setVertex j x).getEdge i = g.getEdge i := rfl

/-- The fresh-edge constructor: new index, lengths, reads. -/
theorem newEdgeRaw_spec (g : CFG) (c : EdgeCond) (instr : Instr)
    (o : OperatesOn) (iv : List String) :
    (g.newEdgeRaw c instr o iv).2 = g.edgePool.length ∧
    (g.newEdgeRaw c instr o iv).1.edgePool.length = g.edgePool.length + 1 ∧
    (g.newEdgeRaw c instr o iv).1.vertexArr = g.vertexArr ∧
    (∀ i, (g.newEdgeRaw c instr o iv).1.getVertex i = g.getVertex i) ∧
    (∀ e, e < g.edgePool.length → (g.newEdgeRaw c instr o iv).1.getEdge e = g.getEdge e) ∧
    (g.newEdgeRaw c instr o iv).1.getEdge g.edgePool.length =
      { condition := c, instruction := instr, operatesOn := o, inputVariables := iv } := by
  refine ⟨rfl, by simp [CFG.newEdgeRaw], rfl, fun i => rfl, ?_, ?_⟩
  · intro e he
    simp [CFG.newEdgeRaw, CFG.getEdge, listGet_append_lt _ _ _ he]
  · simp [CFG.newEdgeRaw, CFG.getEdge, listGet_append_len]

/-- `addOutgoing` reads: other vertices, the touched vertex, other edges,
the touched edge, and the lengths. -/
theorem addOutgoing_spec (g : CFG) (v e : Nat) :
    (∀ i, i ≠ v → (g.addOutgoing v e).getVertex i = g.getVertex i) ∧
    (v < g.vertexArr.length → (g.addOutgoing v e).getVertex v =
      { g.getVertex v with edges := (g.getVertex v).edges ++ [e] }) ∧
    (∀ e2, e2 ≠ e → (g.addOutgoing v e).getEdge e2 = g.getEdge e2) ∧
    (e < g.edgePool.length → (g.addOutgoing v e).getEdge e =
      { g.getEdge e with source := some v }) ∧
    (g.addOutgoing v e).vertexArr.length = g.vertexArr.length ∧
    (g.addOutgoing v e).edgePool.length = g.edgePool.length := by
  refine ⟨?_, ?_, ?_, ?_, by simp [CFG.addOutgoing, CFG.setVertex, CFG.setEdge],
    by simp [CFG.addOutgoing, CFG.setVertex, CFG.setEdge]⟩
  · intro i hi
    unfold CFG.addOutgoing
    rw [setVertex_getVertex_ne _ _ _ _ hi, getVertex_setEdge]
  · intro hv
    unfold CFG.addOutgoing
    rw [setVertex_getVertex_self, getVertex_setEdge]
    simpa [CFG.setEdge] using hv
  · intro e2 he2
    unfold CFG.addOutgoing
    rw [getEdge_setVertex, setEdge_getEdge_ne _ _ _ _ he2]
  · intro he
    unfold CFG.addOutgoing
    rw [getEdge_setVertex, setEdge_getEdge_self]
    simpa [CFG.setEdge] using he

/-- `setTargetState` reads: every vertex keeps its outgoing structure, the
edge gets its target, other edges are untouched, lengths are kept. -/
theorem setTargetState_spec (g : CFG) (e v : Nat) :
    (∀ i, sameOutgoing ((g.setTargetState e v).getVertex i) (g.getVertex i)) ∧
    (∀ i, i ≠ v → (g.setTargetState e v).getVertex i = g.getVertex i) ∧
    (∀ e2, e2 ≠ e → (g.setTargetState e v).getEdge e2 = g.getEdge e2) ∧
    (e < g.edgePool.length → (g.setTargetState e v).getEdge e =
      { g.getEdge e with target := some v }) ∧
    (g.setTargetState e v).vertexArr.length = g.vertexArr.length ∧
    (g.setTargetState e v).edgePool.length = g.edgePool.length := by
  refine ⟨?_, ?_, ?_, ?_, by simp [CFG.setTargetState, CFG.setVertex, CFG.setEdge],
    by simp [CFG.setTargetState, CFG.setVertex, CFG.setEdge]⟩
  · intro i
    by_cases hiv : i = v
    · subst hiv
      by_cases hv : i < g.vertexArr.length
      · unfold CFG.setTargetState
        rw [setVertex_getVertex_self, getVertex_setEdge]
        · exact ⟨rfl, rfl, rfl, rfl⟩
        · simpa [CFG.setEdge] using hv
      · have hid : (CFG.setTargetState g e i).getVertex i = g.getVertex i := by
          unfold CFG.setTargetState CFG.setVertex CFG.getVertex CFG.setEdge
          simp [listSet_oob _ _ _ (Nat.le_of_not_lt hv)]
        rw [hid]
        exact sameOutgoing_refl _
    · unfold CFG.setTargetState
      rw [setVertex_getVertex_ne _ _ _ _ hiv, getVertex_setEdge]
      exact sameOutgoing_refl _
  · intro i hi
    unfold CFG.setTargetState
    rw [setVertex_getVertex_ne _ _ _ _ hi, getVertex_setEdge]
  · intro e2 he2
    unfold CFG.setTargetState
    rw [getEdge_setVertex, setEdge_getEdge_ne _ _ _ _ he2]
  · intro he
    unfold CFG.setTargetState
    rw [getEdge_setVertex, setEdge_getEdge_self]
    simpa [CFG.setEdge] using he

/-- Publishing edges touches only the published list. -/
theorem publishAll_arrays (es : List Nat) (g : CFG) :
    (publishAll g es).vertexArr = g.vertexArr ∧
    (publishAll g es).edgePool = g.edgePool := by
  induction es generalizing g with
  | nil => exact ⟨rfl, rfl⟩
  | cons e rest ih =>
    rw [publishAll]
    exact ⟨(ih _).1, (ih _).2⟩

/-- Retargeting a batch of edges: every vertex keeps its outgoing
structure, vertices other than the target are untouched, edges outside
the batch are untouched, and the lengths are kept. -/
theorem setTargetAll_spec (es : List Nat) (g : CFG) (v : Nat) :
    (∀ i, sameOutgoing ((setTargetAll g es v).getVertex i) (g.getVertex i)) ∧
    (∀ i, i ≠ v → (setTargetAll g es v).getVertex i = g.getVertex i) ∧
    (∀ e2, e2 ∉ es → (setTargetAll g es v).getEdge e2 = g.getEdge e2) ∧
    (setTargetAll g es v).vertexArr.length = g.vertexArr.length ∧
    (setTargetAll g es v).edgePool.length = g.edgePool.length := by
  induction es generalizing g with
  | nil => exact ⟨fun i => sameOutgoing_refl _, fun i _ => rfl, fun e2 _ => rfl, rfl, rfl⟩
  | cons e rest ih =>
    rw [setTargetAll]
    obtain ⟨hso, hne, hef, hlv, hle⟩ := ih (g.setTargetState e v)
    obtain ⟨hso1, hne1, hef1, _, hlv1, hle1⟩ := setTargetState_spec g e v
    refine ⟨fun i => sameOutgoing_trans (hso i) (hso1 i),
      fun i hi => by rw [hne i hi, hne1 i hi],
      fun e2 he2 => ?_, hlv.trans hlv1, hle.trans hle1⟩
    have h1 : e2 ∉ rest := fun hc => he2 (by simp [hc])
    have h2 : e2 ≠ e := fun hc => he2 (by simp [hc])
    rw [hef e2 h1, hef1 e2 h2]

/-- The batch edge constructor (`mkEdgesFromAll`): vertex count kept,
static fields kept everywhere, vertices outside the frontier untouched,
old edges untouched, pool grows by one edge per frontier vertex. -/
theorem mkEdgesFromAll_spec (cur : List Nat) (g : CFG) (cond : EdgeCond)
    (instr : Instr) (iv : List String) (g2 : CFG) (es : List Nat)
    (hok : mkEdgesFromAll g cur cond instr iv = .ok (g2, es)) :
    g2.vertexArr.length = g.vertexArr.length ∧
    (∀ i, sameStaticFields (g2.getVertex i) (g.getVertex i)) ∧
    (∀ i, i ∉ cur → g2.getVertex i = g.getVertex i) ∧
    (∀ e, e < g.edgePool.length → g2.getEdge e = g.getEdge e) ∧
    g2.edgePool.length = g.edgePool.length + cur.length ∧
    (∀ e2, e2 ∈ es → g.edgePool.length ≤ e2) := by
  induction cur generalizing g g2 es with
  | nil =>
    rw [mkEdgesFromAll] at hok
    injection hok with h
    injection h with h1 h2
    subst h1
    subst h2
    exact ⟨rfl, fun i => sameStaticFields_refl _, fun i _ => rfl, fun e _ => rfl, rfl,
      fun e2 he2 => by simp at he2⟩
  | cons v rest ih =>
    rw [mkEdgesFromAll] at hok
    cases hop : CFG.newEdge g cond instr iv with
    | error e => rw [hop] at hok; exact Except.noConfusion hok
    | ok ge =>
      obtain ⟨ge1, ge2⟩ := ge
      rw [hop] at hok
      simp only [bind, Except.bind] at hok
      obtain ⟨o, ho, hge⟩ : ∃ o, mkOperatesOn instr = .ok o ∧
          g.newEdgeRaw cond instr o iv = (ge1, ge2) := by
        unfold CFG.newEdge at hop
        cases hmk : mkOperatesOn instr with
        | error e3 => rw [hmk] at hop; exact Except.noConfusion hop
        | ok o =>
          rw [hmk] at hop
          injection hop with hop2
          exact ⟨o, rfl, hop2⟩
      have hge1 : (g.newEdgeRaw cond instr o iv).1 = ge1 := by rw [hge]
      have hge2 : (g.newEdgeRaw cond instr o iv).2 = ge2 := by rw [hge]
      rw [← hge1, ← hge2] at hok
      cases hrest : mkEdgesFromAll ((g.newEdgeRaw cond instr o iv).1.addOutgoing v
          (g.newEdgeRaw cond instr o iv).2) rest cond instr iv with
      | error e2 =>
        rw [hrest] at hok
        exact Except.noConfusion hok
      | ok grs =>
        rw [hrest] at hok
        obtain ⟨g3, es3⟩ := grs
        injection hok with hok1
        injection hok1 with hok2 hok3
        subst hok2
        obtain ⟨hlv, hst, hunt, hef, hle, hbound⟩ := ih _ _ _ hrest
        have hA : (((g.newEdgeRaw cond instr o iv).1.addOutgoing v
            (g.newEdgeRaw cond instr o iv).2)).vertexArr.length = g.vertexArr.length := by
          simp [CFG.addOutgoing, CFG.setVertex, CFG.setEdge, CFG.newEdgeRaw]
        have hB : (((g.newEdgeRaw cond instr o iv).1.addOutgoing v
            (g.newEdgeRaw cond instr o iv).2)).edgePool.length = g.edgePool.length + 1 := by
          simp [CFG.addOutgoing, CFG.setVertex, CFG.setEdge, CFG.newEdgeRaw]
        have hC : ∀ i, i ≠ v → (((g.newEdgeRaw cond instr o iv).1.addOutgoing v
            (g.newEdgeRaw cond instr o iv).2)).getVertex i = g.getVertex i := by
          intro i hi
          rw [(addOutgoing_spec _ v _).1 i hi]
          exact (newEdgeRaw_spec g cond instr o iv).2.2.2.1 i
        have hD : ∀ i, sameStaticFields ((((g.newEdgeRaw cond instr o iv).1.addOutgoing v
            (g.newEdgeRaw cond instr o iv).2)).getVertex i) (g.getVertex i) := by
          intro i
          refine sameStaticFields_trans ((addOutgoing_keeps _ v _).1 i) ?_
          rw [(newEdgeRaw_spec g cond instr o iv).2.2.2.1 i]
          exact sameStaticFields_refl _
        have hE : ∀ e2, e2 < g.edgePool.length →
            (((g.newEdgeRaw cond instr o iv).1.addOutgoing v
              (g.newEdgeRaw cond instr o iv).2)).getEdge e2 = g.getEdge e2 := by
          intro e2 he2
          have hne : e2 ≠ (g.newEdgeRaw cond instr o iv).2 := by
            rw [(newEdgeRaw_spec g cond instr o iv).1]
            exact Nat.ne_of_lt he2
          rw [(addOutgoing_spec _ v _).2.2.1 e2 hne]
          exact (newEdgeRaw_spec g cond instr o iv).2.2.2.2.1 e2 he2
        refine ⟨hlv.trans hA, fun i => sameStaticFields_trans (hst i) (hD i),
          fun i hi => ?_, fun e2 he2 => ?_, ?_, ?_⟩
        · have hiv : i ≠ v := fun hc => hi (by simp [hc])
          have hir : i ∉ rest := fun hc => hi (by simp [hc])
          rw [hunt i hir, hC i hiv]
        · have h1 : e2 < (((g.newEdgeRaw cond instr o iv).1.addOutgoing v
              (g.newEdgeRaw cond instr o iv).2)).edgePool.length := by omega
          rw [hef e2 h1, hE e2 he2]
        · rw [hle, hB]
          simp [Nat.add_assoc, Nat.add_comm 1 rest.length]
        · intro e2 he2
          rw [← hok3] at he2
          rcases List.mem_cons.mp he2 with hh | hh
          · subst hh
            exact le_of_eq ((newEdgeRaw_spec g cond instr o iv).1).symm
          · have := hbound e2 hh
            omega

/-- The batch edge constructor on a one-vertex frontier: exactly one edge
is created, carrying the instruction, attached to the vertex. -/
theorem mkEdgesFromAll_one (g : CFG) (v : Nat) (cond : EdgeCond) (instr : Instr)
    (iv : List String) (g2 : CFG) (es : List Nat)
    (hok : mkEdgesFromAll g [v] cond instr iv = .ok (g2, es))
    (hv : v < g.vertexArr.length) :
    es = [g.edgePool.length] ∧
    (g2.getVertex v).edges = (g.getVertex v).edges ++ [g.edgePool.length] ∧
    (g2.getEdge g.edgePool.length).instruction = instr := by
  rw [mkEdgesFromAll] at hok
  cases hop : CFG.newEdge g cond instr iv with
  | error e => rw [hop] at hok; exact Except.noConfusion hok
  | ok ge =>
    obtain ⟨ge1, ge2⟩ := ge
    rw [hop] at hok
    simp only [bind, Except.bind] at hok
    rw [mkEdgesFromAll] at hok
    injection hok with hok1
    injection hok1 with hok2 hok3
    obtain ⟨o, ho, hge⟩ : ∃ o, mkOperatesOn instr = .ok o ∧
        g.newEdgeRaw cond instr o iv = (ge1, ge2) := by
      unfold CFG.newEdge at hop
      cases hmk : mkOperatesOn instr with
      | error e3 => rw [hmk] at hop; exact Except.noConfusion hop
      | ok o =>
        rw [hmk] at hop
        injection hop with hop2
        exact ⟨o, rfl, hop2⟩
    have hge1 : (g.newEdgeRaw cond instr o iv).1 = ge1 := by rw [hge]
    have hge2 : (g.newEdgeRaw cond instr o iv).2 = ge2 := by rw [hge]
    have hidx : ge2 = g.edgePool.length := by
      rw [← hge2, (newEdgeRaw_spec g cond instr o iv).1]
    subst hok2
    refine ⟨by rw [← hok3, hidx], ?_, ?_⟩
    · have hv1 : v < ge1.vertexArr.length := by
        rw [← hge1, (newEdgeRaw_spec g cond instr o iv).2.2.1]
        exact hv
      rw [(addOutgoing_spec ge1 v ge2).2.1 hv1, ← hge1,
        (newEdgeRaw_spec g cond instr o iv).2.2.2.1 v, hidx]
    · have hlt : ge2 < ge1.edgePool.length := by
        rw [← hge1, (newEdgeRaw_spec g cond instr o iv).2.1, hidx]
        omega
      rw [← hidx]
      rw [(addOutgoing_spec ge1 v ge2).2.2.2.1 hlt]
      rw [← hge1, hidx]
      rw [(newEdgeRaw_spec g cond instr o iv).2.2.2.2.2]

/-- `newVertexFrom` on success pushes exactly one vertex. -/
theorem newVertexFrom_spec (g : CFG) (entry : Option Stmt) (pl : Option Nat)
    (refs : List String) (g2 : CFG) (nv : Nat)
    (hok : g.newVertexFrom entry pl refs = .ok (g2, nv)) :
    nv = g.vertexArr.length ∧
    g2.vertexArr.length = g.vertexArr.length + 1 ∧
    (∀ i, i < g.vertexArr.length → g2.getVertex i = g.getVertex i) ∧
    g2.edgePool = g.edgePool := by
  unfold CFG.newVertexFrom at hok
  cases hnc : mkNameChanged entry refs with
  | error e => rw [hnc] at hok; exact Except.noConfusion hok
  | ok nc =>
    rw [hnc] at hok
    injection hok with hok1
    have hok2 : g.pushVertex { nameChanged := nc, pathLength := pl } = (g2, nv) := hok1
    have h1 : g2 = (g.pushVertex { nameChanged := nc, pathLength := pl }).1 := by
      rw [hok2]
    have h2 : nv = (g.pushVertex { nameChanged := nc, pathLength := pl }).2 := by
      rw [hok2]
    subst h1
    subst h2
    obtain ⟨ha, hb, hc, hd, he⟩ := pushVertex_spec g { nameChanged := nc, pathLength := pl }
    exact ⟨ha, hb, fun i hi => hd i hi, he⟩

/-- The straight-line step on a general frontier: one new vertex, one new
edge per frontier vertex, old edges untouched, off-frontier old vertices
untouched, static fields kept everywhere below the snapshot. -/
theorem straightLineStep_frame (g : CFG) (cur : List Nat) (c : List CondElem)
    (iv : List String) (entry : Stmt) (pl : Nat) (refs : List String)
    (g4 : CFG) (out : List Nat)
    (hok : straightLineStep g cur c iv entry pl refs = .ok (g4, out)) :
    out = [g.vertexArr.length] ∧
    g4.vertexArr.length = g.vertexArr.length + 1 ∧
    g4.edgePool.length = g.edgePool.length + cur.length ∧
    (∀ e, e < g.edgePool.length → g4.getEdge e = g.getEdge e) ∧
    (∀ i, i < g.vertexArr.length → sameStaticFields (g4.getVertex i) (g.getVertex i)) ∧
    (∀ i, i < g.vertexArr.length → i ∉ cur →
      sameOutgoing (g4.getVertex i) (g.getVertex i)) := by
  unfold straightLineStep at hok
  cases hmk : mkEdgesFromAll g cur (.list c) (.stmt entry) iv with
  | error e => rw [hmk] at hok; exact Except.noConfusion hok
  | ok p1 =>
    obtain ⟨g1, newEdges⟩ := p1
    rw [hmk] at hok
    simp only [bind, Except.bind] at hok
    cases hnv : g1.newVertexFrom (some entry) (some pl) refs with
    | error e => rw [hnv] at hok; exact Except.noConfusion hok
    | ok p2 =>
      obtain ⟨g2, nv⟩ := p2
      rw [hnv] at hok
      simp only [bind, Except.bind] at hok
      injection hok with hok1
      injection hok1 with hok2 hok3
      subst hok2
      have hmk1l := hmk
      have mkEdgesFromAll_spec2 := mkEdgesFromAll_spec _ _ _ _ _ _ _ hmk
      obtain ⟨hnv1, hnv2, hnv3, hnv4⟩ := newVertexFrom_spec _ _ _ _ _ _ hnv
      obtain ⟨hp1, hp2⟩ := publishAll_arrays newEdges g2
      obtain ⟨hs1, hs2, hs3, hs4, hs5⟩ := setTargetAll_spec newEdges (publishAll g2 newEdges) nv
      have hgv3 : ∀ i, (publishAll g2 newEdges).getVertex i = g2.getVertex i := by
        intro i
        unfold CFG.getVertex
        rw [hp1]
      have hge3 : ∀ e, (publishAll g2 newEdges).getEdge e = g2.getEdge e := by
        intro e
        unfold CFG.getEdge
        rw [hp2]
      have hge2 : ∀ e, g2.getEdge e = g1.getEdge e := by
        intro e
        unfold CFG.getEdge
        rw [hnv4]
      obtain ⟨hmk1, hmk2, hmk3, hmk4, hmk5, hmk6⟩ := mkEdgesFromAll_spec2
      have hp1l : (publishAll g2 newEdges).vertexArr.length = g2.vertexArr.length :=
        congrArg List.length hp1
      have hp2l : (publishAll g2 newEdges).edgePool.length = g2.edgePool.length :=
        congrArg List.length hp2
      have hnv4l : g2.edgePool.length = g1.edgePool.length :=
        congrArg List.length hnv4
      refine ⟨by rw [← hok3, hnv1, hmk1], ?_, ?_, ?_, ?_, ?_⟩
      · omega
      · omega
      · intro e he
        have hnot : e ∉ newEdges := by
          intro hc
          have := hmk6 e hc
          omega
        rw [hs3 e hnot, hge3 e, hge2 e, hmk4 e he]
      · intro i hi
        refine sameStaticFields_trans (hs1 i).2 ?_
        rw [hgv3 i, hnv3 i (by omega)]
        exact hmk2 i
      · intro i hi hcur
        refine sameOutgoing_trans (hs1 i) ?_
        rw [hgv3 i, hnv3 i (by omega), hmk3 i hcur]
        exact sameOutgoing_refl _

/-- The straight-line step on a one-vertex frontier: the vertex gains
exactly one outgoing edge — the freshly allocated one, carrying the
statement as instruction and targeting the new vertex. -/
theorem straightLineStep_one (g : CFG) (v : Nat) (c : List CondElem)
    (iv : List String) (entry : Stmt) (pl : Nat) (refs : List String)
    (g4 : CFG) (out : List Nat)
    (hok : straightLineStep g [v] c iv entry pl refs = .ok (g4, out))
    (hv : v < g.vertexArr.length) :
    (g4.getVertex v).edges = (g.getVertex v).edges ++ [g.edgePool.length] ∧
    (g4.getEdge g.edgePool.length).instruction = .stmt entry ∧
    (g4.getEdge g.edgePool.length).target = some g.vertexArr.length := by
  unfold straightLineStep at hok
  cases hmk : mkEdgesFromAll g [v] (.list c) (.stmt entry) iv with
  | error e => rw [hmk] at hok; exact Except.noConfusion hok
  | ok p1 =>
    obtain ⟨g1, newEdges⟩ := p1
    rw [hmk] at hok
    simp only [bind, Except.bind] at hok
    cases hnv : g1.newVertexFrom (some entry) (some pl) refs with
    | error e => rw [hnv] at hok; exact Except.noConfusion hok
    | ok p2 =>
      obtain ⟨g2, nv⟩ := p2
      rw [hnv] at hok
      simp only [bind, Except.bind] at hok
      injection hok with hok1
      injection hok1 with hok2 hok3
      subst hok2
      obtain ⟨hone1, hone2, hone3⟩ := mkEdgesFromAll_one _ _ _ _ _ _ _ hmk hv
      subst hone1
      obtain ⟨hmk1, hmk2, hmk3, hmk4, hmk5, hmk6⟩ := mkEdgesFromAll_spec _ _ _ _ _ _ _ hmk
      obtain ⟨hnv1, hnv2, hnv3, hnv4⟩ := newVertexFrom_spec _ _ _ _ _ _ hnv
      obtain ⟨hp1, hp2⟩ := publishAll_arrays [g.edgePool.length] g2
      have hsta : setTargetAll (publishAll g2 [g.edgePool.length]) [g.edgePool.length] nv =
          (publishAll g2 [g.edgePool.length]).setTargetState g.edgePool.length nv := by
        rw [setTargetAll, setTargetAll]
      obtain ⟨hs1, hs2, hs3, hs4, hs5, hs6⟩ :=
        setTargetState_spec (publishAll g2 [g.edgePool.length]) g.edgePool.length nv
      have hgv3 : ∀ i, (publishAll g2 [g.edgePool.length]).getVertex i = g2.getVertex i := by
        intro i
        unfold CFG.getVertex
        rw [hp1]
      have hge3 : ∀ e, (publishAll g2 [g.edgePool.length]).getEdge e = g2.getEdge e := by
        intro e
        unfold CFG.getEdge
        rw [hp2]
      have hge2 : ∀ e, g2.getEdge e = g1.getEdge e := by
        intro e
        unfold CFG.getEdge
        rw [hnv4]
      have he0lt : g.edgePool.length < (publishAll g2 [g.edgePool.length]).edgePool.length := by
        have h1 := congrArg List.length hp2
        have h2 := congrArg List.length hnv4
        have h3 := hmk5
        simp only [List.length_cons, List.length_nil] at h3
        omega
      refine ⟨?_, ?_, ?_⟩
      · rw [hsta]
        have := (hs1 v).1
        rw [this, hgv3 v, hnv3 v (by rw [hmk1]; exact hv), hone2]
      · rw [hsta, hs4 he0lt, hge3, hge2]
        exact hone3
      · rw [hsta, hs4 he0lt]
        rw [hnv1, hmk1]

/-- One fan-in step (`newEdgeStr`, publish, attach, retarget) used by
`redirectAll`: reads of the resulting graph. -/
theorem fanStep_spec (g : CFG) (v head : Nat) (cs is : String) :
    ((((g.newEdgeStr cs is).1.publish (g.newEdgeStr cs is).2).addOutgoing v
        (g.newEdgeStr cs is).2).setTargetState (g.newEdgeStr cs is).2 head).vertexArr.length =
      g.vertexArr.length ∧
    ((((g.newEdgeStr cs is).1.publish (g.newEdgeStr cs is).2).addOutgoing v
        (g.newEdgeStr cs is).2).setTargetState (g.newEdgeStr cs is).2 head).edgePool.length =
      g.edgePool.length + 1 ∧
    (∀ e, e < g.edgePool.length →
      ((((g.newEdgeStr cs is).1.publish (g.newEdgeStr cs is).2).addOutgoing v
        (g.newEdgeStr cs is).2).setTargetState (g.newEdgeStr cs is).2 head).getEdge e =
        g.getEdge e) ∧
    (∀ i, sameStaticFields
      (((((g.newEdgeStr cs is).1.publish (g.newEdgeStr cs is).2).addOutgoing v
        (g.newEdgeStr cs is).2).setTargetState (g.newEdgeStr cs is).2 head).getVertex i)
      (g.getVertex i)) ∧
    (∀ i, i ≠ v → sameOutgoing
      (((((g.newEdgeStr cs is).1.publish (g.newEdgeStr cs is).2).addOutgoing v
        (g.newEdgeStr cs is).2).setTargetState (g.newEdgeStr cs is).2 head).getVertex i)
      (g.getVertex i)) ∧
    (v < g.vertexArr.length →
      (((((g.newEdgeStr cs is).1.publish (g.newEdgeStr cs is).2).addOutgoing v
        (g.newEdgeStr cs is).2).setTargetState (g.newEdgeStr cs is).2 head).getVertex v).edges =
        (g.getVertex v).edges ++ [g.edgePool.length]) ∧
    ((((g.newEdgeStr cs is).1.publish (g.newEdgeStr cs is).2).addOutgoing v
        (g.newEdgeStr cs is).2).setTargetState (g.newEdgeStr cs is).2 head).getEdge
        g.edgePool.length =
      { condition := .str cs, instruction := .str is, operatesOn := .selfInstr,
        inputVariables := [], source := some v, target := some head } := by
  have hne := newEdgeRaw_spec g (.str cs) (.str is) .selfInstr []
  obtain ⟨hn1, hn2, hn3, hn4, hn5, hn6⟩ := hne
  obtain ⟨ha1, ha2, ha3, ha4, ha5, ha6⟩ :=
    addOutgoing_spec ((g.newEdgeStr cs is).1.publish (g.newEdgeStr cs is).2) v
      (g.newEdgeStr cs is).2
  obtain ⟨hs1, hs2, hs3, hs4, hs5, hs6⟩ :=
    setTargetState_spec (((g.newEdgeStr cs is).1.publish (g.newEdgeStr cs is).2).addOutgoing v
      (g.newEdgeStr cs is).2) (g.newEdgeStr cs is).2 head
  have hidx : (g.newEdgeStr cs is).2 = g.edgePool.length := hn1
  have hq1 : ((g.newEdgeStr cs is).1.publish (g.newEdgeStr cs is).2).vertexArr =
      g.vertexArr := hn3
  have hq2 : ((g.newEdgeStr cs is).1.publish (g.newEdgeStr cs is).2).edgePool.length =
      g.edgePool.length + 1 := hn2
  have hq3 : ∀ i, ((g.newEdgeStr cs is).1.publish (g.newEdgeStr cs is).2).getVertex i =
      g.getVertex i := fun i => hn4 i
  have hq4 : ∀ e, e < g.edgePool.length →
      ((g.newEdgeStr cs is).1.publish (g.newEdgeStr cs is).2).getEdge e = g.getEdge e :=
    fun e he => hn5 e he
  have hq5 : ((g.newEdgeStr cs is).1.publish (g.newEdgeStr cs is).2).getEdge
      g.edgePool.length =
      { condition := .str cs, instruction := .str is, operatesOn := .selfInstr,
        inputVariables := [], source := none, target := none } := hn6
  refine ⟨?_, ?_, ?_, ?_, ?_, ?_, ?_⟩
  · rw [hs5, ha5]
    exact congrArg List.length hq1
  · rw [hs6, ha6, hq2]
  · intro e he
    rw [hs3 e (by rw [hidx]; omega), ha3 e (by rw [hidx]; omega), hq4 e he]
  · intro i
    refine sameStaticFields_trans ((hs1 i).2) ?_
    refine sameStaticFields_trans ((addOutgoing_keeps _ v _).1 i) ?_
    rw [hq3 i]
    exact sameStaticFields_refl _
  · intro i hi
    refine sameOutgoing_trans (hs1 i) ?_
    rw [ha1 i hi, hq3 i]
    exact sameOutgoing_refl _
  · intro hv
    have hv2 : v < ((g.newEdgeStr cs is).1.publish (g.newEdgeStr cs is).2).vertexArr.length := by
      rw [hq1]
      exact hv
    rw [(hs1 v).1, ha2 hv2]
    show (((g.newEdgeStr cs is).1.publish (g.newEdgeStr cs is).2).getVertex v).edges ++
        [(g.newEdgeStr cs is).2] = (g.getVertex v).edges ++ [g.edgePool.length]
    rw [hq3 v, hidx]
  · rw [← hidx]
    have h1 : (g.newEdgeStr cs is).2 <
        ((((g.newEdgeStr cs is).1.publish (g.newEdgeStr cs is).2)).addOutgoing v
          (g.newEdgeStr cs is).2).edgePool.length := by
      rw [ha6, hq2, hidx]
      omega
    have h2 : (g.newEdgeStr cs is).2 <
        ((g.newEdgeStr cs is).1.publish (g.newEdgeStr cs is).2).edgePool.length := by
      rw [hq2, hidx]
      omega
    have hq5c := hq5
    rw [← hidx] at hq5c
    rw [hs4 h1, ha4 h2, hq5c]

/-- The raw-condition fan-in step used by `linkToLoopAll`: reads of the
resulting graph. -/
theorem fanStepRaw_spec (g : CFG) (v head : Nat) (cond : EdgeCond) (instr : Instr) :
    ((((g.newEdgeRaw cond instr OperatesOn.selfInstr []).1.publish (g.newEdgeRaw cond instr OperatesOn.selfInstr []).2).addOutgoing v
        (g.newEdgeRaw cond instr OperatesOn.selfInstr []).2).setTargetState (g.newEdgeRaw cond instr OperatesOn.selfInstr []).2 head).vertexArr.length =
      g.vertexArr.length ∧
    ((((g.newEdgeRaw cond instr OperatesOn.selfInstr []).1.publish (g.newEdgeRaw cond instr OperatesOn.selfInstr []).2).addOutgoing v
        (g.newEdgeRaw cond instr OperatesOn.selfInstr []).2).setTargetState (g.newEdgeRaw cond instr OperatesOn.selfInstr []).2 head).edgePool.length =
      g.edgePool.length + 1 ∧
    (∀ e, e < g.edgePool.length →
      ((((g.newEdgeRaw cond instr OperatesOn.selfInstr []).1.publish (g.newEdgeRaw cond instr OperatesOn.selfInstr []).2).addOutgoing v
        (g.newEdgeRaw cond instr OperatesOn.selfInstr []).2).setTargetState (g.newEdgeRaw cond instr OperatesOn.selfInstr []).2 head).getEdge e =
        g.getEdge e) ∧
    (∀ i, sameStaticFields
      (((((g.newEdgeRaw cond instr OperatesOn.selfInstr []).1.publish (g.newEdgeRaw cond instr OperatesOn.selfInstr []).2).addOutgoing v
        (g.newEdgeRaw cond instr OperatesOn.selfInstr []).2).setTargetState (g.newEdgeRaw cond instr OperatesOn.selfInstr []).2 head).getVertex i)
      (g.getVertex i)) ∧
    (∀ i, i ≠ v → sameOutgoing
      (((((g.newEdgeRaw cond instr OperatesOn.selfInstr []).1.publish (g.newEdgeRaw cond instr OperatesOn.selfInstr []).2).addOutgoing v
        (g.newEdgeRaw cond instr OperatesOn.selfInstr []).2).setTargetState (g.newEdgeRaw cond instr OperatesOn.selfInstr []).2 head).getVertex i)
      (g.getVertex i)) ∧
    (v < g.vertexArr.length →
      (((((g.newEdgeRaw cond instr OperatesOn.selfInstr []).1.publish (g.newEdgeRaw cond instr OperatesOn.selfInstr []).2).addOutgoing v
        (g.newEdgeRaw cond instr OperatesOn.selfInstr []).2).setTargetState (g.newEdgeRaw cond instr OperatesOn.selfInstr []).2 head).getVertex v).edges =
        (g.getVertex v).edges ++ [g.edgePool.length]) ∧
    ((((g.newEdgeRaw cond instr OperatesOn.selfInstr []).1.publish (g.newEdgeRaw cond instr OperatesOn.selfInstr []).2).addOutgoing v
        (g.newEdgeRaw cond instr OperatesOn.selfInstr []).2).setTargetState (g.newEdgeRaw cond instr OperatesOn.selfInstr []).2 head).getEdge
        g.edgePool.length =
      { condition := cond, instruction := instr, operatesOn := .selfInstr,
        inputVariables := [], source := some v, target := some head } := by
  have hne := newEdgeRaw_spec g cond instr .selfInstr []
  obtain ⟨hn1, hn2, hn3, hn4, hn5, hn6⟩ := hne
  obtain ⟨ha1, ha2, ha3, ha4, ha5, ha6⟩ :=
    addOutgoing_spec ((g.newEdgeRaw cond instr OperatesOn.selfInstr []).1.publish (g.newEdgeRaw cond instr OperatesOn.selfInstr []).2) v
      (g.newEdgeRaw cond instr OperatesOn.selfInstr []).2
  obtain ⟨hs1, hs2, hs3, hs4, hs5, hs6⟩ :=
    setTargetState_spec (((g.newEdgeRaw cond instr OperatesOn.selfInstr []).1.publish (g.newEdgeRaw cond instr OperatesOn.selfInstr []).2).addOutgoing v
      (g.newEdgeRaw cond instr OperatesOn.selfInstr []).2) (g.newEdgeRaw cond instr OperatesOn.selfInstr []).2 head
  have hidx : (g.newEdgeRaw cond instr OperatesOn.selfInstr []).2 = g.edgePool.length := hn1
  have hq1 : ((g.newEdgeRaw cond instr OperatesOn.selfInstr []).1.publish (g.newEdgeRaw cond instr OperatesOn.selfInstr []).2).vertexArr =
      g.vertexArr := hn3
  have hq2 : ((g.newEdgeRaw cond instr OperatesOn.selfInstr []).1.publish (g.newEdgeRaw cond instr OperatesOn.selfInstr []).2).edgePool.length =
      g.edgePool.length + 1 := hn2
  have hq3 : ∀ i, ((g.newEdgeRaw cond instr OperatesOn.selfInstr []).1.publish (g.newEdgeRaw cond instr OperatesOn.selfInstr []).2).getVertex i =
      g.getVertex i := fun i => hn4 i
  have hq4 : ∀ e, e < g.edgePool.length →
      ((g.newEdgeRaw cond instr OperatesOn.selfInstr []).1.publish (g.newEdgeRaw cond instr OperatesOn.selfInstr []).2).getEdge e = g.getEdge e :=
    fun e he => hn5 e he
  have hq5 : ((g.newEdgeRaw cond instr OperatesOn.selfInstr []).1.publish (g.newEdgeRaw cond instr OperatesOn.selfInstr []).2).getEdge
      g.edgePool.length =
      { condition := cond, instruction := instr, operatesOn := .selfInstr,
        inputVariables := [], source := none, target := none } := hn6
  refine ⟨?_, ?_, ?_, ?_, ?_, ?_, ?_⟩
  · rw [hs5, ha5]
    exact congrArg List.length hq1
  · rw [hs6, ha6, hq2]
  · intro e he
    rw [hs3 e (by rw [hidx]; omega), ha3 e (by rw [hidx]; omega), hq4 e he]
  · intro i
    refine sameStaticFields_trans ((hs1 i).2) ?_
    refine sameStaticFields_trans ((addOutgoing_keeps _ v _).1 i) ?_
    rw [hq3 i]
    exact sameStaticFields_refl _
  · intro i hi
    refine sameOutgoing_trans (hs1 i) ?_
    rw [ha1 i hi, hq3 i]
    exact sameOutgoing_refl _
  · intro hv
    have hv2 : v < ((g.newEdgeRaw cond instr OperatesOn.selfInstr []).1.publish (g.newEdgeRaw cond instr OperatesOn.selfInstr []).2).vertexArr.length := by
      rw [hq1]
      exact hv
    rw [(hs1 v).1, ha2 hv2]
    show (((g.newEdgeRaw cond instr OperatesOn.selfInstr []).1.publish (g.newEdgeRaw cond instr OperatesOn.selfInstr []).2).getVertex v).edges ++
        [(g.newEdgeRaw cond instr OperatesOn.selfInstr []).2] = (g.getVertex v).edges ++ [g.edgePool.length]
    rw [hq3 v, hidx]
  · rw [← hidx]
    have h1 : (g.newEdgeRaw cond instr OperatesOn.selfInstr []).2 <
        ((((g.newEdgeRaw cond instr OperatesOn.selfInstr []).1.publish (g.newEdgeRaw cond instr OperatesOn.selfInstr []).2)).addOutgoing v
          (g.newEdgeRaw cond instr OperatesOn.selfInstr []).2).edgePool.length := by
      rw [ha6, hq2, hidx]
      omega
    have h2 : (g.newEdgeRaw cond instr OperatesOn.selfInstr []).2 <
        ((g.newEdgeRaw cond instr OperatesOn.selfInstr []).1.publish (g.newEdgeRaw cond instr OperatesOn.selfInstr []).2).edgePool.length := by
      rw [hq2, hidx]
      omega
    have hq5c := hq5
    rw [← hidx] at hq5c
    rw [hs4 h1, ha4 h2, hq5c]

/-- Unfolding one step of `redirectAll`. -/
theorem redirect_cons (g : CFG) (v : Nat) (rest : List Nat) (cs : String) (head : Nat) :
    redirectAll g (v :: rest) cs head =
      redirectAll ((((g.newEdgeStr cs sControlFlow).1.publish
        (g.newEdgeStr cs sControlFlow).2).addOutgoing v
        (g.newEdgeStr cs sControlFlow).2).setTargetState
        (g.newEdgeStr cs sControlFlow).2 head) rest cs head := rfl

/-- `redirectAll` adds one control-flow edge per frontier vertex: vertex
count kept, old edges untouched, static fields kept, off-frontier
vertices keep their outgoing structure. -/
theorem redirectAll_spec (cur : List Nat) (g : CFG) (cs : String) (head : Nat) :
    (redirectAll g cur cs head).vertexArr.length = g.vertexArr.length ∧
    (redirectAll g cur cs head).edgePool.length = g.edgePool.length + cur.length ∧
    (∀ e, e < g.edgePool.length → (redirectAll g cur cs head).getEdge e = g.getEdge e) ∧
    (∀ i, sameStaticFields ((redirectAll g cur cs head).getVertex i) (g.getVertex i)) ∧
    (∀ i, i ∉ cur →
      sameOutgoing ((redirectAll g cur cs head).getVertex i) (g.getVertex i)) := by
  induction cur generalizing g with
  | nil =>
    exact ⟨rfl, rfl, fun e _ => rfl, fun i => sameStaticFields_refl _,
      fun i _ => sameOutgoing_refl _⟩
  | cons v rest ih =>
    rw [redirect_cons]
    obtain ⟨hf1, hf2, hf3, hf4, hf5, hf6, hf7⟩ := fanStep_spec g v head cs sControlFlow
    obtain ⟨hi1, hi2, hi3, hi4, hi5⟩ := ih ((((g.newEdgeStr cs sControlFlow).1.publish
      (g.newEdgeStr cs sControlFlow).2).addOutgoing v
      (g.newEdgeStr cs sControlFlow).2).setTargetState
      (g.newEdgeStr cs sControlFlow).2 head)
    refine ⟨by rw [hi1, hf1], by rw [hi2, hf2]; simp [Nat.add_assoc, Nat.add_comm 1],
      fun e he => ?_, fun i => sameStaticFields_trans (hi4 i) (hf4 i), fun i hicur => ?_⟩
    · rw [hi3 e (by omega), hf3 e he]
    · have hiv : i ≠ v := fun hc => hicur (by simp [hc])
      have hir : i ∉ rest := fun hc => hicur (by simp [hc])
      exact sameOutgoing_trans (hi5 i hir) (hf5 i hiv)

/-- `redirectAll` on a one-vertex frontier: the vertex gains exactly the
one control-flow edge, fully initialised, targeting the head. -/
theorem redirect_one (g : CFG) (v : Nat) (cs : String) (head : Nat)
    (hv : v < g.vertexArr.length) :
    ((redirectAll g [v] cs head).getVertex v).edges =
      (g.getVertex v).edges ++ [g.edgePool.length] ∧
    (redirectAll g [v] cs head).getEdge g.edgePool.length =
      { condition := .str cs, instruction := .str sControlFlow,
        operatesOn := .selfInstr, inputVariables := [],
        source := some v, target := some head } := by
  rw [redirect_cons]
  obtain ⟨hf1, hf2, hf3, hf4, hf5, hf6, hf7⟩ := fanStep_spec g v head cs sControlFlow
  exact ⟨hf6 hv, hf7⟩

/-- Unfolding one step of `linkToLoopAll`. -/
theorem linkLoop_cons (g : CFG) (v : Nat) (rest : List Nat) (iter : AExpr) (pre : Nat) :
    linkToLoopAll g (v :: rest) iter pre =
      linkToLoopAll ((((g.newEdgeRaw (.expr iter) (.str sLoop) .selfInstr []).1.publish
        (g.newEdgeRaw (.expr iter) (.str sLoop) .selfInstr []).2).addOutgoing v
        (g.newEdgeRaw (.expr iter) (.str sLoop) .selfInstr []).2).setTargetState
        (g.newEdgeRaw (.expr iter) (.str sLoop) .selfInstr []).2 pre) rest iter pre := rfl

/-- `linkToLoopAll` adds one loop-entry edge per frontier vertex: vertex
count kept, old edges untouched, static fields kept, off-frontier
vertices keep their outgoing structure. -/
theorem linkToLoopAll_spec (cur : List Nat) (g : CFG) (iter : AExpr) (pre : Nat) :
    (linkToLoopAll g cur iter pre).vertexArr.length = g.vertexArr.length ∧
    (linkToLoopAll g cur iter pre).edgePool.length = g.edgePool.length + cur.length ∧
    (∀ e, e < g.edgePool.length → (linkToLoopAll g cur iter pre).getEdge e = g.getEdge e) ∧
    (∀ i, sameStaticFields ((linkToLoopAll g cur iter pre).getVertex i) (g.getVertex i)) ∧
    (∀ i, i ∉ cur →
      sameOutgoing ((linkToLoopAll g cur iter pre).getVertex i) (g.getVertex i)) := by
  induction cur generalizing g with
  | nil =>
    exact ⟨rfl, rfl, fun e _ => rfl, fun i => sameStaticFields_refl _,
      fun i _ => sameOutgoing_refl _⟩
  | cons v rest ih =>
    rw [linkLoop_cons]
    obtain ⟨hf1, hf2, hf3, hf4, hf5, hf6, hf7⟩ := fanStepRaw_spec g v pre (.expr iter) (.str sLoop)
    obtain ⟨hi1, hi2, hi3, hi4, hi5⟩ := ih ((((g.newEdgeRaw (.expr iter) (.str sLoop)
      .selfInstr []).1.publish (g.newEdgeRaw (.expr iter) (.str sLoop) .selfInstr []).2).addOutgoing v
      (g.newEdgeRaw (.expr iter) (.str sLoop) .selfInstr []).2).setTargetState
      (g.newEdgeRaw (.expr iter) (.str sLoop) .selfInstr []).2 pre)
    refine ⟨by rw [hi1, hf1], by rw [hi2, hf2]; simp [Nat.add_assoc, Nat.add_comm 1],
      fun e he => ?_, fun i => sameStaticFields_trans (hi4 i) (hf4 i), fun i hicur => ?_⟩
    · rw [hi3 e (by omega), hf3 e he]
    · have hiv : i ≠ v := fun hc => hicur (by simp [hc])
      have hir : i ∉ rest := fun hc => hicur (by simp [hc])
      exact sameOutgoing_trans (hi5 i hir) (hf5 i hiv)

/-- `linkToLoopAll` on a one-vertex frontier: the vertex gains exactly the
one loop-entry edge, conditioned on the iterable, targeting the loop
vertex. -/
theorem linkLoop_one (g : CFG) (v : Nat) (iter : AExpr) (pre : Nat)
    (hv : v < g.vertexArr.length) :
    ((linkToLoopAll g [v] iter pre).getVertex v).edges =
      (g.getVertex v).edges ++ [g.edgePool.length] ∧
    (linkToLoopAll g [v] iter pre).getEdge g.edgePool.length =
      { condition := .expr iter, instruction := .str sLoop,
        operatesOn := .selfInstr, inputVariables := [],
        source := some v, target := some pre } := by
  rw [linkLoop_cons]
  obtain ⟨hf1, hf2, hf3, hf4, hf5, hf6, hf7⟩ := fanStepRaw_spec g v pre (.expr iter) (.str sLoop)
  exact ⟨hf6 hv, hf7⟩

/-- The fan-step reads, restated over `fanStep`. -/
theorem fanStep_reads (g : CFG) (v head : Nat) (cond : EdgeCond) (instr : Instr) :
    (fanStep g v head cond instr).vertexArr.length = g.vertexArr.length ∧
    (fanStep g v head cond instr).edgePool.length = g.edgePool.length + 1 ∧
    (∀ e, e < g.edgePool.length →
      (fanStep g v head cond instr).getEdge e = g.getEdge e) ∧
    (∀ i, sameStaticFields ((fanStep g v head cond instr).getVertex i) (g.getVertex i)) ∧
    (∀ i, i ≠ v → sameOutgoing ((fanStep g v head cond instr).getVertex i) (g.getVertex i)) ∧
    (v < g.vertexArr.length → ((fanStep g v head cond instr).getVertex v).edges =
      (g.getVertex v).edges ++ [g.edgePool.length]) ∧
    (fanStep g v head cond instr).getEdge g.edgePool.length =
      { condition := cond, instruction := instr, operatesOn := .selfInstr,
        inputVariables := [], source := some v, target := some head } :=
  fanStepRaw_spec g v head cond instr

/-- Unfolding one step of the per-final loop-back builder. -/
theorem loopBackOne_cons (g : CFG) (f b : Nat) (bs : List Nat) (post : Nat) :
    addLoopBackEdges.loopBackOne post g f (b :: bs) =
      addLoopBackEdges.loopBackOne post
        (fanStep (fanStep g f b (.str sLoopJump) (.str sLoopJump)) f post
          (.str sPostLoop) (.str sPostLoop)) f bs := rfl

/-- The per-final loop-back builder touches only `f`'s outgoing list. -/
theorem loopBackOne_keeps (bs : List Nat) (g : CFG) (f : Nat) (post : Nat) :
    (addLoopBackEdges.loopBackOne post g f bs).vertexArr.length = g.vertexArr.length ∧
    g.edgePool.length ≤ (addLoopBackEdges.loopBackOne post g f bs).edgePool.length ∧
    (∀ e, e < g.edgePool.length →
      (addLoopBackEdges.loopBackOne post g f bs).getEdge e = g.getEdge e) ∧
    (∀ i, sameStaticFields ((addLoopBackEdges.loopBackOne post g f bs).getVertex i)
      (g.getVertex i)) ∧
    (∀ i, i ≠ f → sameOutgoing ((addLoopBackEdges.loopBackOne post g f bs).getVertex i)
      (g.getVertex i)) := by
  induction bs generalizing g with
  | nil =>
    exact ⟨rfl, le_rfl, fun e _ => rfl, fun i => sameStaticFields_refl _,
      fun i _ => sameOutgoing_refl _⟩
  | cons b bs ih =>
    rw [loopBackOne_cons]
    obtain ⟨h11, h12, h13, h14, h15, h16, h17⟩ :=
      fanStep_reads g f b (.str sLoopJump) (.str sLoopJump)
    obtain ⟨h21, h22, h23, h24, h25, h26, h27⟩ :=
      fanStep_reads (fanStep g f b (.str sLoopJump) (.str sLoopJump)) f post
        (.str sPostLoop) (.str sPostLoop)
    obtain ⟨hi1, hi2, hi3, hi4, hi5⟩ :=
      ih (fanStep (fanStep g f b (.str sLoopJump) (.str sLoopJump)) f post
        (.str sPostLoop) (.str sPostLoop))
    refine ⟨by rw [hi1, h21, h11], by omega, fun e he => ?_,
      fun i => sameStaticFields_trans (hi4 i)
        (sameStaticFields_trans (h24 i) (h14 i)), fun i hif => ?_⟩
    · rw [hi3 e (by omega), h23 e (by omega), h13 e he]
    · exact sameOutgoing_trans (hi5 i hif)
        (sameOutgoing_trans (h25 i hif) (h15 i hif))

/-- `addLoopBackEdges` touches only the outgoing lists of the final
vertices. -/
theorem addLoopBackEdges_keeps (finals : List Nat) (g : CFG) (bases : List Nat)
    (post : Nat) :
    (addLoopBackEdges g finals bases post).vertexArr.length = g.vertexArr.length ∧
    g.edgePool.length ≤ (addLoopBackEdges g finals bases post).edgePool.length ∧
    (∀ e, e < g.edgePool.length →
      (addLoopBackEdges g finals bases post).getEdge e = g.getEdge e) ∧
    (∀ i, sameStaticFields ((addLoopBackEdges g finals bases post).getVertex i)
      (g.getVertex i)) ∧
    (∀ i, i ∉ finals → sameOutgoing ((addLoopBackEdges g finals bases post).getVertex i)
      (g.getVertex i)) := by
  induction finals generalizing g with
  | nil =>
    exact ⟨rfl, le_rfl, fun e _ => rfl, fun i => sameStaticFields_refl _,
      fun i _ => sameOutgoing_refl _⟩
  | cons f rest ih =>
    rw [addLoopBackEdges]
    obtain ⟨h11, h12, h13, h14, h15⟩ := loopBackOne_keeps bases g f post
    obtain ⟨hi1, hi2, hi3, hi4, hi5⟩ := ih (addLoopBackEdges.loopBackOne post g f bases)
    refine ⟨by rw [hi1, h11], by omega, fun e he => ?_,
      fun i => sameStaticFields_trans (hi4 i) (h14 i), fun i hif => ?_⟩
    · rw [hi3 e (by omega), h13 e he]
    · have h1 : i ∉ rest := fun hc => hif (by simp [hc])
      have h2 : i ≠ f := fun hc => hif (by simp [hc])
      exact sameOutgoing_trans (hi5 i h1) (h15 i h2)

/-- Unfolding one step of the per-final while-back builder. -/
theorem whileBackOne_cons (g : CFG) (f b : Nat) (bs : List Nat) :
    addWhileBackEdges.whileBackOne g f (b :: bs) =
      addWhileBackEdges.whileBackOne
        (fanStep g f b (.str sFor) (.str sLoopJump)) f bs := rfl

/-- The per-final while-back builder touches only `f`'s outgoing list. -/
theorem whileBackOne_keeps (bs : List Nat) (g : CFG) (f : Nat) :
    (addWhileBackEdges.whileBackOne g f bs).vertexArr.length = g.vertexArr.length ∧
    g.edgePool.length ≤ (addWhileBackEdges.whileBackOne g f bs).edgePool.length ∧
    (∀ e, e < g.edgePool.length →
      (addWhileBackEdges.whileBackOne g f bs).getEdge e = g.getEdge e) ∧
    (∀ i, sameStaticFields ((addWhileBackEdges.whileBackOne g f bs).getVertex i)
      (g.getVertex i)) ∧
    (∀ i, i ≠ f → sameOutgoing ((addWhileBackEdges.whileBackOne g f bs).getVertex i)
      (g.getVertex i)) := by
  induction bs generalizing g with
  | nil =>
    exact ⟨rfl, le_rfl, fun e _ => rfl, fun i => sameStaticFields_refl _,
      fun i _ => sameOutgoing_refl _⟩
  | cons b bs ih =>
    rw [whileBackOne_cons]
    obtain ⟨h11, h12, h13, h14, h15, h16, h17⟩ :=
      fanStep_reads g f b (.str sFor) (.str sLoopJump)
    obtain ⟨hi1, hi2, hi3, hi4, hi5⟩ := ih (fanStep g f b (.str sFor) (.str sLoopJump))
    refine ⟨by rw [hi1, h11], by omega, fun e he => ?_,
      fun i => sameStaticFields_trans (hi4 i) (h14 i), fun i hif => ?_⟩
    · rw [hi3 e (by omega), h13 e he]
    · exact sameOutgoing_trans (hi5 i hif) (h15 i hif)

/-- `addWhileBackEdges` touches only the outgoing lists of the final
vertices. -/
theorem addWhileBackEdges_keeps (finals : List Nat) (g : CFG) (bases : List Nat) :
    (addWhileBackEdges g finals bases).vertexArr.length = g.vertexArr.length ∧
    g.edgePool.length ≤ (addWhileBackEdges g finals bases).edgePool.length ∧
    (∀ e, e < g.edgePool.length →
      (addWhileBackEdges g finals bases).getEdge e = g.getEdge e) ∧
    (∀ i, sameStaticFields ((addWhileBackEdges g finals bases).getVertex i)
      (g.getVertex i)) ∧
    (∀ i, i ∉ finals → sameOutgoing ((addWhileBackEdges g finals bases).getVertex i)
      (g.getVertex i)) := by
  induction finals generalizing g with
  | nil =>
    exact ⟨rfl, le_rfl, fun e _ => rfl, fun i => sameStaticFields_refl _,
      fun i _ => sameOutgoing_refl _⟩
  | cons f rest ih =>
    rw [addWhileBackEdges]
    obtain ⟨h11, h12, h13, h14, h15⟩ := whileBackOne_keeps bases g f
    obtain ⟨hi1, hi2, hi3, hi4, hi5⟩ := ih (addWhileBackEdges.whileBackOne g f bases)
    refine ⟨by rw [hi1, h11], by omega, fun e he => ?_,
      fun i => sameStaticFields_trans (hi4 i) (h14 i), fun i hif => ?_⟩
    · rw [hi3 e (by omega), h13 e he]
    · have h1 : i ∉ rest := fun hc => hif (by simp [hc])
      have h2 : i ≠ f := fun hc => hif (by simp [hc])
      exact sameOutgoing_trans (hi5 i h1) (h15 i h2)

/-- `mergeEdgesFromAll` keeps old edges and the outgoing structure of
every vertex outside the survivor list. -/
theorem mergeEdgesFromAll_keeps (survivors : List Nat) (g : CFG)
    (cs : String) (mv : Nat) :
    (∀ e, e < g.edgePool.length →
      (mergeEdgesFromAll g survivors cs mv).getEdge e = g.getEdge e) ∧
    (∀ i, i ∉ survivors →
      sameOutgoing ((mergeEdgesFromAll g survivors cs mv).getVertex i) (g.getVertex i)) := by
  induction survivors generalizing g with
  | nil => exact ⟨fun e _ => rfl, fun i _ => sameOutgoing_refl _⟩
  | cons v rest ih =>
    rw [mergeEdges_cons]
    obtain ⟨hn1, hn2, hn3, hn4, hn5, hn6⟩ :=
      newEdgeRaw_spec g (.str cs) (.str sControlFlow) .selfInstr []
    have hq3 : ∀ i, ((g.newEdgeStr cs sControlFlow).1.publish
        (g.newEdgeStr cs sControlFlow).2).getVertex i = g.getVertex i := fun i => hn4 i
    have hq4 : ∀ e, e < g.edgePool.length →
        ((g.newEdgeStr cs sControlFlow).1.publish
          (g.newEdgeStr cs sControlFlow).2).getEdge e = g.getEdge e :=
      fun e he => hn5 e he
    have hq2 : ((g.newEdgeStr cs sControlFlow).1.publish
        (g.newEdgeStr cs sControlFlow).2).edgePool.length = g.edgePool.length + 1 := hn2
    have hidx : (g.newEdgeStr cs sControlFlow).2 = g.edgePool.length := hn1
    obtain ⟨hs1, hs2, hs3, hs4, hs5, hs6⟩ :=
      setTargetState_spec ((g.newEdgeStr cs sControlFlow).1.publish
        (g.newEdgeStr cs sControlFlow).2) (g.newEdgeStr cs sControlFlow).2 mv
    obtain ⟨ha1, ha2, ha3, ha4, ha5, ha6⟩ :=
      addOutgoing_spec (((g.newEdgeStr cs sControlFlow).1.publish
        (g.newEdgeStr cs sControlFlow).2).setTargetState
        (g.newEdgeStr cs sControlFlow).2 mv) v (g.newEdgeStr cs sControlFlow).2
    obtain ⟨ihe, iho⟩ := ih ((((g.newEdgeStr cs sControlFlow).1.publish
      (g.newEdgeStr cs sControlFlow).2).setTargetState
      (g.newEdgeStr cs sControlFlow).2 mv).addOutgoing v (g.newEdgeStr cs sControlFlow).2)
    constructor
    · intro e he
      have hlt : e < ((((g.newEdgeStr cs sControlFlow).1.publish
          (g.newEdgeStr cs sControlFlow).2).setTargetState
          (g.newEdgeStr cs sControlFlow).2 mv).addOutgoing v
          (g.newEdgeStr cs sControlFlow).2).edgePool.length := by
        rw [ha6, hs6, hq2]
        omega
      rw [ihe e hlt, ha3 e (by rw [hidx]; omega), hs3 e (by rw [hidx]; omega), hq4 e he]
    · intro i hi
      have h1 : i ∉ rest := fun hc => hi (by simp [hc])
      have h2 : i ≠ v := fun hc => hi (by simp [hc])
      refine sameOutgoing_trans (iho i h1) ?_
      have h3 : ((((g.newEdgeStr cs sControlFlow).1.publish
          (g.newEdgeStr cs sControlFlow).2).setTargetState
          (g.newEdgeStr cs sControlFlow).2 mv).addOutgoing v
          (g.newEdgeStr cs sControlFlow).2).getVertex i =
          (((g.newEdgeStr cs sControlFlow).1.publish
          (g.newEdgeStr cs sControlFlow).2).setTargetState
          (g.newEdgeStr cs sControlFlow).2 mv).getVertex i := ha1 i h2
      rw [h3]
      refine sameOutgoing_trans (hs1 i) ?_
      rw [hq3 i]
      exact sameOutgoing_refl _

/-- `finishBranches`: the new frontier is empty or the single fresh merge
vertex; old edges, vertex names, and the outgoing structure of
non-tail, non-head snapshot vertices are untouched. -/
theorem finishBranches_spec (g : CFG) (head : Nat) (tails : List Nat) (isTry : Bool) :
    ((finishBranches g head tails isTry).2 = [] ∨
      (finishBranches g head tails isTry).2 = [g.vertexArr.length]) ∧
    g.vertexArr.length ≤ (finishBranches g head tails isTry).1.vertexArr.length ∧
    g.edgePool.length ≤ (finishBranches g head tails isTry).1.edgePool.length ∧
    (∀ e, e < g.edgePool.length →
      (finishBranches g head tails isTry).1.getEdge e = g.getEdge e) ∧
    (∀ i, i < g.vertexArr.length →
      ((finishBranches g head tails isTry).1.getVertex i).nameChanged =
        (g.getVertex i).nameChanged) ∧
    (∀ i, i < g.vertexArr.length → i ∉ tails → i ≠ head →
      sameOutgoing ((finishBranches g head tails isTry).1.getVertex i) (g.getVertex i)) := by
  cases hfil : tails.filter (fun v => !terminatedTail g v) with
  | nil =>
    have hfb : finishBranches g head tails isTry = (setMergePtr g head isTry none, []) := by
      unfold finishBranches
      rw [hfil]
    rw [hfb]
    obtain ⟨hm1, hm2, hm3, hm4, hm5⟩ := setMergePtr_reads g head isTry none
    exact ⟨Or.inl rfl, le_of_eq hm4.symm, le_of_eq (congrArg List.length hm5).symm,
      fun e _ => by unfold CFG.getEdge; rw [hm5],
      fun i _ => hm2 i,
      fun i _ _ hih => by rw [hm3 i hih]; exact sameOutgoing_refl _⟩
  | cons t ts =>
    have hmem : ∀ x, x ∈ t :: ts → x ∈ tails := by
      intro x hx
      have : x ∈ tails.filter (fun v => !terminatedTail g v) := by rw [hfil]; exact hx
      exact List.mem_of_mem_filter this
    have hfb : finishBranches g head tails isTry =
        (mergeEdgesFromAll
          (setMergePtr (g.pushVertex { nameChanged :=
            [some (if isTry then nmPostTryCatch else nmPostConditional)] }).1 head isTry
            (some (g.pushVertex { nameChanged :=
              [some (if isTry then nmPostTryCatch else nmPostConditional)] }).2))
          (t :: ts) (if isTry then nmPostTryCatch else sPostCondition)
          (g.pushVertex { nameChanged :=
            [some (if isTry then nmPostTryCatch else nmPostConditional)] }).2,
         [(g.pushVertex { nameChanged :=
            [some (if isTry then nmPostTryCatch else nmPostConditional)] }).2]) := by
      unfold finishBranches
      rw [hfil]
    rw [hfb]
    obtain ⟨hp1, hp2, hp3, hp4, hp5⟩ := pushVertex_spec g
      { nameChanged := [some (if isTry then nmPostTryCatch else nmPostConditional)] }
    obtain ⟨hm1, hm2, hm3, hm4, hm5⟩ := setMergePtr_reads
      (g.pushVertex { nameChanged :=
        [some (if isTry then nmPostTryCatch else nmPostConditional)] }).1 head isTry
      (some (g.pushVertex { nameChanged :=
        [some (if isTry then nmPostTryCatch else nmPostConditional)] }).2)
    obtain ⟨hg1, hg2, hg3⟩ := mergeEdgesFromAll_spec (t :: ts)
      (setMergePtr (g.pushVertex { nameChanged :=
        [some (if isTry then nmPostTryCatch else nmPostConditional)] }).1 head isTry
        (some (g.pushVertex { nameChanged :=
          [some (if isTry then nmPostTryCatch else nmPostConditional)] }).2))
      (if isTry then nmPostTryCatch else sPostCondition)
      (g.pushVertex { nameChanged :=
        [some (if isTry then nmPostTryCatch else nmPostConditional)] }).2
    obtain ⟨hk1, hk2⟩ := mergeEdgesFromAll_keeps (t :: ts)
      (setMergePtr (g.pushVertex { nameChanged :=
        [some (if isTry then nmPostTryCatch else nmPostConditional)] }).1 head isTry
        (some (g.pushVertex { nameChanged :=
          [some (if isTry then nmPostTryCatch else nmPostConditional)] }).2))
      (if isTry then nmPostTryCatch else sPostCondition)
      (g.pushVertex { nameChanged :=
        [some (if isTry then nmPostTryCatch else nmPostConditional)] }).2
    refine ⟨Or.inr (by rw [hp1]), ?_, ?_, ?_, ?_, ?_⟩
    · rw [hg2, hm4, hp2]
      omega
    · have h1 := congrArg List.length hm5
      have h2 := congrArg List.length hp5
      have h3 := congrArg List.length hg1
      simp only [List.length_append] at h3
      rw [h3, h1, h2]
      omega
    · intro e he
      have hlen : e < (setMergePtr (g.pushVertex { nameChanged :=
          [some (if isTry then nmPostTryCatch else nmPostConditional)] }).1 head isTry
          (some (g.pushVertex { nameChanged :=
            [some (if isTry then nmPostTryCatch else nmPostConditional)] }).2)).edgePool.length := by
        have h1 := congrArg List.length hm5
        have h2 := congrArg List.length hp5
        omega
      rw [hk1 e hlen]
      have h2 : ∀ e2, (setMergePtr (g.pushVertex { nameChanged :=
          [some (if isTry then nmPostTryCatch else nmPostConditional)] }).1 head isTry
          (some (g.pushVertex { nameChanged :=
            [some (if isTry then nmPostTryCatch else nmPostConditional)] }).2)).getEdge e2 =
          (g.pushVertex { nameChanged :=
            [some (if isTry then nmPostTryCatch else nmPostConditional)] }).1.getEdge e2 := by
        intro e2
        unfold CFG.getEdge
        rw [hm5]
      rw [h2 e]
      unfold CFG.getEdge
      rw [hp5]
    · intro i hi
      refine ((hg3 i).1).trans ?_
      rw [hm2 i]
      rw [hp4 i hi]
    · intro i hi htails hhead
      refine sameOutgoing_trans (hk2 i (fun hc => htails (hmem i hc))) ?_
      rw [hm3 i hhead, hp4 i hi]
      exact sameOutgoing_refl _

/-- The handler-entry logger only appends to `branch_initial_statements`. -/
theorem logHandlerEntries_arrays (handlers : List (List Stmt)) (g g2 : CFG)
    (hok : logTryEntries.logHandlerEntries g handlers = .ok g2) :
    g2.vertexArr = g.vertexArr ∧ g2.edgePool = g.edgePool ∧
    g2.startingVertex = g.startingVertex ∧
    g2.referenceVariables = g.referenceVariables := by
  induction handlers generalizing g with
  | nil =>
    rw [logTryEntries.logHandlerEntries] at hok
    injection hok with h
    subst h
    exact ⟨rfl, rfl, rfl, rfl⟩
  | cons hb rest ih =>
    rw [logTryEntries.logHandlerEntries] at hok
    cases hh : hb.head? with
    | none => rw [hh] at hok; exact Except.noConfusion hok
    | some s =>
      rw [hh] at hok
      simp only [bind, Except.bind] at hok
      exact ih { g with branchInitial :=
        g.branchInitial ++ [.tryCatch s sTryCatchHandler] } hok

/-- `logTryEntries` only appends to `branch_initial_statements`. -/
theorem logTryEntries_arrays (g : CFG) (body : List Stmt)
    (handlers : List (List Stmt)) (g2 : CFG)
    (hok : logTryEntries g body handlers = .ok g2) :
    g2.vertexArr = g.vertexArr ∧ g2.edgePool = g.edgePool ∧
    g2.startingVertex = g.startingVertex ∧
    g2.referenceVariables = g.referenceVariables := by
  unfold logTryEntries at hok
  cases hh : body.head? with
  | none => rw [hh] at hok; exact Except.noConfusion hok
  | some s =>
    rw [hh] at hok
    simp only [bind, Except.bind] at hok
    exact logHandlerEntries_arrays handlers { g with branchInitial :=
      g.branchInitial ++ [.tryCatch s sTryCatchMain] } g2 hok

/-- Two graphs with the same arenas are a frame for any frontier. -/
theorem frameOK_of_arrays {g g2 : CFG} (hv : g2.vertexArr = g.vertexArr)
    (he : g2.edgePool = g.edgePool) (cur : List Nat) : frameOK g g2 cur := by
  have h1 : ∀ i, g2.getVertex i = g.getVertex i := by
    intro i
    unfold CFG.getVertex
    rw [hv]
  have h2 : ∀ e, g2.getEdge e = g.getEdge e := by
    intro e
    unfold CFG.getEdge
    rw [he]
  exact ⟨le_of_eq (congrArg List.length hv).symm, le_of_eq (congrArg List.length he).symm,
    fun e _ => h2 e, fun i _ => by rw [h1 i], fun i _ _ => by rw [h1 i]; exact sameOutgoing_refl _⟩

/-- The straight-line step is a frame with a fresh one-vertex frontier. -/
theorem straightLineStep_frameOK (g : CFG) (cur : List Nat) (c : List CondElem)
    (iv : List String) (entry : Stmt) (pl : Nat) (refs : List String)
    (g4 : CFG) (out : List Nat)
    (hok : straightLineStep g cur c iv entry pl refs = .ok (g4, out)) :
    frameOK g g4 cur ∧ frontierOK g cur out := by
  obtain ⟨h1, h2, h3, h4, h5, h6⟩ := straightLineStep_frame g cur c iv entry pl refs g4 out hok
  refine ⟨⟨by omega, by omega, h4, fun i hi => (h5 i hi).1, h6⟩, ?_⟩
  intro u hu
  rw [h1] at hu
  simp at hu
  subst hu
  exact Or.inr le_rfl

/-- `redirectAll` is a frame (the frontier is untouched by it). -/
theorem redirectAll_frameOK (g : CFG) (cur : List Nat) (cs : String) (head : Nat) :
    frameOK g (redirectAll g cur cs head) cur := by
  obtain ⟨h1, h2, h3, h4, h5⟩ := redirectAll_spec cur g cs head
  exact ⟨le_of_eq h1.symm, by omega, h3, fun i _ => (h4 i).1, fun i _ hc => h5 i hc⟩

/-- `linkToLoopAll` is a frame. -/
theorem linkToLoopAll_frameOK (g : CFG) (cur : List Nat) (iter : AExpr) (pre : Nat) :
    frameOK g (linkToLoopAll g cur iter pre) cur := by
  obtain ⟨h1, h2, h3, h4, h5⟩ := linkToLoopAll_spec cur g iter pre
  exact ⟨le_of_eq h1.symm, by omega, h3, fun i _ => (h4 i).1, fun i _ hc => h5 i hc⟩

/-- `pushVertex` is a frame. -/
theorem pushVertex_frameOK (g : CFG) (v : VertexRec) (cur : List Nat) :
    frameOK g (g.pushVertex v).1 cur := by
  obtain ⟨h1, h2, h3, h4, h5⟩ := pushVertex_spec g v
  refine ⟨by omega, le_of_eq (congrArg List.length h5).symm,
    fun e _ => by unfold CFG.getEdge; rw [h5], fun i hi => by rw [h4 i hi],
    fun i hi _ => by rw [h4 i hi]; exact sameOutgoing_refl _⟩

/-- `addLoopBackEdges` is a frame when no final vertex is old-and-off-frontier. -/
theorem addLoopBackEdges_frameOK (g : CFG) (finals bases : List Nat) (post : Nat)
    (cur : List Nat)
    (hfin : ∀ i, i < g.vertexArr.length → i ∉ cur → i ∉ finals) :
    frameOK g (addLoopBackEdges g finals bases post) cur := by
  obtain ⟨h1, h2, h3, h4, h5⟩ := addLoopBackEdges_keeps finals g bases post
  exact ⟨le_of_eq h1.symm, h2, h3, fun i _ => (h4 i).1,
    fun i hi hc => h5 i (hfin i hi hc)⟩

/-- `addWhileBackEdges` is a frame when no final vertex is old-and-off-frontier. -/
theorem addWhileBackEdges_frameOK (g : CFG) (finals bases : List Nat)
    (cur : List Nat)
    (hfin : ∀ i, i < g.vertexArr.length → i ∉ cur → i ∉ finals) :
    frameOK g (addWhileBackEdges g finals bases) cur := by
  obtain ⟨h1, h2, h3, h4, h5⟩ := addWhileBackEdges_keeps finals g bases
  exact ⟨le_of_eq h1.symm, h2, h3, fun i _ => (h4 i).1,
    fun i hi hc => h5 i (hfin i hi hc)⟩

/-- The conditional case of the statement frame property. -/
theorem stmtFrame_if (fuel : Nat) (IHpairs : PPairs fuel)
    (test : AExpr) (body orelse : List Stmt) (g : CFG) (cur : List Nat)
    (condition : List CondElem) (iv : List String) (pl : Nat) (isLast : Bool)
    (g2 : CFG) (cur2 : List Nat) (cnd2 : List CondElem) (pl2 : Nat)
    (hok : processStmtF (fuel + 1) (.ifStmt test body orelse) g cur condition iv pl isLast =
      .ok (g2, cur2, cnd2, pl2)) :
    frameOK g g2 cur ∧ frontierOK g cur cur2 := by
  simp only [processStmtF] at hok
  cases hpe : collectPairsF fuel orelse [CondElem.lnotE test] with
  | error e => rw [hpe] at hok; exact Except.noConfusion hok
  | ok pe =>
    obtain ⟨pe1, pe2⟩ := pe
    rw [hpe] at hok
    simp only [bind, Except.bind] at hok
    set gb : CFG := if (!isLast) = true then
      { g with branchInitial := g.branchInitial ++
        [BranchEntry.postConditional (Stmt.ifStmt test body orelse)] } else g with hgb
    set G1 : CFG := (gb.pushVertex { nameChanged := [some nmConditional],
                                     structureObj := some (Stmt.ifStmt test body orelse) }).1
      with hG1
    set hd : Nat := (gb.pushVertex { nameChanged := [some nmConditional],
                                     structureObj := some (Stmt.ifStmt test body orelse) }).2
      with hhd
    set G2 : CFG := redirectAll G1 cur nmConditional hd with hG2
    cases hr : processPairsF fuel (([CondElem.expr test], body) :: pe1) 0 G2 [hd] iv with
    | error e => rw [hr] at hok; exact Except.noConfusion hok
    | ok r =>
      obtain ⟨rg, rfin⟩ := r
      rw [hr] at hok
      injection hok with hok1
      injection hok1 with hok2 hok3
      injection hok3 with hok4 hok5
      subst hok2
      subst hok4
      set T1 : CFG × List Nat := if (!pe2) = true then
        ({ rg with branchInitial := rg.branchInitial ++
                     [BranchEntry.conditionalNoElse (Stmt.ifStmt test body orelse)
                       (([CondElem.expr test], body) :: pe1).length] }, rfin ++ [hd])
        else (rg, rfin) with hT1
      have hbar : gb.vertexArr = g.vertexArr ∧ gb.edgePool = g.edgePool := by
        rw [hgb]
        constructor <;> (split <;> rfl)
      have hhd2 : hd = g.vertexArr.length := by
        rw [hhd, (pushVertex_spec gb _).1, hbar.1]
      have Fgb : frameOK g gb cur := frameOK_of_arrays hbar.1 hbar.2 cur
      have Fpush : frameOK gb G1 cur := pushVertex_frameOK gb _ cur
      have Fred : frameOK G1 G2 cur := redirectAll_frameOK G1 cur nmConditional hd
      have F012 : frameOK g G2 cur :=
        frameOK_trans (frameOK_trans Fgb (frontierOK_refl _ _) Fpush)
          (frontierOK_refl _ _) Fred
      obtain ⟨Fr, FrF⟩ := IHpairs _ _ _ _ _ _ _ hr
      have hcurhd : frontierOK g cur [hd] := by
        intro u hu
        simp at hu
        subst hu
        exact Or.inr (le_of_eq hhd2.symm)
      have F3 : frameOK g rg cur := frameOK_trans F012 hcurhd Fr
      have hT1v : T1.1.vertexArr = rg.vertexArr := by
        rw [hT1]
        split <;> rfl
      have hT1e : T1.1.edgePool = rg.edgePool := by
        rw [hT1]
        split <;> rfl
      have hT2 : ∀ u ∈ T1.2, u ∈ rfin ∨ u = hd := by
        intro u hu
        rw [hT1] at hu
        split at hu
        · rcases List.mem_append.mp hu with h | h
          · exact Or.inl h
          · simp at h
            exact Or.inr h
        · exact Or.inl hu
      have F4 : frameOK g T1.1 cur :=
        frameOK_trans F3 (frontierOK_refl _ _) (frameOK_of_arrays hT1v hT1e cur)
      obtain ⟨f1, f2, f3, f4, f5, f6⟩ := finishBranches_spec T1.1 hd T1.2 false
      have Flast : frameOK T1.1 (finishBranches T1.1 hd T1.2 false).1 (hd :: T1.2) := by
        refine ⟨f2, f3, f4, f5, ?_⟩
        intro i hi hc
        have h1 : i ∉ T1.2 := fun hcc => hc (by simp [hcc])
        have h2 : i ≠ hd := fun hcc => hc (by simp [hcc])
        exact f6 i hi h1 h2
      have hfr : frontierOK g cur (hd :: T1.2) := by
        intro u hu
        rcases List.mem_cons.mp hu with h | h
        · subst h
          exact Or.inr (le_of_eq hhd2.symm)
        · rcases hT2 u h with h2 | h2
          · rcases FrF u h2 with h3 | h3
            · simp at h3
              subst h3
              exact Or.inr (le_of_eq hhd2.symm)
            · exact Or.inr (le_trans F012.1 h3)
          · subst h2
            exact Or.inr (le_of_eq hhd2.symm)
      refine ⟨frameOK_trans F4 hfr Flast, ?_⟩
      intro u hu
      rcases f1 with h | h
      · rw [h] at hu
        simp at hu
      · rw [h] at hu
        simp at hu
        subst hu
        right
        have hlen : g.vertexArr.length ≤ T1.1.vertexArr.length := F4.1
        exact hlen

/-- The try-catch case of the statement frame property. -/
theorem stmtFrame_try (fuel : Nat) (IHblock : PBlock fuel) (IHhandlers : PHandlers fuel)
    (body : List Stmt) (handlers : List (List Stmt)) (g : CFG) (cur : List Nat)
    (condition : List CondElem) (iv : List String) (pl : Nat) (isLast : Bool)
    (g2 : CFG) (cur2 : List Nat) (cnd2 : List CondElem) (pl2 : Nat)
    (hok : processStmtF (fuel + 1) (.tryStmt body handlers) g cur condition iv pl isLast =
      .ok (g2, cur2, cnd2, pl2)) :
    frameOK g g2 cur ∧ frontierOK g cur cur2 := by
  simp only [processStmtF] at hok
  set gb : CFG := if (!isLast) = true then
    { g with branchInitial := g.branchInitial ++
      [BranchEntry.postTryCatch (Stmt.tryStmt body handlers)] } else g with hgb
  set G1 : CFG := (gb.pushVertex { nameChanged := [some nmTryCatch] }).1 with hG1
  set hd : Nat := (gb.pushVertex { nameChanged := [some nmTryCatch] }).2 with hhd
  set G2 : CFG := redirectAll G1 cur nmTryCatch hd with hG2
  cases hlog : logTryEntries G2 body handlers with
  | error e => rw [hlog] at hok; exact Except.noConfusion hok
  | ok gl =>
    rw [hlog] at hok
    simp only [bind, Except.bind] at hok
    cases hm : processBlockF fuel body gl (some [hd]) [CondElem.str sTryCatchMain] iv with
    | error e => rw [hm] at hok; exact Except.noConfusion hok
    | ok rMain =>
      obtain ⟨mg, mfin⟩ := rMain
      rw [hm] at hok
      simp only [bind, Except.bind] at hok
      cases hh : processHandlersF fuel handlers mg [hd] iv with
      | error e => rw [hh] at hok; exact Except.noConfusion hok
      | ok rH =>
        obtain ⟨hg, hfin⟩ := rH
        rw [hh] at hok
        injection hok with hok1
        injection hok1 with hok2 hok3
        injection hok3 with hok4 hok5
        subst hok2
        subst hok4
        have hbar : gb.vertexArr = g.vertexArr ∧ gb.edgePool = g.edgePool := by
          rw [hgb]
          constructor <;> (split <;> rfl)
        have hhd2 : hd = g.vertexArr.length := by
          rw [hhd, (pushVertex_spec gb _).1, hbar.1]
        obtain ⟨hl1, hl2, hl3, hl4⟩ := logTryEntries_arrays G2 body handlers gl hlog
        have A : frameOK g gl cur := by
          refine frameOK_trans (frameOK_trans (frameOK_trans
            (frameOK_of_arrays hbar.1 hbar.2 cur) (frontierOK_refl _ _)
            (pushVertex_frameOK gb _ cur)) (frontierOK_refl _ _)
            (redirectAll_frameOK G1 cur nmTryCatch hd)) (frontierOK_refl _ _) ?_
          exact frameOK_of_arrays hl1 hl2 cur
        have B0 := IHblock _ _ _ _ _ _ _ hm
        simp only [Option.getD_some] at B0
        obtain ⟨B, BF⟩ := B0
        obtain ⟨C, CF⟩ := IHhandlers _ _ _ _ _ _ hh
        have hcurhd : frontierOK g cur [hd] := by
          intro u hu
          simp at hu
          subst hu
          exact Or.inr (le_of_eq hhd2.symm)
        have F1 : frameOK g mg cur := frameOK_trans A hcurhd B
        have F2 : frameOK g hg cur := frameOK_trans F1 hcurhd C
        obtain ⟨f1, f2, f3, f4, f5, f6⟩ := finishBranches_spec hg hd (mfin ++ hfin) true
        have Flast : frameOK hg (finishBranches hg hd (mfin ++ hfin) true).1
            (hd :: (mfin ++ hfin)) := by
          refine ⟨f2, f3, f4, f5, ?_⟩
          intro i hi hc
          have h1 : i ∉ mfin ++ hfin := fun hcc => hc (by simp [List.mem_append] at hcc ⊢; tauto)
          have h2 : i ≠ hd := fun hcc => hc (by simp [hcc])
          exact f6 i hi h1 h2
        have hfr : frontierOK g cur (hd :: (mfin ++ hfin)) := by
          intro u hu
          rcases List.mem_cons.mp hu with h | h
          · subst h
            exact Or.inr (le_of_eq hhd2.symm)
          · rcases List.mem_append.mp h with h2 | h2
            · rcases BF u h2 with h3 | h3
              · simp at h3
                subst h3
                exact Or.inr (le_of_eq hhd2.symm)
              · exact Or.inr (le_trans A.1 h3)
            · rcases CF u h2 with h3 | h3
              · simp at h3
                subst h3
                exact Or.inr (le_of_eq hhd2.symm)
              · exact Or.inr (le_trans F1.1 h3)
        refine ⟨frameOK_trans F2 hfr Flast, ?_⟩
        intro u hu
        rcases f1 with h | h
        · rw [h] at hu
          simp at hu
        · rw [h] at hu
          simp at hu
          subst hu
          exact Or.inr F2.1

/-- The for-loop case of the statement frame property. -/
theorem stmtFrame_for (fuel : Nat) (IHblock : PBlock fuel)
    (target iter : AExpr) (body : List Stmt) (g : CFG) (cur : List Nat)
    (condition : List CondElem) (iv : List String) (pl : Nat) (isLast : Bool)
    (g2 : CFG) (cur2 : List Nat) (cnd2 : List CondElem) (pl2 : Nat)
    (hok : processStmtF (fuel + 1) (.forStmt target iter body) g cur condition iv pl isLast =
      .ok (g2, cur2, cnd2, pl2)) :
    frameOK g g2 cur ∧ frontierOK g cur cur2 := by
  simp only [processStmtF] at hok
  set G1 : CFG := (g.pushVertex { nameChanged := [some nmLoop] }).1 with hG1
  set pre : Nat := (g.pushVertex { nameChanged := [some nmLoop] }).2 with hpredef
  set G2 : CFG := (G1.pushVertex { nameChanged := [some nmPostLoop] }).1 with hG2
  set post : Nat := (G1.pushVertex { nameChanged := [some nmPostLoop] }).2 with hpostdef
  set G3 : CFG := linkToLoopAll G2 cur iter pre with hG3
  cases hiv : additionalInputVariables target with
  | error e => rw [hiv] at hok; exact Except.noConfusion hok
  | ok addIV =>
    rw [hiv] at hok
    simp only [bind, Except.bind] at hok
    cases hb : processBlockF fuel body G3 (some [pre]) [CondElem.str sEnterLoop]
        (iv ++ addIV) with
    | error e => rw [hb] at hok; exact Except.noConfusion hok
    | ok rBody =>
      obtain ⟨bg, bfin⟩ := rBody
      rw [hb] at hok
      simp only [bind, Except.bind] at hok
      cases hfirst : body.head? with
      | none => rw [hfirst] at hok; exact Except.noConfusion hok
      | some s0 =>
        rw [hfirst] at hok
        simp only [bind, Except.bind] at hok
        injection hok with hok1
        injection hok1 with hok2 hok3
        injection hok3 with hok4 hok5
        subst hok2
        subst hok4
        set G4 : CFG := { bg with branchInitial := bg.branchInitial ++
          [BranchEntry.loop s0 sEnterLoop (Stmt.forStmt target iter body) sEndLoop] }
          with hG4
        set G5 : CFG := addLoopBackEdges G4 bfin [pre] post with hG5
        have hpre : pre = g.vertexArr.length := (pushVertex_spec g _).1
        have hlenG1 : G1.vertexArr.length = g.vertexArr.length + 1 :=
          (pushVertex_spec g _).2.1
        have hpost : post = g.vertexArr.length + 1 := by
          rw [hpostdef, (pushVertex_spec G1 _).1, hlenG1]
        have FA : frameOK g G3 cur :=
          frameOK_trans (frameOK_trans (pushVertex_frameOK g _ cur)
            (frontierOK_refl _ _) (pushVertex_frameOK G1 _ cur))
            (frontierOK_refl _ _) (linkToLoopAll_frameOK G2 cur iter pre)
        have B0 := IHblock _ _ _ _ _ _ _ hb
        simp only [Option.getD_some] at B0
        obtain ⟨B, BF⟩ := B0
        have hcurpre : frontierOK g cur [pre] := by
          intro u hu
          simp at hu
          subst hu
          exact Or.inr (le_of_eq hpre.symm)
        have F4 : frameOK g bg cur := frameOK_trans FA hcurpre B
        have F4b : frameOK g G4 cur :=
          frameOK_trans F4 (frontierOK_refl _ _) (frameOK_of_arrays rfl rfl cur)
        obtain ⟨hk1, hk2, hk3, hk4, hk5⟩ := addLoopBackEdges_keeps bfin G4 [pre] post
        have hnotbfin : ∀ i, i < g.vertexArr.length → i ∉ bfin := by
          intro i hi hc
          rcases BF i hc with h | h
          · simp at h
            omega
          · have hg3 : g.vertexArr.length ≤ G3.vertexArr.length := FA.1
            omega
        have F5 : frameOK g G5 cur := by
          refine ⟨?_, ?_, ?_, ?_, ?_⟩
          · rw [hG5, hk1]
            exact F4b.1
          · have := F4b.2.1
            rw [hG5]
            omega
          · intro e he
            rw [hG5, hk3 e (lt_of_lt_of_le he F4b.2.1), F4b.2.2.1 e he]
          · intro i hi
            rw [hG5, (hk4 i).1, F4b.2.2.2.1 i hi]
          · intro i hi hc
            exact sameOutgoing_trans (hG5 ▸ hk5 i (hnotbfin i hi)) (F4b.2.2.2.2 i hi hc)
        obtain ⟨hn1, hn2, hn3, hn4, hn5, hn6⟩ :=
          newEdgeRaw_spec G5 (.lnotE iter) (.str sLoopSkip) .selfInstr []
        obtain ⟨ha1, ha2, ha3, ha4, ha5, ha6⟩ :=
          addOutgoing_spec (G5.newEdgeRaw (.lnotE iter) (.str sLoopSkip) .selfInstr []).1 pre
            (G5.newEdgeRaw (.lnotE iter) (.str sLoopSkip) .selfInstr []).2
        obtain ⟨hs1, hs2, hs3, hs4, hs5, hs6⟩ :=
          setTargetState_spec ((G5.newEdgeRaw (.lnotE iter) (.str sLoopSkip)
            .selfInstr []).1.addOutgoing pre
            (G5.newEdgeRaw (.lnotE iter) (.str sLoopSkip) .selfInstr []).2)
            (G5.newEdgeRaw (.lnotE iter) (.str sLoopSkip) .selfInstr []).2 post
        refine ⟨⟨?_, ?_, ?_, ?_, ?_⟩, ?_⟩
        · rw [hs5, ha5, congrArg List.length hn3]
          exact F5.1
        · rw [hs6, ha6, hn2]
          have := F5.2.1
          omega
        · intro e he
          have hne : e ≠ (G5.newEdgeRaw (.lnotE iter) (.str sLoopSkip) .selfInstr []).2 := by
            rw [hn1]
            have := F5.2.1
            omega
          rw [hs3 e hne, ha3 e hne, hn5 e (lt_of_lt_of_le he F5.2.1), F5.2.2.1 e he]
        · intro i hi
          refine ((hs1 i).2.1).trans ?_
          refine (((addOutgoing_keeps _ pre _).1 i).1).trans ?_
          rw [hn4 i]
          exact F5.2.2.2.1 i hi
        · intro i hi hc
          refine sameOutgoing_trans (hs1 i) ?_
          have hipre : i ≠ pre := by
            rw [hpre]
            omega
          rw [ha1 i hipre, hn4 i]
          exact F5.2.2.2.2 i hi hc
        · intro u hu
          simp at hu
          subst hu
          rw [hpost]
          exact Or.inr (by omega)

/-- The while-loop case of the statement frame property. -/
theorem stmtFrame_while (fuel : Nat) (IHblock : PBlock fuel)
    (test : AExpr) (body : List Stmt) (g : CFG) (cur : List Nat)
    (condition : List CondElem) (iv : List String) (pl : Nat) (isLast : Bool)
    (g2 : CFG) (cur2 : List Nat) (cnd2 : List CondElem) (pl2 : Nat)
    (hok : processStmtF (fuel + 1) (.whileStmt test body) g cur condition iv pl isLast =
      .ok (g2, cur2, cnd2, pl2)) :
    frameOK g g2 cur ∧ frontierOK g cur cur2 := by
  simp only [processStmtF] at hok
  cases hb : processBlockF fuel body g (some cur) [CondElem.str sWhile] iv with
  | error e => rw [hb] at hok; exact Except.noConfusion hok
  | ok rBody =>
    obtain ⟨bg, bfin⟩ := rBody
    rw [hb] at hok
    simp only [bind, Except.bind] at hok
    injection hok with hok1
    injection hok1 with hok2 hok3
    injection hok3 with hok4 hok5
    subst hok2
    subst hok4
    have B0 := IHblock _ _ _ _ _ _ _ hb
    simp only [Option.getD_some] at B0
    obtain ⟨B, BF⟩ := B0
    obtain ⟨hk1, hk2, hk3, hk4, hk5⟩ := addWhileBackEdges_keeps bfin bg cur
    have hnotbfin : ∀ i, i < g.vertexArr.length → i ∉ cur → i ∉ bfin := by
      intro i hi hc hmem
      rcases BF i hmem with h | h
      · exact hc h
      · omega
    refine ⟨⟨?_, ?_, ?_, ?_, ?_⟩, ?_⟩
    · rw [hk1]
      exact B.1
    · have := B.2.1
      omega
    · intro e he
      rw [hk3 e (lt_of_lt_of_le he B.2.1), B.2.2.1 e he]
    · intro i hi
      rw [(hk4 i).1, B.2.2.2.1 i hi]
    · intro i hi hc
      exact sameOutgoing_trans (hk5 i (hnotbfin i hi hc)) (B.2.2.2.2 i hi hc)
    · exact BF

/-- The frame suite: every builder function, at every fuel, preserves the
arena below its snapshot and produces a frontier of old-frontier or fresh
vertices. -/
theorem builderFrame : ∀ fuel, PBlock fuel ∧ PGo fuel ∧ PStmt fuel ∧
    PPairs fuel ∧ PHandlers fuel := by
  intro fuel
  induction fuel with
  | zero =>
    refine ⟨?_, ?_, ?_, ?_, ?_⟩
    · intro block g vs cond iv g2 cur2 hok
      exact Except.noConfusion hok
    · intro block g cur cond iv pl g2 cur2 hok
      cases block with
      | nil =>
        injection hok with h
        injection h with h1 h2
        subst h1
        subst h2
        exact ⟨frameOK_refl g cur, frontierOK_refl g cur⟩
      | cons s rest => exact Except.noConfusion hok
    · intro s g cur cond iv pl isLast g2 cur2 cnd2 pl2 hok
      exact Except.noConfusion hok
    · intro pairs n g cur iv g2 fin hok
      exact Except.noConfusion hok
    · intro hbs g cur iv g2 fin hok
      exact Except.noConfusion hok
  | succ fuel ih =>
    obtain ⟨ihB, ihG, ihS, ihP, ihH⟩ := ih
    have hBlock : PBlock (fuel + 1) := by
      intro block g vs cond iv g2 cur2 hok
      exact ihG block g (vs.getD [g.startingVertex]) cond iv 0 g2 cur2 hok
    have hGo : PGo (fuel + 1) := by
      intro block g cur cond iv pl g2 cur2 hok
      cases block with
      | nil =>
        injection hok with h
        injection h with h1 h2
        subst h1
        subst h2
        exact ⟨frameOK_refl g cur, frontierOK_refl g cur⟩
      | cons s rest =>
        rw [blockGoF] at hok
        cases hs : processStmtF fuel s g cur cond iv pl rest.isEmpty with
        | error e => rw [hs] at hok; exact Except.noConfusion hok
        | ok r =>
          obtain ⟨rg, rcur, rcnd, rpl⟩ := r
          rw [hs] at hok
          simp only [bind, Except.bind] at hok
          obtain ⟨S, SF⟩ := ihS s g cur cond iv pl rest.isEmpty rg rcur rcnd rpl hs
          obtain ⟨G, GF⟩ := ihG rest rg rcur rcnd iv rpl g2 cur2 hok
          exact ⟨frameOK_trans S SF G, frontierOK_trans SF S.1 GF⟩
    have hStmt : PStmt (fuel + 1) := by
      intro s g cur cond iv pl isLast g2 cur2 cnd2 pl2 hok
      cases s with
      | assign targets value =>
        simp only [processStmtF] at hok
        cases hsl : straightLineStep g cur cond iv (.assign targets value) (pl + 1)
            g.referenceVariables with
        | error e => rw [hsl] at hok; exact Except.noConfusion hok
        | ok r =>
          obtain ⟨r1, r2⟩ := r
          rw [hsl] at hok
          simp only [bind, Except.bind] at hok
          injection hok with h
          injection h with h1 h2
          injection h2 with h3 h4
          subst h1
          subst h3
          exact straightLineStep_frameOK g cur cond iv _ _ _ _ _ hsl
      | exprStmt v =>
        simp only [processStmtF] at hok
        cases hcall : v.isCall with
        | true =>
          rw [hcall] at hok
          rw [if_pos rfl] at hok
          cases hsl : straightLineStep g cur cond iv (.exprStmt v) (pl + 1)
              g.referenceVariables with
          | error e => rw [hsl] at hok; exact Except.noConfusion hok
          | ok r =>
            obtain ⟨r1, r2⟩ := r
            rw [hsl] at hok
            simp only [bind, Except.bind] at hok
            injection hok with h
            injection h with h1 h2
            injection h2 with h3 h4
            subst h1
            subst h3
            exact straightLineStep_frameOK g cur cond iv _ _ _ _ _ hsl
        | false =>
          rw [hcall] at hok
          rw [if_neg (by simp)] at hok
          injection hok with h
          injection h with h1 h2
          injection h2 with h3 h4
          subst h1
          subst h3
          exact ⟨frameOK_refl g cur, frontierOK_refl g cur⟩
      | passStmt =>
        simp only [processStmtF] at hok
        cases hsl : straightLineStep g cur cond iv .passStmt (pl + 1) [] with
        | error e => rw [hsl] at hok; exact Except.noConfusion hok
        | ok r =>
          obtain ⟨r1, r2⟩ := r
          rw [hsl] at hok
          simp only [bind, Except.bind] at hok
          injection hok with h
          injection h with h1 h2
          injection h2 with h3 h4
          subst h1
          subst h3
          exact straightLineStep_frameOK g cur cond iv _ _ _ _ _ hsl
      | ret v =>
        simp only [processStmtF] at hok
        cases hsl : straightLineStep g cur cond iv (.ret v) (pl + 1) [] with
        | error e => rw [hsl] at hok; exact Except.noConfusion hok
        | ok r =>
          obtain ⟨r1, r2⟩ := r
          rw [hsl] at hok
          simp only [bind, Except.bind] at hok
          injection hok with h
          injection h with h1 h2
          injection h2 with h3 h4
          subst h1
          subst h3
          obtain ⟨F, FF⟩ := straightLineStep_frameOK g cur cond iv _ _ _ _ _ hsl
          exact ⟨frameOK_trans F FF (frameOK_of_arrays rfl rfl r2), FF⟩
      | raiseStmt ty =>
        simp only [processStmtF] at hok
        cases hsl : straightLineStep g cur cond iv (.raiseStmt ty) (pl + 1) [] with
        | error e => rw [hsl] at hok; exact Except.noConfusion hok
        | ok r =>
          obtain ⟨r1, r2⟩ := r
          rw [hsl] at hok
          simp only [bind, Except.bind] at hok
          injection hok with h
          injection h with h1 h2
          injection h2 with h3 h4
          subst h1
          subst h3
          exact straightLineStep_frameOK g cur cond iv _ _ _ _ _ hsl
      | ifStmt test body orelse =>
        exact stmtFrame_if fuel ihP test body orelse g cur cond iv pl isLast
          g2 cur2 cnd2 pl2 hok
      | tryStmt body handlers =>
        exact stmtFrame_try fuel ihB ihH body handlers g cur cond iv pl isLast
          g2 cur2 cnd2 pl2 hok
      | forStmt target iter body =>
        exact stmtFrame_for fuel ihB target iter body g cur cond iv pl isLast
          g2 cur2 cnd2 pl2 hok
      | whileStmt test body =>
        exact stmtFrame_while fuel ihB test body g cur cond iv pl isLast
          g2 cur2 cnd2 pl2 hok
    have hPairs : PPairs (fuel + 1) := by
      intro pairs n g cur iv g2 fin hok
      cases pairs with
      | nil =>
        injection hok with h
        injection h with h1 h2
        subst h1
        subst h2
        exact ⟨frameOK_refl g cur, fun u hu => by simp at hu⟩
      | cons pair rest =>
        rw [processPairsF] at hok
        cases hr : processBlockF fuel pair.2 g (some cur) pair.1 iv with
        | error e => rw [hr] at hok; exact Except.noConfusion hok
        | ok r =>
          obtain ⟨rg, rfin⟩ := r
          rw [hr] at hok
          simp only [bind, Except.bind] at hok
          cases hfirst : pair.2.head? with
          | none => rw [hfirst] at hok; exact Except.noConfusion hok
          | some s0 =>
            rw [hfirst] at hok
            simp only [bind, Except.bind] at hok
            cases hrs : processPairsF fuel rest (n + 1)
                { rg with branchInitial := rg.branchInitial ++
                  [BranchEntry.conditional s0 n] } cur iv with
            | error e => rw [hrs] at hok; exact Except.noConfusion hok
            | ok rs =>
              obtain ⟨rsg, rsfin⟩ := rs
              rw [hrs] at hok
              injection hok with h
              injection h with h1 h2
              subst h1
              subst h2
              have B0 := ihB _ _ _ _ _ _ _ hr
              simp only [Option.getD_some] at B0
              obtain ⟨B, BF⟩ := B0
              obtain ⟨P, PF⟩ := ihP _ _ _ _ _ _ _ hrs
              have F1 : frameOK g rsg cur :=
                frameOK_trans (frameOK_trans B (frontierOK_refl _ _)
                  (frameOK_of_arrays rfl rfl cur)) (frontierOK_refl _ _) P
              refine ⟨F1, ?_⟩
              intro u hu
              rcases List.mem_append.mp hu with h | h
              · exact BF u h
              · rcases PF u h with h2 | h2
                · exact Or.inl h2
                · exact Or.inr (le_trans B.1 h2)
    have hHandlers : PHandlers (fuel + 1) := by
      intro hbs g cur iv g2 fin hok
      cases hbs with
      | nil =>
        injection hok with h
        injection h with h1 h2
        subst h1
        subst h2
        exact ⟨frameOK_refl g cur, fun u hu => by simp at hu⟩
      | cons hb rest =>
        rw [processHandlersF] at hok
        cases hr : processBlockF fuel hb g (some cur) [CondElem.str sTryCatchHandler] iv with
        | error e => rw [hr] at hok; exact Except.noConfusion hok
        | ok r =>
          obtain ⟨rg, rfin⟩ := r
          rw [hr] at hok
          simp only [bind, Except.bind] at hok
          cases hrs : processHandlersF fuel rest rg cur iv with
          | error e => rw [hrs] at hok; exact Except.noConfusion hok
          | ok rs =>
            obtain ⟨rsg, rsfin⟩ := rs
            rw [hrs] at hok
            injection hok with h
            injection h with h1 h2
            subst h1
            subst h2
            have B0 := ihB _ _ _ _ _ _ _ hr
            simp only [Option.getD_some] at B0
            obtain ⟨B, BF⟩ := B0
            obtain ⟨P, PF⟩ := ihH _ _ _ _ _ _ hrs
            refine ⟨frameOK_trans B (frontierOK_refl _ _) P, ?_⟩
            intro u hu
            rcases List.mem_append.mp hu with h | h
            · exact BF u h
            · rcases PF u h with h2 | h2
              · exact Or.inl h2
              · exact Or.inr (le_trans B.1 h2)
    exact ⟨hBlock, hGo, hStmt, hPairs, hHandlers⟩

/-- A consuming step followed by any framed run on its fresh frontier is
still a consuming step. -/
theorem consumeCompose {g g1 g2 : CFG} {v : Nat} {cur1 cur2 : List Nat}
    (hv : v < g.vertexArr.length)
    (hlen : g.vertexArr.length ≤ g1.vertexArr.length)
    (hstmt : Consumed g g1 v cur1)
    (hframe : frameOK g1 g2 cur1) (hfront : frontierOK g1 cur1 cur2) :
    Consumed g g2 v cur2 := by
  obtain ⟨⟨e, t, h1, h2, h3, h4, h5, h6, h7⟩, hfr⟩ := hstmt
  obtain ⟨l1, l2, ef, nf, of⟩ := hframe
  have hnot : v ∉ cur1 := by
    intro hc
    have := hfr v hc
    omega
  have so := of v (lt_of_lt_of_le hv hlen) hnot
  refine ⟨⟨e, t, ?_, sameStaticFields_trans so.2 h2, h3, by omega, ?_, ?_, h7⟩, ?_⟩
  · rw [so.1, h1]
  · rw [ef e h4]
    exact h5
  · rw [ef e h4]
    exact h6
  · intro u hu
    rcases hfront u hu with h | h
    · exact hfr u h
    · omega

/-- A straight-line step on the one-vertex frontier is a consuming step. -/
theorem straightLineStep_consumed (g : CFG) (v : Nat) (c : List CondElem)
    (iv : List String) (entry : Stmt) (pl : Nat) (refs : List String)
    (g4 : CFG) (out : List Nat)
    (hok : straightLineStep g [v] c iv entry pl refs = .ok (g4, out))
    (hv : v < g.vertexArr.length) :
    Consumed g g4 v out := by
  obtain ⟨h1, h2, h3, h4, h5, h6⟩ := straightLineStep_frame g [v] c iv entry pl refs g4 out hok
  obtain ⟨o1, o2, o3⟩ := straightLineStep_one g v c iv entry pl refs g4 out hok hv
  refine ⟨⟨g.edgePool.length, g.vertexArr.length, o1, h5 v hv, le_rfl, ?_, ?_, o3, le_rfl⟩, ?_⟩
  · simp at h3
    omega
  · rw [o2]
    rfl
  · intro u hu
    rw [h1] at hu
    simp at hu
    subst hu
    exact le_rfl

/-- The conditional case of the consuming property: the frontier vertex
gains exactly the control-flow edge into the conditional head. -/
theorem stmtConsume_if (fuel : Nat)
    (test : AExpr) (body orelse : List Stmt) (g : CFG) (v : Nat)
    (condition : List CondElem) (iv : List String) (pl : Nat) (isLast : Bool)
    (g2 : CFG) (cur2 : List Nat) (cnd2 : List CondElem) (pl2 : Nat)
    (hok : processStmtF (fuel + 1) (.ifStmt test body orelse) g [v] condition iv pl isLast =
      .ok (g2, cur2, cnd2, pl2))
    (hv : v < g.vertexArr.length) :
    Consumed g g2 v cur2 := by
  obtain ⟨PB, PG, PS, PP, PH⟩ := builderFrame fuel
  simp only [processStmtF] at hok
  cases hpe : collectPairsF fuel orelse [CondElem.lnotE test] with
  | error e => rw [hpe] at hok; exact Except.noConfusion hok
  | ok pe =>
    obtain ⟨pe1, pe2⟩ := pe
    rw [hpe] at hok
    simp only [bind, Except.bind] at hok
    set gb : CFG := if (!isLast) = true then
      { g with branchInitial := g.branchInitial ++
        [BranchEntry.postConditional (Stmt.ifStmt test body orelse)] } else g with hgb
    set G1 : CFG := (gb.pushVertex { nameChanged := [some nmConditional],
                                     structureObj := some (Stmt.ifStmt test body orelse) }).1
      with hG1
    set hd : Nat := (gb.pushVertex { nameChanged := [some nmConditional],
                                     structureObj := some (Stmt.ifStmt test body orelse) }).2
      with hhd
    set G2 : CFG := redirectAll G1 [v] nmConditional hd with hG2
    cases hr : processPairsF fuel (([CondElem.expr test], body) :: pe1) 0 G2 [hd] iv with
    | error e => rw [hr] at hok; exact Except.noConfusion hok
    | ok r =>
      obtain ⟨rg, rfin⟩ := r
      rw [hr] at hok
      injection hok with hok1
      injection hok1 with hok2 hok3
      injection hok3 with hok4 hok5
      subst hok2
      subst hok4
      set T1 : CFG × List Nat := if (!pe2) = true then
        ({ rg with branchInitial := rg.branchInitial ++
                     [BranchEntry.conditionalNoElse (Stmt.ifStmt test body orelse)
                       (([CondElem.expr test], body) :: pe1).length] }, rfin ++ [hd])
        else (rg, rfin) with hT1
      have hbar : gb.vertexArr = g.vertexArr ∧ gb.edgePool = g.edgePool := by
        rw [hgb]
        constructor <;> (split <;> rfl)
      have hhd2 : hd = g.vertexArr.length := by
        rw [hhd, (pushVertex_spec gb _).1, hbar.1]
      have hlenG1 : G1.vertexArr.length = g.vertexArr.length + 1 := by
        rw [hG1, (pushVertex_spec gb _).2.1, hbar.1]
      have hvG1 : v < G1.vertexArr.length := by omega
      have hvgb : v < gb.vertexArr.length := by
        rw [hbar.1]
        exact hv
      have hGv : G1.getVertex v = g.getVertex v := by
        rw [hG1, (pushVertex_spec gb _).2.2.2.1 v hvgb]
        unfold CFG.getVertex
        rw [hbar.1]
      have hGe : G1.edgePool.length = g.edgePool.length := by
        have h := (pushVertex_spec gb { nameChanged := [some nmConditional], structureObj := some (Stmt.ifStmt test body orelse) }).2.2.2.2
        rw [hG1, congrArg List.length h, congrArg List.length hbar.2]
      obtain ⟨ro1, ro2⟩ := redirect_one G1 v nmConditional hd hvG1
      rw [← hG2] at ro1 ro2
      obtain ⟨rs1, rs2, rs3, rs4, rs5⟩ := redirectAll_spec [v] G1 nmConditional hd
      have hlenG2 : g.vertexArr.length ≤ G2.vertexArr.length := by
        rw [hG2, rs1]
        omega
      have hlee : G1.edgePool.length < G2.edgePool.length := by
        rw [hG2, rs2]
        simp
      have C1 : Consumed g G2 v [hd] := by
        refine ⟨⟨G1.edgePool.length, hd, ?_, ?_, le_of_eq hGe.symm, hlee, ?_, ?_, ?_⟩, ?_⟩
        · rw [ro1, hGv, hGe]
        · have h := rs4 v
          rw [← hG2] at h
          refine sameStaticFields_trans h ?_
          rw [hGv]
          exact sameStaticFields_refl _
        · rw [ro2]
          show Instr.isLoopSkip (Instr.str sControlFlow) = false
          decide
        · rw [ro2]
        · exact le_of_eq hhd2.symm
        · intro u hu
          simp at hu
          subst hu
          exact le_of_eq hhd2.symm
      obtain ⟨Fr, FrF⟩ := PP _ _ _ _ _ _ _ hr
      have C2 : Consumed g rg v rfin := consumeCompose hv hlenG2 C1 Fr FrF
      have hlenrg : g.vertexArr.length ≤ rg.vertexArr.length := le_trans hlenG2 Fr.1
      have hT1v : T1.1.vertexArr = rg.vertexArr := by
        rw [hT1]
        split <;> rfl
      have hT1e : T1.1.edgePool = rg.edgePool := by
        rw [hT1]
        split <;> rfl
      have hT2 : ∀ u ∈ T1.2, u ∈ rfin ∨ u = hd := by
        intro u hu
        rw [hT1] at hu
        split at hu
        · rcases List.mem_append.mp hu with h | h
          · exact Or.inl h
          · simp at h
            exact Or.inr h
        · exact Or.inl hu
      have C3a : Consumed g T1.1 v rfin :=
        consumeCompose hv hlenrg C2 (frameOK_of_arrays hT1v hT1e rfin)
          (frontierOK_refl rg rfin)
      have C3 : Consumed g T1.1 v (hd :: T1.2) := by
        refine ⟨C3a.1, ?_⟩
        intro u hu
        rcases List.mem_cons.mp hu with h | h
        · subst h
          exact le_of_eq hhd2.symm
        · rcases hT2 u h with h2 | h2
          · exact C2.2 u h2
          · subst h2
            exact le_of_eq hhd2.symm
      obtain ⟨f1, f2, f3, f4, f5, f6⟩ := finishBranches_spec T1.1 hd T1.2 false
      have Flast : frameOK T1.1 (finishBranches T1.1 hd T1.2 false).1 (hd :: T1.2) := by
        refine ⟨f2, f3, f4, f5, ?_⟩
        intro i hi hc
        have h1 : i ∉ T1.2 := fun hcc => hc (by simp [hcc])
        have h2 : i ≠ hd := fun hcc => hc (by simp [hcc])
        exact f6 i hi h1 h2
      have FlastF : frontierOK T1.1 (hd :: T1.2) (finishBranches T1.1 hd T1.2 false).2 := by
        intro u hu
        rcases f1 with h | h
        · rw [h] at hu
          simp at hu
        · rw [h] at hu
          simp at hu
          subst hu
          exact Or.inr le_rfl
      exact consumeCompose hv (le_trans hlenrg (le_of_eq
        (congrArg List.length hT1v).symm)) C3 Flast FlastF

/-- The try-catch case of the consuming property: the frontier vertex
gains exactly the control-flow edge into the try-catch head. -/
theorem stmtConsume_try (fuel : Nat)
    (body : List Stmt) (handlers : List (List Stmt)) (g : CFG) (v : Nat)
    (condition : List CondElem) (iv : List String) (pl : Nat) (isLast : Bool)
    (g2 : CFG) (cur2 : List Nat) (cnd2 : List CondElem) (pl2 : Nat)
    (hok : processStmtF (fuel + 1) (.tryStmt body handlers) g [v] condition iv pl isLast =
      .ok (g2, cur2, cnd2, pl2))
    (hv : v < g.vertexArr.length) :
    Consumed g g2 v cur2 := by
  obtain ⟨PB, PG, PS, PP, PH⟩ := builderFrame fuel
  simp only [processStmtF] at hok
  set gb : CFG := if (!isLast) = true then
    { g with branchInitial := g.branchInitial ++
      [BranchEntry.postTryCatch (Stmt.tryStmt body handlers)] } else g with hgb
  set G1 : CFG := (gb.pushVertex { nameChanged := [some nmTryCatch] }).1 with hG1
  set hd : Nat := (gb.pushVertex { nameChanged := [some nmTryCatch] }).2 with hhd
  set G2 : CFG := redirectAll G1 [v] nmTryCatch hd with hG2
  cases hlog : logTryEntries G2 body handlers with
  | error e => rw [hlog] at hok; exact Except.noConfusion hok
  | ok gl =>
    rw [hlog] at hok
    simp only [bind, Except.bind] at hok
    cases hm : processBlockF fuel body gl (some [hd]) [CondElem.str sTryCatchMain] iv with
    | error e => rw [hm] at hok; exact Except.noConfusion hok
    | ok rMain =>
      obtain ⟨mg, mfin⟩ := rMain
      rw [hm] at hok
      simp only [bind, Except.bind] at hok
      cases hh : processHandlersF fuel handlers mg [hd] iv with
      | error e => rw [hh] at hok; exact Except.noConfusion hok
      | ok rH =>
        obtain ⟨hg, hfin⟩ := rH
        rw [hh] at hok
        injection hok with hok1
        injection hok1 with hok2 hok3
        injection hok3 with hok4 hok5
        subst hok2
        subst hok4
        have hbar : gb.vertexArr = g.vertexArr ∧ gb.edgePool = g.edgePool := by
          rw [hgb]
          constructor <;> (split <;> rfl)
        have hhd2 : hd = g.vertexArr.length := by
          rw [hhd, (pushVertex_spec gb _).1, hbar.1]
        have hlenG1 : G1.vertexArr.length = g.vertexArr.length + 1 := by
          rw [hG1, (pushVertex_spec gb _).2.1, hbar.1]
        have hvG1 : v < G1.vertexArr.length := by omega
        have hvgb : v < gb.vertexArr.length := by
          rw [hbar.1]
          exact hv
        have hGv : G1.getVertex v = g.getVertex v := by
          rw [hG1, (pushVertex_spec gb _).2.2.2.1 v hvgb]
          unfold CFG.getVertex
          rw [hbar.1]
        have hGe : G1.edgePool.length = g.edgePool.length := by
          have h := (pushVertex_spec gb { nameChanged := [some nmTryCatch] }).2.2.2.2
          rw [hG1, congrArg List.length h, congrArg List.length hbar.2]
        obtain ⟨ro1, ro2⟩ := redirect_one G1 v nmTryCatch hd hvG1
        rw [← hG2] at ro1 ro2
        obtain ⟨rs1, rs2, rs3, rs4, rs5⟩ := redirectAll_spec [v] G1 nmTryCatch hd
        have hlenG2 : g.vertexArr.length ≤ G2.vertexArr.length := by
          rw [hG2, rs1]
          omega
        have hlee : G1.edgePool.length < G2.edgePool.length := by
          rw [hG2, rs2]
          simp
        have C1 : Consumed g G2 v [hd] := by
          refine ⟨⟨G1.edgePool.length, hd, ?_, ?_, le_of_eq hGe.symm, hlee, ?_, ?_, ?_⟩, ?_⟩
          · rw [ro1, hGv, hGe]
          · have h := rs4 v
            rw [← hG2] at h
            refine sameStaticFields_trans h ?_
            rw [hGv]
            exact sameStaticFields_refl _
          · rw [ro2]
            show Instr.isLoopSkip (Instr.str sControlFlow) = false
            decide
          · rw [ro2]
          · exact le_of_eq hhd2.symm
          · intro u hu
            simp at hu
            subst hu
            exact le_of_eq hhd2.symm
        obtain ⟨hl1, hl2, hl3, hl4⟩ := logTryEntries_arrays G2 body handlers gl hlog
        have C1b : Consumed g gl v [hd] :=
          consumeCompose hv hlenG2 C1 (frameOK_of_arrays hl1 hl2 [hd])
            (frontierOK_refl G2 [hd])
        have hlengl : g.vertexArr.length ≤ gl.vertexArr.length := by
          rw [congrArg List.length hl1]
          exact hlenG2
        have B0 := PB _ _ _ _ _ _ _ hm
        simp only [Option.getD_some] at B0
        obtain ⟨B, BF⟩ := B0
        have C2 : Consumed g mg v mfin := consumeCompose hv hlengl C1b B BF
        obtain ⟨C, CF⟩ := PH _ _ _ _ _ _ hh
        have hlenmg : g.vertexArr.length ≤ mg.vertexArr.length := le_trans hlengl B.1
        have C2h : Consumed g mg v [hd] := by
          refine ⟨C2.1, ?_⟩
          intro u hu
          simp at hu
          subst hu
          exact le_of_eq hhd2.symm
        have C3a : Consumed g hg v hfin := consumeCompose hv hlenmg C2h C CF
        have C3 : Consumed g hg v (hd :: (mfin ++ hfin)) := by
          refine ⟨C3a.1, ?_⟩
          intro u hu
          rcases List.mem_cons.mp hu with h | h
          · subst h
            exact le_of_eq hhd2.symm
          · rcases List.mem_append.mp h with h2 | h2
            · exact C2.2 u h2
            · exact C3a.2 u h2
        obtain ⟨f1, f2, f3, f4, f5, f6⟩ := finishBranches_spec hg hd (mfin ++ hfin) true
        have Flast : frameOK hg (finishBranches hg hd (mfin ++ hfin) true).1
            (hd :: (mfin ++ hfin)) := by
          refine ⟨f2, f3, f4, f5, ?_⟩
          intro i hi hc
          have h1 : i ∉ mfin ++ hfin := fun hcc =>
            hc (by simp [List.mem_append] at hcc ⊢; tauto)
          have h2 : i ≠ hd := fun hcc => hc (by simp [hcc])
          exact f6 i hi h1 h2
        have FlastF : frontierOK hg (hd :: (mfin ++ hfin))
            (finishBranches hg hd (mfin ++ hfin) true).2 := by
          intro u hu
          rcases f1 with h | h
          · rw [h] at hu
            simp at hu
          · rw [h] at hu
            simp at hu
            subst hu
            exact Or.inr le_rfl
        exact consumeCompose hv (le_trans hlenmg C.1) C3 Flast FlastF

/-- The for-loop case of the consuming property: the frontier vertex gains
exactly the loop-entry edge into the synthetic loop vertex. -/
theorem stmtConsume_for (fuel : Nat)
    (target iter : AExpr) (body : List Stmt) (g : CFG) (v : Nat)
    (condition : List CondElem) (iv : List String) (pl : Nat) (isLast : Bool)
    (g2 : CFG) (cur2 : List Nat) (cnd2 : List CondElem) (pl2 : Nat)
    (hok : processStmtF (fuel + 1) (.forStmt target iter body) g [v] condition iv pl isLast =
      .ok (g2, cur2, cnd2, pl2))
    (hv : v < g.vertexArr.length) :
    Consumed g g2 v cur2 := by
  obtain ⟨PB, PG, PS, PP, PH⟩ := builderFrame fuel
  simp only [processStmtF] at hok
  set G1 : CFG := (g.pushVertex { nameChanged := [some nmLoop] }).1 with hG1
  set pre : Nat := (g.pushVertex { nameChanged := [some nmLoop] }).2 with hpredef
  set G2 : CFG := (G1.pushVertex { nameChanged := [some nmPostLoop] }).1 with hG2
  set post : Nat := (G1.pushVertex { nameChanged := [some nmPostLoop] }).2 with hpostdef
  set G3 : CFG := linkToLoopAll G2 [v] iter pre with hG3
  cases hiv : additionalInputVariables target with
  | error e => rw [hiv] at hok; exact Except.noConfusion hok
  | ok addIV =>
    rw [hiv] at hok
    simp only [bind, Except.bind] at hok
    cases hb : processBlockF fuel body G3 (some [pre]) [CondElem.str sEnterLoop]
        (iv ++ addIV) with
    | error e => rw [hb] at hok; exact Except.noConfusion hok
    | ok rBody =>
      obtain ⟨bg, bfin⟩ := rBody
      rw [hb] at hok
      simp only [bind, Except.bind] at hok
      cases hfirst : body.head? with
      | none => rw [hfirst] at hok; exact Except.noConfusion hok
      | some s0 =>
        rw [hfirst] at hok
        simp only [bind, Except.bind] at hok
        injection hok with hok1
        injection hok1 with hok2 hok3
        injection hok3 with hok4 hok5
        subst hok2
        subst hok4
        set G4 : CFG := { bg with branchInitial := bg.branchInitial ++
          [BranchEntry.loop s0 sEnterLoop (Stmt.forStmt target iter body) sEndLoop] }
          with hG4
        set G5 : CFG := addLoopBackEdges G4 bfin [pre] post with hG5
        have hpre : pre = g.vertexArr.length := (pushVertex_spec g _).1
        have hlenG1 : G1.vertexArr.length = g.vertexArr.length + 1 :=
          (pushVertex_spec g _).2.1
        have hpost : post = g.vertexArr.length + 1 := by
          rw [hpostdef, (pushVertex_spec G1 _).1, hlenG1]
        have hlenG2 : G2.vertexArr.length = g.vertexArr.length + 2 := by
          rw [hG2, (pushVertex_spec G1 _).2.1, hlenG1]
        have hvG2 : v < G2.vertexArr.length := by omega
        have hG2v : G2.getVertex v = g.getVertex v := by
          rw [hG2, (pushVertex_spec G1 _).2.2.2.1 v (by omega),
            hG1, (pushVertex_spec g _).2.2.2.1 v hv]
        have hG2e : G2.edgePool.length = g.edgePool.length := by
          have h1 := (pushVertex_spec G1 { nameChanged := [some nmPostLoop] }).2.2.2.2
          have h2 := (pushVertex_spec g { nameChanged := [some nmLoop] }).2.2.2.2
          rw [hG2, congrArg List.length h1, hG1, congrArg List.length h2]
        obtain ⟨lo1, lo2⟩ := linkLoop_one G2 v iter pre hvG2
        rw [← hG3] at lo1 lo2
        obtain ⟨ls1, ls2, ls3, ls4, ls5⟩ := linkToLoopAll_spec [v] G2 iter pre
        have hlenG3 : G3.vertexArr.length = g.vertexArr.length + 2 := by
          rw [hG3, ls1, hlenG2]
        have hleeG3 : G2.edgePool.length < G3.edgePool.length := by
          rw [hG3, ls2]
          simp
        have C1 : Consumed g G3 v [pre] := by
          refine ⟨⟨G2.edgePool.length, pre, ?_, ?_, le_of_eq hG2e.symm, ?_, ?_, ?_, ?_⟩, ?_⟩
          · rw [lo1, hG2v, hG2e]
          · have h := ls4 v
            rw [← hG3] at h
            refine sameStaticFields_trans h ?_
            rw [hG2v]
            exact sameStaticFields_refl _
          · exact hleeG3
          · rw [lo2]
            show Instr.isLoopSkip (Instr.str sLoop) = false
            decide
          · rw [lo2]
          · exact le_of_eq hpre.symm
          · intro u hu
            simp at hu
            subst hu
            exact le_of_eq hpre.symm
        have B0 := PB _ _ _ _ _ _ _ hb
        simp only [Option.getD_some] at B0
        obtain ⟨B, BF⟩ := B0
        have hlen3 : g.vertexArr.length ≤ G3.vertexArr.length := by omega
        have C2 : Consumed g bg v bfin := consumeCompose hv hlen3 C1 B BF
        have C3 : Consumed g G4 v bfin :=
          consumeCompose hv (le_trans hlen3 B.1) C2 (frameOK_of_arrays rfl rfl bfin)
            (frontierOK_refl bg bfin)
        have hlen4 : g.vertexArr.length ≤ G4.vertexArr.length := le_trans hlen3 B.1
        have C4 : Consumed g G5 v bfin :=
          consumeCompose hv hlen4 C3
            (addLoopBackEdges_frameOK G4 bfin [pre] post bfin (fun i _ h => h))
            (frontierOK_refl G4 bfin)
        obtain ⟨⟨e, t, c1, c2, c3, c4, c5, c6, c7⟩, cf⟩ := C4
        obtain ⟨hn1, hn2, hn3, hn4, hn5, hn6⟩ :=
          newEdgeRaw_spec G5 (.lnotE iter) (.str sLoopSkip) .selfInstr []
        obtain ⟨ha1, ha2, ha3, ha4, ha5, ha6⟩ :=
          addOutgoing_spec (G5.newEdgeRaw (.lnotE iter) (.str sLoopSkip) .selfInstr []).1 pre
            (G5.newEdgeRaw (.lnotE iter) (.str sLoopSkip) .selfInstr []).2
        obtain ⟨hs1, hs2, hs3, hs4, hs5, hs6⟩ :=
          setTargetState_spec ((G5.newEdgeRaw (.lnotE iter) (.str sLoopSkip)
            .selfInstr []).1.addOutgoing pre
            (G5.newEdgeRaw (.lnotE iter) (.str sLoopSkip) .selfInstr []).2)
            (G5.newEdgeRaw (.lnotE iter) (.str sLoopSkip) .selfInstr []).2 post
        have hvpre : v ≠ pre := by
          rw [hpre]
          omega
        have hvpost : v ≠ post := by
          rw [hpost]
          omega
        have hne : e ≠ (G5.newEdgeRaw (.lnotE iter) (.str sLoopSkip) .selfInstr []).2 := by
          rw [hn1]
          omega
        refine ⟨⟨e, t, ?_, ?_, c3, ?_, ?_, ?_, c7⟩, ?_⟩
        · rw [hs2 v hvpost, ha1 v hvpre, hn4 v, c1]
        · rw [hs2 v hvpost, ha1 v hvpre, hn4 v]
          exact c2
        · rw [hs6, ha6, hn2]
          omega
        · rw [hs3 e hne, ha3 e hne, hn5 e c4]
          exact c5
        · rw [hs3 e hne, ha3 e hne, hn5 e c4]
          exact c6
        · intro u hu
          simp at hu
          subst hu
          rw [hpost]
          omega

/-- One consuming statement followed by the rest of the block is a
consuming run of the block. -/
theorem goConsumeStep (fuel : Nat) (iQS : QStmt fuel) (s : Stmt) (rest : List Stmt)
    (g : CFG) (v : Nat) (cond : List CondElem) (iv : List String) (pl : Nat)
    (g2 rg : CFG) (cur2 rcur : List Nat) (rcnd : List CondElem) (rpl : Nat)
    (hs : processStmtF fuel s g [v] cond iv pl rest.isEmpty = .ok (rg, rcur, rcnd, rpl))
    (hok : blockGoF fuel rest rg rcur rcnd iv rpl = .ok (g2, cur2))
    (hwf : wfStmt s = true) (hconss : consumesStmt s = true)
    (hv : v < g.vertexArr.length) :
    Consumed g g2 v cur2 := by
  obtain ⟨PB, PG, PS, PP, PH⟩ := builderFrame fuel
  have S := iQS s g v cond iv pl rest.isEmpty rg rcur rcnd rpl hwf hconss hv hs
  obtain ⟨SFr, _⟩ := PS s g [v] cond iv pl rest.isEmpty rg rcur rcnd rpl hs
  obtain ⟨GFr, GFf⟩ := PG rest rg rcur rcnd iv rpl g2 cur2 hok
  exact consumeCompose hv SFr.1 S GFr GFf

/-- The consuming suite: on a one-vertex frontier, a well-formed consuming
block attaches exactly one non-loop-skip edge to the frontier vertex and
moves the frontier to fresh vertices. -/
theorem builderConsume : ∀ fuel, QBlock fuel ∧ QGo fuel ∧ QStmt fuel := by
  intro fuel
  induction fuel with
  | zero =>
    refine ⟨?_, ?_, ?_⟩
    · intro block g v cond iv g2 cur2 _ _ _ hok
      exact Except.noConfusion hok
    · intro block g v cond iv pl g2 cur2 _ hcons _ hok
      cases block with
      | nil => exact absurd hcons (by decide)
      | cons s rest => exact Except.noConfusion hok
    · intro s g v cond iv pl isLast g2 cur2 cnd2 pl2 _ _ _ hok
      exact Except.noConfusion hok
  | succ fuel ih =>
    obtain ⟨iQB, iQG, iQS⟩ := ih
    have hQGo : QGo (fuel + 1) := by
      intro block g v cond iv pl g2 cur2 hwf hcons hv hok
      cases block with
      | nil => exact absurd hcons (by decide)
      | cons s rest =>
        rw [blockGoF] at hok
        cases hs : processStmtF fuel s g [v] cond iv pl rest.isEmpty with
        | error e => rw [hs] at hok; exact Except.noConfusion hok
        | ok r =>
          obtain ⟨rg, rcur, rcnd, rpl⟩ := r
          rw [hs] at hok
          simp only [bind, Except.bind] at hok
          simp only [wfBlock, Bool.and_eq_true] at hwf
          cases s with
          | exprStmt v2 =>
            cases hcall : v2.isCall with
            | true =>
              exact goConsumeStep fuel iQS _ rest g v cond iv pl g2 rg cur2 rcur
                rcnd rpl hs hok hwf.1 (by simp [consumesStmt, hcall]) hv
            | false =>
              cases fuel with
              | zero => exact Except.noConfusion hs
              | succ fu =>
                simp only [processStmtF, hcall] at hs
                rw [if_neg (by simp)] at hs
                injection hs with h
                injection h with h1 h2
                injection h2 with h3 h4
                injection h4 with h5 h6
                subst h1
                subst h3
                subst h5
                subst h6
                simp only [consumesBlock, hcall, if_false] at hcons
                exact iQG rest g v cond iv pl g2 cur2 hwf.2 hcons hv hok
          | assign targets value =>
            exact goConsumeStep fuel iQS _ rest g v cond iv pl g2 rg cur2 rcur
              rcnd rpl hs hok hwf.1 rfl hv
          | passStmt =>
            exact goConsumeStep fuel iQS _ rest g v cond iv pl g2 rg cur2 rcur
              rcnd rpl hs hok hwf.1 rfl hv
          | ret v2 =>
            exact goConsumeStep fuel iQS _ rest g v cond iv pl g2 rg cur2 rcur
              rcnd rpl hs hok hwf.1 rfl hv
          | raiseStmt ty =>
            exact goConsumeStep fuel iQS _ rest g v cond iv pl g2 rg cur2 rcur
              rcnd rpl hs hok hwf.1 rfl hv
          | ifStmt test body orelse =>
            exact goConsumeStep fuel iQS _ rest g v cond iv pl g2 rg cur2 rcur
              rcnd rpl hs hok hwf.1 rfl hv
          | tryStmt body handlers =>
            exact goConsumeStep fuel iQS _ rest g v cond iv pl g2 rg cur2 rcur
              rcnd rpl hs hok hwf.1 rfl hv
          | forStmt target iter body =>
            exact goConsumeStep fuel iQS _ rest g v cond iv pl g2 rg cur2 rcur
              rcnd rpl hs hok hwf.1 rfl hv
          | whileStmt test body =>
            have hconss : consumesStmt (.whileStmt test body) = true := by
              simpa [consumesBlock] using hcons
            exact goConsumeStep fuel iQS _ rest g v cond iv pl g2 rg cur2 rcur
              rcnd rpl hs hok hwf.1 hconss hv
    have hQBlock : QBlock (fuel + 1) := by
      intro block g v cond iv g2 cur2 hwf hcons hv hok
      exact iQG block g v cond iv 0 g2 cur2 hwf hcons hv hok
    have hQStmt : QStmt (fuel + 1) := by
      intro s g v cond iv pl isLast g2 cur2 cnd2 pl2 hwf hcons hv hok
      cases s with
      | assign targets value =>
        simp only [processStmtF] at hok
        cases hsl : straightLineStep g [v] cond iv (.assign targets value) (pl + 1)
            g.referenceVariables with
        | error e => rw [hsl] at hok; exact Except.noConfusion hok
        | ok r =>
          obtain ⟨r1, r2⟩ := r
          rw [hsl] at hok
          simp only [bind, Except.bind] at hok
          injection hok with h
          injection h with h1 h2
          injection h2 with h3 h4
          subst h1
          subst h3
          exact straightLineStep_consumed g v cond iv _ _ _ _ _ hsl hv
      | exprStmt v2 =>
        have hcall : v2.isCall = true := hcons
        simp only [processStmtF, hcall] at hok
        rw [if_pos trivial] at hok
        cases hsl : straightLineStep g [v] cond iv (.exprStmt v2) (pl + 1)
            g.referenceVariables with
        | error e => rw [hsl] at hok; exact Except.noConfusion hok
        | ok r =>
          obtain ⟨r1, r2⟩ := r
          rw [hsl] at hok
          simp only [bind, Except.bind] at hok
          injection hok with h
          injection h with h1 h2
          injection h2 with h3 h4
          subst h1
          subst h3
          exact straightLineStep_consumed g v cond iv _ _ _ _ _ hsl hv
      | passStmt =>
        simp only [processStmtF] at hok
        cases hsl : straightLineStep g [v] cond iv .passStmt (pl + 1) [] with
        | error e => rw [hsl] at hok; exact Except.noConfusion hok
        | ok r =>
          obtain ⟨r1, r2⟩ := r
          rw [hsl] at hok
          simp only [bind, Except.bind] at hok
          injection hok with h
          injection h with h1 h2
          injection h2 with h3 h4
          subst h1
          subst h3
          exact straightLineStep_consumed g v cond iv _ _ _ _ _ hsl hv
      | ret v2 =>
        simp only [processStmtF] at hok
        cases hsl : straightLineStep g [v] cond iv (.ret v2) (pl + 1) [] with
        | error e => rw [hsl] at hok; exact Except.noConfusion hok
        | ok r =>
          obtain ⟨r1, r2⟩ := r
          rw [hsl] at hok
          simp only [bind, Except.bind] at hok
          injection hok with h
          injection h with h1 h2
          injection h2 with h3 h4
          subst h1
          subst h3
          have C := straightLineStep_consumed g v cond iv _ _ _ _ _ hsl hv
          have hlen : g.vertexArr.length ≤ r1.vertexArr.length := by
            have := (straightLineStep_frame g [v] cond iv (.ret v2) (pl + 1) [] r1 r2 hsl).2.1
            omega
          exact consumeCompose hv hlen C (frameOK_of_arrays rfl rfl r2)
            (frontierOK_refl r1 r2)
      | raiseStmt ty =>
        simp only [processStmtF] at hok
        cases hsl : straightLineStep g [v] cond iv (.raiseStmt ty) (pl + 1) [] with
        | error e => rw [hsl] at hok; exact Except.noConfusion hok
        | ok r =>
          obtain ⟨r1, r2⟩ := r
          rw [hsl] at hok
          simp only [bind, Except.bind] at hok
          injection hok with h
          injection h with h1 h2
          injection h2 with h3 h4
          subst h1
          subst h3
          exact straightLineStep_consumed g v cond iv _ _ _ _ _ hsl hv
      | ifStmt test body orelse =>
        exact stmtConsume_if fuel test body orelse g v cond iv pl isLast
          g2 cur2 cnd2 pl2 hok hv
      | tryStmt body handlers =>
        exact stmtConsume_try fuel body handlers g v cond iv pl isLast
          g2 cur2 cnd2 pl2 hok hv
      | forStmt target iter body =>
        exact stmtConsume_for fuel target iter body g v cond iv pl isLast
          g2 cur2 cnd2 pl2 hok hv
      | whileStmt test body =>
        have hconsb : consumesBlock body = true := hcons
        have hwfb : wfBlock body = true := by
          simp only [wfStmt, Bool.and_eq_true] at hwf
          exact hwf.2
        simp only [processStmtF] at hok
        cases hb : processBlockF fuel body g (some [v]) [CondElem.str sWhile] iv with
        | error e => rw [hb] at hok; exact Except.noConfusion hok
        | ok rBody =>
          obtain ⟨bg, bfin⟩ := rBody
          rw [hb] at hok
          simp only [bind, Except.bind] at hok
          injection hok with h
          injection h with h1 h2
          injection h2 with h3 h4
          subst h1
          subst h3
          have B := iQB body g v [CondElem.str sWhile] iv bg bfin hwfb hconsb hv hb
          obtain ⟨PB, PG, PS, PP, PH⟩ := builderFrame fuel
          have B0 := PB _ _ _ _ _ _ _ hb
          simp only [Option.getD_some] at B0
          have hlen : g.vertexArr.length ≤ bg.vertexArr.length := B0.1.1
          exact consumeCompose hv hlen B
            (addWhileBackEdges_frameOK bg bfin [v] bfin (fun i _ h => h))
            (frontierOK_refl bg bfin)
    exact ⟨hQBlock, hQGo, hQStmt⟩

/-- Processing one `for` statement: the synthetic loop vertex (the first
fresh index) ends with exactly two outgoing edges — the loop-entry edge of
the body, not a loop-skip, targeting a body vertex, and the loop-skip
edge targeting the synthetic post-loop vertex; the new frontier is the
post-loop vertex. -/
theorem forStmt_loopVertex (fuel : Nat)
    (target iter : AExpr) (body : List Stmt) (g : CFG) (vs : List Nat)
    (condition : List CondElem) (iv : List String) (pl : Nat) (isLast : Bool)
    (rg : CFG) (rcur : List Nat) (rcnd : List CondElem) (rpl : Nat)
    (hok : processStmtF (fuel + 1) (.forStmt target iter body) g vs condition iv pl isLast =
      .ok (rg, rcur, rcnd, rpl))
    (hwfb : wfBlock body = true) (hconsb : consumesBlock body = true)
    (hvs : ∀ u ∈ vs, u < g.vertexArr.length) :
    rcur = [g.vertexArr.length + 1] ∧
    g.vertexArr.length + 1 < rg.vertexArr.length ∧
    (rg.getVertex g.vertexArr.length).nameChanged = [some nmLoop] ∧
    (rg.getVertex (g.vertexArr.length + 1)).nameChanged = [some nmPostLoop] ∧
    (∃ e1 se, (rg.getVertex g.vertexArr.length).edges = [e1, se] ∧
      e1 < rg.edgePool.length ∧ se < rg.edgePool.length ∧
      (rg.getEdge se).instruction.isLoopSkip = true ∧
      (rg.getEdge se).target = some (g.vertexArr.length + 1) ∧
      (rg.getEdge e1).instruction.isLoopSkip = false ∧
      (∃ t, (rg.getEdge e1).target = some t ∧ g.vertexArr.length + 2 ≤ t)) := by
  obtain ⟨PB, PG, PS, PP, PH⟩ := builderFrame fuel
  obtain ⟨QB, QG, QS⟩ := builderConsume fuel
  simp only [processStmtF] at hok
  set G1 : CFG := (g.pushVertex { nameChanged := [some nmLoop] }).1 with hG1
  set pre : Nat := (g.pushVertex { nameChanged := [some nmLoop] }).2 with hpredef
  set G2 : CFG := (G1.pushVertex { nameChanged := [some nmPostLoop] }).1 with hG2
  set post : Nat := (G1.pushVertex { nameChanged := [some nmPostLoop] }).2 with hpostdef
  set G3 : CFG := linkToLoopAll G2 vs iter pre with hG3
  cases hiv : additionalInputVariables target with
  | error e => rw [hiv] at hok; exact Except.noConfusion hok
  | ok addIV =>
    rw [hiv] at hok
    simp only [bind, Except.bind] at hok
    cases hb : processBlockF fuel body G3 (some [pre]) [CondElem.str sEnterLoop]
        (iv ++ addIV) with
    | error e => rw [hb] at hok; exact Except.noConfusion hok
    | ok rBody =>
      obtain ⟨bg, bfin⟩ := rBody
      rw [hb] at hok
      simp only [bind, Except.bind] at hok
      cases hfirst : body.head? with
      | none => rw [hfirst] at hok; exact Except.noConfusion hok
      | some s0 =>
        rw [hfirst] at hok
        simp only [bind, Except.bind] at hok
        injection hok with hok1
        injection hok1 with hok2 hok3
        injection hok3 with hok4 hok5
        subst hok2
        subst hok4
        set G4 : CFG := { bg with branchInitial := bg.branchInitial ++
          [BranchEntry.loop s0 sEnterLoop (Stmt.forStmt target iter body) sEndLoop] }
          with hG4
        set G5 : CFG := addLoopBackEdges G4 bfin [pre] post with hG5
        have hpre : pre = g.vertexArr.length := (pushVertex_spec g _).1
        have hlenG1 : G1.vertexArr.length = g.vertexArr.length + 1 :=
          (pushVertex_spec g _).2.1
        have hpost : post = g.vertexArr.length + 1 := by
          rw [hpostdef, (pushVertex_spec G1 _).1, hlenG1]
        have hlenG2 : G2.vertexArr.length = g.vertexArr.length + 2 := by
          rw [hG2, (pushVertex_spec G1 _).2.1, hlenG1]
        have hG2pre : G2.getVertex pre = { nameChanged := [some nmLoop] } := by
          rw [hG2, (pushVertex_spec G1 _).2.2.2.1 pre (by omega),
            hG1, hpre, (pushVertex_spec g _).2.2.1]
        have hG2post : G2.getVertex post = { nameChanged := [some nmPostLoop] } := by
          rw [hG2, hpost, ← hlenG1, (pushVertex_spec G1 _).2.2.1]
        obtain ⟨ls1, ls2, ls3, ls4, ls5⟩ := linkToLoopAll_spec vs G2 iter pre
        have hprenin : pre ∉ vs := by
          intro hc
          have := hvs pre hc
          omega
        have hpostnin : post ∉ vs := by
          intro hc
          have := hvs post hc
          omega
        have hG3pre : sameOutgoing (G3.getVertex pre) (G2.getVertex pre) := ls5 pre hprenin
        have hG3post : sameOutgoing (G3.getVertex post) (G2.getVertex post) :=
          ls5 post hpostnin
        have hlenG3 : G3.vertexArr.length = g.vertexArr.length + 2 := by
          rw [hG3, ls1, hlenG2]
        have hpreG3 : pre < G3.vertexArr.length := by omega
        have B := QB body G3 pre [CondElem.str sEnterLoop] (iv ++ addIV) bg bfin
          hwfb hconsb hpreG3 hb
        have B0 := PB _ _ _ _ _ _ _ hb
        simp only [Option.getD_some] at B0
        obtain ⟨BFr, BFf⟩ := B0
        obtain ⟨⟨e1, t, b1, b2, b3, b4, b5, b6, b7⟩, bfr⟩ := B
        have hbfinfresh : ∀ u ∈ bfin, g.vertexArr.length + 2 ≤ u := by
          intro u hu
          have := bfr u hu
          omega
        have hprebfin : pre ∉ bfin := by
          intro hc
          have := hbfinfresh pre hc
          omega
        have hpostbfin : post ∉ bfin := by
          intro hc
          have := hbfinfresh post hc
          omega
        obtain ⟨lb1, lb2, lb3, lb4, lb5⟩ := addLoopBackEdges_keeps bfin G4 [pre] post
        have hG5pre : sameOutgoing (G5.getVertex pre) (bg.getVertex pre) := by
          rw [hG5]
          exact lb5 pre hprebfin
        have hG5post : sameOutgoing (G5.getVertex post) (bg.getVertex post) := by
          rw [hG5]
          exact lb5 post hpostbfin
        have hlenG5v : G5.vertexArr.length = bg.vertexArr.length := by
          rw [hG5, lb1]
        have hlenG5e : bg.edgePool.length ≤ G5.edgePool.length := by
          rw [hG5]
          exact lb2
        have he1G5 : G5.getEdge e1 = bg.getEdge e1 := by
          rw [hG5]
          exact lb3 e1 b4
        obtain ⟨hn1, hn2, hn3, hn4, hn5, hn6⟩ :=
          newEdgeRaw_spec G5 (.lnotE iter) (.str sLoopSkip) .selfInstr []
        obtain ⟨ha1, ha2, ha3, ha4, ha5, ha6⟩ :=
          addOutgoing_spec (G5.newEdgeRaw (.lnotE iter) (.str sLoopSkip) .selfInstr []).1 pre
            (G5.newEdgeRaw (.lnotE iter) (.str sLoopSkip) .selfInstr []).2
        obtain ⟨hs1, hs2, hs3, hs4, hs5, hs6⟩ :=
          setTargetState_spec ((G5.newEdgeRaw (.lnotE iter) (.str sLoopSkip)
            .selfInstr []).1.addOutgoing pre
            (G5.newEdgeRaw (.lnotE iter) (.str sLoopSkip) .selfInstr []).2)
            (G5.newEdgeRaw (.lnotE iter) (.str sLoopSkip) .selfInstr []).2 post
        have hpreG5 : pre < (G5.newEdgeRaw (.lnotE iter) (.str sLoopSkip)
            .selfInstr []).1.vertexArr.length := by
          rw [congrArg List.length hn3, hlenG5v]
          have := BFr.1
          omega
        have he1ne : e1 ≠ (G5.newEdgeRaw (.lnotE iter) (.str sLoopSkip) .selfInstr []).2 := by
          rw [hn1]
          have := b4
          omega
        have hseG5 : (G5.newEdgeRaw (.lnotE iter) (.str sLoopSkip) .selfInstr []).2 <
            (G5.newEdgeRaw (.lnotE iter) (.str sLoopSkip) .selfInstr []).1.edgePool.length := by
          rw [hn1, hn2]
          omega
        have hG2preFix : G2.getVertex pre = { nameChanged := [some nmLoop] } := hG2pre
        have hseG6 : (G5.newEdgeRaw (.lnotE iter) (.str sLoopSkip) .selfInstr []).2 <
            (((G5.newEdgeRaw (.lnotE iter) (.str sLoopSkip) .selfInstr []).1.addOutgoing pre
              (G5.newEdgeRaw (.lnotE iter) (.str sLoopSkip) .selfInstr []).2)).edgePool.length := by
          rw [ha6, hn1, hn2]
          omega
        have he1G6 : e1 < (G5.newEdgeRaw (.lnotE iter) (.str sLoopSkip)
            .selfInstr []).1.edgePool.length := by
          rw [hn2]
          omega
        refine ⟨by rw [hpost], ?_, ?_, ?_, ?_⟩
        · rw [hs5, ha5, congrArg List.length hn3, hlenG5v]
          have h1 := BFr.1
          omega
        · rw [← hpre]
          refine ((hs1 pre).2.1).trans ?_
          refine (((addOutgoing_keeps (G5.newEdgeRaw (.lnotE iter) (.str sLoopSkip)
            .selfInstr []).1 pre (G5.newEdgeRaw (.lnotE iter) (.str sLoopSkip)
            .selfInstr []).2).1 pre).1).trans ?_
          rw [hn4 pre]
          have hG5preS : sameStaticFields (G5.getVertex pre) (G4.getVertex pre) := by
            rw [hG5]
            exact lb4 pre
          refine (hG5preS.1).trans ?_
          have hG4pre : G4.getVertex pre = bg.getVertex pre := rfl
          rw [hG4pre]
          refine (BFr.2.2.2.1 pre hpreG3).trans ?_
          refine (hG3pre.2.1).trans ?_
          rw [hG2preFix]
        · rw [show g.vertexArr.length + 1 = post from hpost.symm]
          refine ((hs1 post).2.1).trans ?_
          refine (((addOutgoing_keeps (G5.newEdgeRaw (.lnotE iter) (.str sLoopSkip)
            .selfInstr []).1 pre (G5.newEdgeRaw (.lnotE iter) (.str sLoopSkip)
            .selfInstr []).2).1 post).1).trans ?_
          rw [hn4 post]
          refine (hG5post.2.1).trans ?_
          refine (BFr.2.2.2.1 post (by omega)).trans ?_
          refine (hG3post.2.1).trans ?_
          rw [hG2post]
        · refine ⟨e1, (G5.newEdgeRaw (.lnotE iter) (.str sLoopSkip) .selfInstr []).2,
            ?_, ?_, ?_, ?_, ?_, ?_, ?_⟩
          · rw [← hpre, (hs1 pre).1, ha2 hpreG5]
            show ((G5.newEdgeRaw (.lnotE iter) (.str sLoopSkip)
                .selfInstr []).1.getVertex pre).edges ++
              [(G5.newEdgeRaw (.lnotE iter) (.str sLoopSkip) .selfInstr []).2] =
              [e1, (G5.newEdgeRaw (.lnotE iter) (.str sLoopSkip) .selfInstr []).2]
            rw [hn4 pre, hG5pre.1, b1, hG3pre.1, hG2preFix]
            rfl
          · rw [hs6, ha6, hn2]
            omega
          · rw [hs6, ha6, hn2, hn1]
            omega
          · rw [hs4 hseG6, ha4 hseG5]
            show ((G5.newEdgeRaw (.lnotE iter) (.str sLoopSkip)
              .selfInstr []).1.getEdge
              (G5.newEdgeRaw (.lnotE iter) (.str sLoopSkip) .selfInstr []).2).instruction.isLoopSkip = true
            rw [hn1, hn6]
            show Instr.isLoopSkip (Instr.str sLoopSkip) = true
            decide
          · rw [← hpost, hs4 hseG6]
          · rw [hs3 e1 he1ne, ha3 e1 he1ne, hn5 e1 ?hlt]
            case hlt =>
              omega
            rw [he1G5]
            exact b5
          · refine ⟨t, ?_, ?_⟩
            · rw [hs3 e1 he1ne, ha3 e1 he1ne, hn5 e1 (by omega), he1G5]
              exact b6
            · omega

/-- Claim C6 (counterexample to the frozen claim): for the Python-valid
loop `for i in xs: "d"`, whose one-statement body is a bare non-call
expression statement — well-formed, but matching no edge-creating branch
of `process_block`, so the body leaves the frontier at the loop vertex —
the builder succeeds and the synthetic loop vertex ends with THREE
outgoing edges: the loop back-edge (a non-skip edge targeting the loop
vertex itself), the post-loop link (a second non-skip edge) and the
loop-skip edge, not the two edges the claim asserts. -/
theorem claim_C6_counterexample :
    wfBlock [Stmt.exprStmt (.strE ("d"))] = true ∧
    (∀ u ∈ [0], u < (initCFG []).vertexArr.length) ∧
    ∃ g2 cur2,
      processBlockF 9
        [Stmt.forStmt (.name ("i")) (.name ("xs")) [.exprStmt (.strE ("d"))]]
        (initCFG []) (some [0]) [] [] = .ok (g2, cur2) ∧
      (g2.getVertex 1).nameChanged = [some nmLoop] ∧
      (g2.getVertex 1).edges = [1, 2, 3] ∧
      (g2.getVertex 1).edges.length = 3 ∧
      (g2.getEdge 3).instruction.isLoopSkip = true ∧
      (g2.getEdge 1).instruction.isLoopSkip = false ∧
      (g2.getEdge 1).target = some 1 ∧
      (g2.getEdge 2).instruction.isLoopSkip = false := by
  exact ⟨by decide, by decide, _, _, rfl, rfl, rfl, rfl, rfl, rfl, rfl, rfl⟩

/-- Claim C6 (amended): when `process_block` processes a block headed by a
`for` loop over any frontier of existing vertices, provided the loop body
is well-formed AND frontier-consuming (contains at least one statement for
which `process_block` attaches an edge — a body of only non-call
expression statements does not, and then the loop vertex collects the
back-edge and post-loop link as extra outgoing edges), the synthetic loop
vertex — the first vertex created — ends with exactly two outgoing edges:
one loop-skip edge, whose target is the corresponding synthetic post-loop
vertex, and one non-loop-skip edge entering the loop body (its target is
a vertex created after the post-loop vertex). -/
theorem claim_C6 (fuel : Nat) (target iter : AExpr) (body rest : List Stmt)
    (g : CFG) (vs : List Nat) (cond : List CondElem) (iv : List String)
    (g2 : CFG) (cur2 : List Nat)
    (hwfb : wfBlock body = true) (hconsb : consumesBlock body = true)
    (hvs : ∀ u ∈ vs, u < g.vertexArr.length)
    (hok : processBlockF fuel (.forStmt target iter body :: rest) g (some vs) cond iv =
      .ok (g2, cur2)) :
    (g2.getVertex g.vertexArr.length).nameChanged = [some nmLoop] ∧
    (g2.getVertex (g.vertexArr.length + 1)).nameChanged = [some nmPostLoop] ∧
    ∃ e1 se, (g2.getVertex g.vertexArr.length).edges = [e1, se] ∧
      (g2.getEdge se).instruction.isLoopSkip = true ∧
      (g2.getEdge se).target = some (g.vertexArr.length + 1) ∧
      (g2.getEdge e1).instruction.isLoopSkip = false ∧
      ∃ t, (g2.getEdge e1).target = some t ∧ g.vertexArr.length + 2 ≤ t := by
  cases fuel with
  | zero => exact Except.noConfusion hok
  | succ fl =>
    replace hok : blockGoF fl (.forStmt target iter body :: rest) g vs cond iv 0 =
        .ok (g2, cur2) := hok
    cases fl with
    | zero => exact Except.noConfusion hok
    | succ fl2 =>
      rw [blockGoF] at hok
      cases hs : processStmtF fl2 (.forStmt target iter body) g vs cond iv 0
          rest.isEmpty with
      | error e => rw [hs] at hok; exact Except.noConfusion hok
      | ok r =>
        obtain ⟨rg, rcur, rcnd, rpl⟩ := r
        rw [hs] at hok
        simp only [bind, Except.bind] at hok
        cases fl2 with
        | zero => exact Except.noConfusion hs
        | succ fl3 =>
          obtain ⟨hcur, hlt, hn1, hn2, e1, se, hed, he1lt, hselt, hsk, hst, hef, t, htg, htge⟩ :=
            forStmt_loopVertex fl3 target iter body g vs cond iv 0 rest.isEmpty
              rg rcur rcnd rpl hs hwfb hconsb hvs
          obtain ⟨F, FF⟩ := (builderFrame (fl3 + 1)).2.1 rest rg rcur rcnd iv rpl g2 cur2 hok
          have hprelt : g.vertexArr.length < rg.vertexArr.length := by omega
          have hprenin : g.vertexArr.length ∉ rcur := by
            rw [hcur]
            simp
          have so := F.2.2.2.2 g.vertexArr.length hprelt hprenin
          refine ⟨?_, ?_, e1, se, ?_, ?_, ?_, ?_, t, ?_, htge⟩
          · rw [F.2.2.2.1 g.vertexArr.length hprelt]
            exact hn1
          · rw [F.2.2.2.1 (g.vertexArr.length + 1) hlt]
            exact hn2
          · rw [so.1]
            exact hed
          · rw [F.2.2.1 se hselt]
            exact hsk
          · rw [F.2.2.1 se hselt]
            exact hst
          · rw [F.2.2.1 e1 he1lt]
            exact hef
          · rw [F.2.2.1 e1 he1lt]
            exact htg

/-- Claim C6 (witness): the two-statement program whose head is
`for i in xs: f(i)` — the loop vertex (index 1) carries the loop name and
exactly the two edges, the skip edge targeting the post-loop vertex 2. -/
theorem claim_C6_witness :
    (wfBlock [Stmt.exprStmt (.call (.name ("f")) [.name ("i")])] = true ∧
     consumesBlock [Stmt.exprStmt (.call (.name ("f")) [.name ("i")])] = true ∧
     (∀ u ∈ [0], u < (initCFG []).vertexArr.length)) ∧
    ∃ g2 cur2, processBlockF 9 exC6block (initCFG []) (some [0]) [] [] = .ok (g2, cur2) ∧
      ((g2.getVertex 1).nameChanged = [some nmLoop] ∧
       (g2.getVertex 2).nameChanged = [some nmPostLoop] ∧
       ∃ e1 se, (g2.getVertex 1).edges = [e1, se] ∧
         (g2.getEdge se).instruction.isLoopSkip = true ∧
         (g2.getEdge se).target = some 2 ∧
         (g2.getEdge e1).instruction.isLoopSkip = false ∧
         ∃ t, (g2.getEdge e1).target = some t ∧ 3 ≤ t) := by
  refine ⟨⟨by decide, by decide, by decide⟩, _, _, rfl, ?_⟩
  exact claim_C6 9 (.name ("i")) (.name ("xs"))
    [Stmt.exprStmt (.call (.name ("f")) [.name ("i")])]
    [.assign [.name ("z")] (.num 0)] (initCFG []) [0] [] []
    _ _ (by decide) (by decide) (by decide) rfl
